import Mathlib

/-!
# Kojo content moderation: verdict normalisation and policy resolution

A shallow embedding of the decision engine of `src/bot.js`
(`cleanJSONResponse`, `normalizeModeration`, `ACTION_POLICY`, `decideAction`
and the gate of the message handler), of the enforcement executor
(`enforcePunishment`), of the frame sampling and worst-of reduction of
`moderateVideoFromFrames`, of the debounce gate of the speech-start
handler, of the fallback of `moderateText`, of the `messageCreate` and
`voiceStateUpdate` handlers, and of `analyzeURLAdvanced` of `src/server.js`,
together with the properties of the specification that concern them.

## Modelling conventions

* JavaScript values are the terms of `JSVal`.  Objects are association lists in
  insertion order holding their own data properties; an array carries its
  elements and, separately, the named properties assigned to it.
* A number is `NaN`, an infinity or a finite rational.  A decimal literal of the
  source (`0.55`, `0.6`, `0.85`) and a decimal number of a JSON text denote
  their decimal value; rounding to binary64 is not modelled.
* A thrown exception is the `Except.error` result of a function.
* `JSON.parse` belongs to the host, not to the repository: every function that
  calls it takes the parser as its first argument, and the theorems hold for
  every parser.  `jsonParse` is a concrete parser for the JSON grammar, used to
  evaluate the functions on concrete texts.
* `decideAction` and the gate of the handlers take a `Verdict`, the typed
  reading of an object whose `safe` is a boolean and whose `confidence` is a
  number; `normalizeModeration` returns such objects only.

The definitions come first, the lemmas and the theorems on the claims after
them.
-/

set_option maxRecDepth 100000

namespace Kojo

/-! ## JavaScript values -/

/-- A JavaScript number: `NaN`, `+Infinity`, `-Infinity` or a finite value. -/
inductive JSNum where
  | nan
  | posInf
  | negInf
  | fin (q : ℚ)
deriving DecidableEq

/-- JavaScript values.  `builtin` is an object of the runtime that a property
lookup can reach through the prototype chain of an object literal
(`Object.prototype` itself or one of its methods, or the `Object` function). -/
inductive JSVal where
  | undefined
  | null
  | bool (b : Bool)
  | num (x : JSNum)
  | str (s : String)
  | obj (fields : List (String × JSVal))
  | arr (elems : List JSVal) (props : List (String × JSVal))
  | builtin (name : String) (props : List (String × JSVal))

/-- The results of the `typeof` operator. -/
inductive JSType where
  | undefined
  | object
  | boolean
  | number
  | string
  | func
deriving DecidableEq

/-- Exceptions raised by the modelled code. -/
inductive JSError where
  | typeError (msg : String)
deriving DecidableEq

/-- The name under which `Object.prototype` is represented. -/
def objectPrototypeName : String := "Object.prototype"

/-- Models `typeof v`. -/
def typeOf : JSVal → JSType
  | .undefined => .undefined
  | .null => .object
  | .bool _ => .boolean
  | .num _ => .number
  | .str _ => .string
  | .obj _ => .object
  | .arr _ _ => .object
  | .builtin n _ => if n = objectPrototypeName then .object else .func

/-- Truthiness of a number: `NaN` and zero are falsy. -/
def JSNum.truthy : JSNum → Bool
  | .nan => false
  | .posInf => true
  | .negInf => true
  | .fin q => decide (q ≠ 0)

/-- Models `ToBoolean`: `undefined`, `null`, `false`, `NaN`, `0` and the empty
string are falsy, everything else is truthy. -/
def JSVal.truthy : JSVal → Bool
  | .undefined => false
  | .null => false
  | .bool b => b
  | .num x => x.truthy
  | .str s => decide (s ≠ "")
  | .obj _ => true
  | .arr _ _ => true
  | .builtin _ _ => true

/-- Models `a || b`. -/
def jsOr (a b : JSVal) : JSVal := if a.truthy then a else b

/-- Models `v === null`. -/
def JSVal.isNull : JSVal → Bool
  | .null => true
  | _ => false

/-- Models `v === "s"` for a string literal `s`. -/
def JSVal.isStr (v : JSVal) (s : String) : Bool :=
  match v with
  | .str t => decide (t = s)
  | _ => false

/-- Models `v === b` for a boolean literal `b`. -/
def JSVal.isBool (v : JSVal) (b : Bool) : Bool :=
  match v with
  | .bool c => decide (c = b)
  | _ => false

/-! ## Properties of objects -/

/-- Value stored under a key of an association list, if any. -/
def assocGet : List (String × JSVal) → String → Option JSVal
  | [], _ => none
  | (k, v) :: rest, key => if k = key then some v else assocGet rest key

/-- Assignment to a key of an association list: an existing key keeps its
position, a new key is appended. -/
def assocSet : List (String × JSVal) → String → JSVal → List (String × JSVal)
  | [], key, v => [(key, v)]
  | (k, w) :: rest, key, v =>
    if k = key then (k, v) :: rest else (k, w) :: assocSet rest key v

/-- The named own data properties of a value. -/
def JSVal.fields : JSVal → List (String × JSVal)
  | .obj fs => fs
  | .arr _ ps => ps
  | .builtin _ ps => ps
  | _ => []

/-- Models the read `v.key` for the property names this program reads
(`safe`, `version`, `category`, `suggested_action`, `severity`, `confidence`,
`rationale`, `action`, `reason`): none of them is defined on `Object.prototype`,
`Array.prototype` or `Function.prototype`, so the read yields the own property
or `undefined`. -/
def JSVal.get (v : JSVal) (key : String) : JSVal :=
  (assocGet v.fields key).getD .undefined

/-- Models the assignment `v.key = x` on an object, array or built-in object. -/
def JSVal.set (v : JSVal) (key : String) (x : JSVal) : JSVal :=
  match v with
  | .obj fs => .obj (assocSet fs key x)
  | .arr es ps => .arr es (assocSet ps key x)
  | .builtin n ps => .builtin n (assocSet ps key x)
  | w => w

/-- Whether a key is an own property. -/
def JSVal.has (v : JSVal) (key : String) : Bool := (assocGet v.fields key).isSome

/-! ## Property keys and object literals -/

/-- The properties every object literal inherits from `Object.prototype`. -/
def objectPrototypeMembers : List (String × JSVal) :=
  [ ("constructor", .builtin "Object" []),
    ("__proto__", .builtin objectPrototypeName []),
    ("toString", .builtin "Object.prototype.toString" []),
    ("toLocaleString", .builtin "Object.prototype.toLocaleString" []),
    ("valueOf", .builtin "Object.prototype.valueOf" []),
    ("hasOwnProperty", .builtin "Object.prototype.hasOwnProperty" []),
    ("isPrototypeOf", .builtin "Object.prototype.isPrototypeOf" []),
    ("propertyIsEnumerable", .builtin "Object.prototype.propertyIsEnumerable" []),
    ("__defineGetter__", .builtin "Object.prototype.__defineGetter__" []),
    ("__defineSetter__", .builtin "Object.prototype.__defineSetter__" []),
    ("__lookupGetter__", .builtin "Object.prototype.__lookupGetter__" []),
    ("__lookupSetter__", .builtin "Object.prototype.__lookupSetter__" []) ]

/-- Joins the string forms of the elements of an array with commas, as
`Array.prototype.join` does.  `none` stands for a string that is no property
name of any table of this program. -/
def joinKeys : List (Option String) → Option String
  | [] => some ""
  | [k] => k
  | _ :: _ :: _ => none

mutual
/-- Models `ToPropertyKey v` (that is `ToString (ToPrimitive v)`), up to the
property names that matter here.  The result `none` stands for a string that
is the name of no property of the object literals of this program or of
`Object.prototype`: the decimal form of a number, a text with a comma, the
source text of a function.  An object whose own `toString` member is data has
no usable conversion method (its inherited `valueOf` returns the object
itself), and the conversion throws a `TypeError`. -/
def toPropertyKey : JSVal → Except JSError (Option String)
  | .undefined => .ok (some "undefined")
  | .null => .ok (some "null")
  | .bool b => .ok (some (if b then "true" else "false"))
  | .num _ => .ok none
  | .str s => .ok (some s)
  | .obj fs =>
    if (assocGet fs "toString").isSome then
      .error (.typeError "Cannot convert object to primitive value")
    else .ok (some "[object Object]")
  | .arr es ps =>
    if (assocGet ps "toString").isSome then
      .error (.typeError "Cannot convert object to primitive value")
    else if (assocGet ps "join").isSome then .ok (some "[object Array]")
    else (elementKeys es).map joinKeys
  | .builtin n ps =>
    if (assocGet ps "toString").isSome then
      .error (.typeError "Cannot convert object to primitive value")
    else if n = objectPrototypeName then .ok (some "[object Object]")
    else .ok none

/-- String forms of the elements of an array, as `join` computes them:
`undefined` and `null` give the empty string. -/
def elementKeys : List JSVal → Except JSError (List (Option String))
  | [] => .ok []
  | .undefined :: rest => (elementKeys rest).map (fun ks => some "" :: ks)
  | .null :: rest => (elementKeys rest).map (fun ks => some "" :: ks)
  | v :: rest =>
    match toPropertyKey v with
    | .error e => .error e
    | .ok k => (elementKeys rest).map (fun ks => k :: ks)
end

/-- Models `literal[key]` for an object literal with the given own
properties: the own property, else the member inherited from
`Object.prototype`, else `undefined`. -/
def lookupLiteral (own : List (String × JSVal)) (key : Option String) : JSVal :=
  match key with
  | none => .undefined
  | some k =>
    match assocGet own k with
    | some v => v
    | none => (assocGet objectPrototypeMembers k).getD .undefined

/-! ## Verdict normalisation (`src/bot.js`, lines 55-84) -/

/-- The object literal of the severity lookup inside `normalizeModeration`. -/
def severityByAction : List (String × JSVal) :=
  [ ("ban", .str "critical"),
    ("kick", .str "high"),
    ("timeout_1h", .str "high"),
    ("timeout_10m", .str "medium"),
    ("delete", .str "medium"),
    ("warn", .str "low"),
    ("allow", .str "low") ]

/-- The statement `try { obj = typeof raw === "string" ? JSON.parse(raw) : raw }
catch { obj = {} }`. -/
def parseRaw (JSON_parse : String → Option JSVal) (raw : JSVal) : JSVal :=
  match raw with
  | .str s => (JSON_parse s).getD (.obj [])
  | v => v

/-- The statement `if (typeof obj !== "object" || obj === null) obj = {}`. -/
def ensureObject (obj : JSVal) : JSVal :=
  if typeOf obj ≠ .object ∨ obj.isNull = true then .obj [] else obj

/-- The statement `if (typeof obj.safe !== "boolean") obj.safe = false`. -/
def defaultSafe (obj : JSVal) : JSVal :=
  if typeOf (obj.get "safe") ≠ .boolean then obj.set "safe" (.bool false) else obj

/-- The statement `if (!obj.version) obj.version = "1.0"`. -/
def defaultVersion (obj : JSVal) : JSVal :=
  if (obj.get "version").truthy = false then obj.set "version" (.str "1.0") else obj

/-- The statement `if (!obj.category) obj.category = "other"`. -/
def defaultCategory (obj : JSVal) : JSVal :=
  if (obj.get "category").truthy = false then obj.set "category" (.str "other") else obj

/-- The statement `if (!obj.suggested_action) obj.suggested_action =
obj.safe ? "allow" : "delete"`. -/
def defaultSuggestedAction (obj : JSVal) : JSVal :=
  if (obj.get "suggested_action").truthy = false then
    obj.set "suggested_action"
      (if (obj.get "safe").truthy then .str "allow" else .str "delete")
  else obj

/-- The statement `if (!obj.severity) obj.severity = {ban: ..., allow: "low"}
[obj.suggested_action] || (obj.safe ? "low" : "medium")`.  The conversion of
`obj.suggested_action` to a property key can throw. -/
def defaultSeverity (obj : JSVal) : Except JSError JSVal :=
  if (obj.get "severity").truthy = false then
    match toPropertyKey (obj.get "suggested_action") with
    | .error e => .error e
    | .ok key =>
      .ok (obj.set "severity"
        (jsOr (lookupLiteral severityByAction key)
          (if (obj.get "safe").truthy then .str "low" else .str "medium")))
  else .ok obj

/-- The statement `if (typeof obj.confidence !== "number") obj.confidence =
obj.safe ? 0.6 : 0.85`. -/
def defaultConfidence (obj : JSVal) : JSVal :=
  if typeOf (obj.get "confidence") ≠ .number then
    obj.set "confidence"
      (if (obj.get "safe").truthy then .num (.fin 0.6) else .num (.fin 0.85))
  else obj

/-- The statement `if (!obj.rationale) obj.rationale = "normalized"`. -/
def defaultRationale (obj : JSVal) : JSVal :=
  if (obj.get "rationale").truthy = false then obj.set "rationale" (.str "normalized")
  else obj

/-- Models `normalizeModeration(raw)`: the statements of the function in source
order.  The result is `Except.error` when the function throws. -/
def normalizeModeration (JSON_parse : String → Option JSVal) (raw : JSVal) :
    Except JSError JSVal :=
  let obj := parseRaw JSON_parse raw
  let obj := ensureObject obj
  let obj := defaultSafe obj
  let obj := defaultVersion obj
  let obj := defaultCategory obj
  let obj := defaultSuggestedAction obj
  match defaultSeverity obj with
  | .error e => .error e
  | .ok obj =>
    let obj := defaultConfidence obj
    let obj := defaultRationale obj
    .ok obj

/-! ## Policy resolution (`src/bot.js`, lines 86-106) -/

/-- A policy entry `{ severity: s, action: a }`. -/
def policyEntry (s a : String) : JSVal :=
  .obj [("severity", .str s), ("action", .str a)]

/-- The object literal `ACTION_POLICY`, in source order. -/
def ACTION_POLICY : List (String × JSVal) :=
  [ ("grooming", policyEntry "critical" "ban"),
    ("personal_info_solicitation", policyEntry "high" "ban"),
    ("sexual_content", policyEntry "high" "kick"),
    ("hate_harassment", policyEntry "high" "kick"),
    ("violent_content", policyEntry "high" "kick"),
    ("scams_malware", policyEntry "high" "kick"),
    ("self_harm", policyEntry "high" "timeout_1h"),
    ("drugs_alcohol_gambling", policyEntry "medium" "delete"),
    ("dangerous_acts", policyEntry "medium" "delete"),
    ("profanity", policyEntry "low" "warn"),
    ("other", policyEntry "medium" "delete") ]

/-- The shape of a verdict that reaches `decideAction` and the gates of the
handlers: every caller passes a result of `normalizeModeration`, whose `safe`
is a boolean and whose `confidence` is a number, so the conversions that `!`,
`&&` and `<` would apply to other types never arise.  The other five fields
hold whatever value normalisation left there. -/
structure Verdict where
  version : JSVal
  safe : Bool
  confidence : JSNum
  category : JSVal
  severity : JSVal
  suggested_action : JSVal
  rationale : JSVal

/-- Reads an object as a verdict, when `safe` is a boolean and `confidence` a
number. -/
def JSVal.toVerdict? (v : JSVal) : Option Verdict :=
  match v.get "safe", v.get "confidence" with
  | .bool b, .num c =>
    some
      { version := v.get "version"
        safe := b
        confidence := c
        category := v.get "category"
        severity := v.get "severity"
        suggested_action := v.get "suggested_action"
        rationale := v.get "rationale" }
  | _, _ => none

/-- Models `x < y` for a number `x` and a finite literal `y`. -/
def JSNum.lt (x : JSNum) (y : ℚ) : Bool :=
  match x with
  | .nan => false
  | .posInf => false
  | .negInf => true
  | .fin q => decide (q < y)

/-- The override Decision `{ severity: "medium", action: "delete", reason:
"low_confidence" }`. -/
def lowConfidenceDecision : JSVal :=
  .obj [("severity", .str "medium"), ("action", .str "delete"),
    ("reason", .str "low_confidence")]

/-- The Decision `{ severity: "low", action: "allow" }`. -/
def allowDecision : JSVal := policyEntry "low" "allow"

/-- Models `decideAction(ai)`.  The first statement looks the category up in
`ACTION_POLICY`, which converts `ai.category` to a property key and can
throw. -/
def decideAction (ai : Verdict) : Except JSError JSVal :=
  match toPropertyKey ai.category with
  | .error e => .error e
  | .ok key =>
    let policy := jsOr (lookupLiteral ACTION_POLICY key)
      (lookupLiteral ACTION_POLICY (some "other"))
    if ai.safe = true ∧ ai.confidence.lt 0.55 = true then .ok lowConfidenceDecision
    else if ai.safe = false then .ok policy
    else .ok allowDecision

/-- The condition `!ai.safe || ai.severity !== "low"` under which the message
handler and the voice handlers call `applyModeration` and stop. -/
def handlerGate (ai : Verdict) : Bool :=
  !ai.safe || !(ai.severity.isStr "low")

/-- The condition `decision.action !== "allow"` under which `applyModeration`
deletes the message. -/
def deletesMessage (decision : JSVal) : Bool :=
  !((decision.get "action").isStr "allow")

/-! ## Locating the JSON text (`src/bot.js`, lines 49-53) -/

/-- The characters `String.prototype.trim` removes: the white space and line
terminator code points of ECMAScript. -/
def isJSWhitespace (c : Char) : Bool :=
  let n := c.toNat
  n = 0x09 || n = 0x0A || n = 0x0B || n = 0x0C || n = 0x0D || n = 0x20 || n = 0xA0 ||
  n = 0x1680 || (0x2000 ≤ n && n ≤ 0x200A) || n = 0x2028 || n = 0x2029 || n = 0x202F ||
  n = 0x205F || n = 0x3000 || n = 0xFEFF

/-- Models `s.trim()` on the characters of a string. -/
def trimChars (cs : List Char) : List Char :=
  ((cs.dropWhile isJSWhitespace).reverse.dropWhile isJSWhitespace).reverse

/-- Models `s.match(/\{[\s\S]*\}/)`: the leftmost match starts at the first
opening brace and, the star being greedy, extends to the last closing brace
of the text; there is no match when no closing brace follows the first opening
brace. -/
def matchBraces (cs : List Char) : Option (List Char) :=
  match cs.dropWhile (fun c => c != '{') with
  | [] => none
  | rest =>
    match rest.reverse.dropWhile (fun c => c != '}') with
    | [] => none
    | rev => some rev.reverse

/-- Models `cleanJSONResponse(s)`. -/
def cleanJSONResponse (s : JSVal) : JSVal :=
  match s with
  | .str t =>
    match matchBraces t.toList with
    | some fence => .str (String.mk fence)
    | none => .str (String.mk (trimChars t.toList))
  | v => v

/-! ## A parser for JSON texts

`jsonParse` models the host function `JSON.parse`: `none` stands for the
`SyntaxError` it throws.  It reads the text in one pass into tokens and runs
the tokens through a stack of open containers.  A number has the value of its
decimal notation.  An escape that denotes a surrogate code unit, which a
character of Lean cannot hold, is read as U+FFFD. -/

/-- Tokens of a JSON text. -/
inductive Token where
  | lbrace
  | rbrace
  | lbrack
  | rbrack
  | colon
  | comma
  | string (s : String)
  | atom (v : JSVal)

/-- Value of a run of decimal digits. -/
def digitsToNat (ds : List Char) : Nat :=
  ds.foldl (fun n c => 10 * n + (c.toNat - 48)) 0

/-- Value of a run of hexadecimal digits. -/
def hexToNat (ds : List Char) : Nat :=
  ds.foldl
    (fun n c =>
      16 * n +
        (if c.isDigit then c.toNat - 48
         else if 97 ≤ c.toNat then c.toNat - 87 else c.toNat - 55))
    0

/-- Whether a character is a hexadecimal digit. -/
def isHexDigit (c : Char) : Bool :=
  c.isDigit || (97 ≤ c.toNat && c.toNat ≤ 102) || (65 ≤ c.toNat && c.toNat ≤ 70)

/-- Whether a run of digits is non-empty and has no superfluous leading zero. -/
def validIntegerPart (ds : List Char) : Bool :=
  match ds with
  | [] => false
  | [_] => true
  | d :: _ :: _ => d != '0'

/-- The exponent part of a JSON number: empty, or `e`/`E`, an optional sign and
at least one digit. -/
def parseExponent (cs : List Char) : Option ℤ :=
  match cs with
  | [] => some 0
  | c :: rest =>
    if c = 'e' ∨ c = 'E' then
      match rest with
      | '-' :: ds =>
        if ds ≠ [] ∧ ds.all Char.isDigit = true then some (-(digitsToNat ds : ℤ)) else none
      | '+' :: ds =>
        if ds ≠ [] ∧ ds.all Char.isDigit = true then some (digitsToNat ds : ℤ) else none
      | ds =>
        if ds ≠ [] ∧ ds.all Char.isDigit = true then some (digitsToNat ds : ℤ) else none
    else none

/-- The number `m * 10 ^ e / 10 ^ k` for a mantissa `m` written with `k`
fraction digits and a decimal exponent `e`. -/
def scaleDecimal (m k : ℕ) (e : ℤ) : ℚ :=
  match e with
  | .ofNat n => mkRat ((m * 10 ^ n : ℕ) : ℤ) (10 ^ k)
  | .negSucc n => mkRat (m : ℤ) (10 ^ k * 10 ^ (n + 1))

/-- The value of an unsigned JSON number: integer part, optional fraction,
optional exponent. -/
def parseUnsigned (cs : List Char) : Option ℚ :=
  let ip := cs.takeWhile Char.isDigit
  let rest := cs.dropWhile Char.isDigit
  if validIntegerPart ip = false then none
  else
    match rest with
    | '.' :: afterDot =>
      let fp := afterDot.takeWhile Char.isDigit
      if fp = [] then none
      else
        (parseExponent (afterDot.dropWhile Char.isDigit)).map
          (fun e => scaleDecimal (digitsToNat (ip ++ fp)) fp.length e)
    | _ => (parseExponent rest).map (fun e => scaleDecimal (digitsToNat ip) 0 e)

/-- The value of a JSON number. -/
def parseNumber (cs : List Char) : Option ℚ :=
  match cs with
  | '-' :: rest => (parseUnsigned rest).map (fun q => -q)
  | _ => parseUnsigned cs

/-- The token of a word: `true`, `false`, `null` or a number. -/
def wordToken (w : List Char) : Option Token :=
  if w = ['t', 'r', 'u', 'e'] then some (.atom (.bool true))
  else if w = ['f', 'a', 'l', 's', 'e'] then some (.atom (.bool false))
  else if w = ['n', 'u', 'l', 'l'] then some (.atom .null)
  else (parseNumber w).map (fun q => .atom (.num (.fin q)))

/-- What the tokenizer is reading.  Accumulated characters are in reverse. -/
inductive LexMode where
  | idle
  | word (acc : List Char)
  | inString (acc : List Char)
  | escape (acc : List Char)
  | unicode (acc : List Char) (digits : List Char)

/-- Whether a character can be part of a literal name or a number. -/
def isWordChar (c : Char) : Bool :=
  c.isAlphanum || c = '+' || c = '-' || c = '.'

/-- One character read between tokens. -/
def idleStep (c : Char) : Option (LexMode × List Token) :=
  if c = ' ' ∨ c = '\t' ∨ c = '\n' ∨ c = '\r' then some (.idle, [])
  else if c = '{' then some (.idle, [.lbrace])
  else if c = '}' then some (.idle, [.rbrace])
  else if c = '[' then some (.idle, [.lbrack])
  else if c = ']' then some (.idle, [.rbrack])
  else if c = ':' then some (.idle, [.colon])
  else if c = ',' then some (.idle, [.comma])
  else if c = '"' then some (.inString [], [])
  else if isWordChar c then some (.word [c], [])
  else none

/-- The character an escape sequence of one letter denotes. -/
def escapedChar (c : Char) : Option Char :=
  if c = '"' then some '"'
  else if c = '\\' then some '\\'
  else if c = '/' then some '/'
  else if c = 'b' then some (Char.ofNat 8)
  else if c = 'f' then some (Char.ofNat 12)
  else if c = 'n' then some '\n'
  else if c = 'r' then some '\r'
  else if c = 't' then some '\t'
  else none

/-- The character of a `\u` escape. -/
def unicodeChar (ds : List Char) : Char :=
  let n := hexToNat ds
  if 0xD800 ≤ n ∧ n ≤ 0xDFFF then Char.ofNat 0xFFFD else Char.ofNat n

/-- One character read by the tokenizer: the next mode and the tokens that
are complete. -/
def lexStep (mode : LexMode) (c : Char) : Option (LexMode × List Token) :=
  match mode with
  | .idle => idleStep c
  | .word acc =>
    if isWordChar c then some (.word (c :: acc), [])
    else
      match wordToken acc.reverse, idleStep c with
      | some t, some (m, ts) => some (m, t :: ts)
      | _, _ => none
  | .inString acc =>
    if c = '"' then some (.idle, [.string (String.mk acc.reverse)])
    else if c = '\\' then some (.escape acc, [])
    else if c.toNat < 32 then none
    else some (.inString (c :: acc), [])
  | .escape acc =>
    if c = 'u' then some (.unicode acc [], [])
    else (escapedChar c).map (fun d => (.inString (d :: acc), []))
  | .unicode acc ds =>
    if isHexDigit c then
      if ds.length = 3 then some (.inString (unicodeChar (ds ++ [c]) :: acc), [])
      else some (.unicode acc (ds ++ [c]), [])
    else none

/-- The tokens of a text, or `none` when the text is not made of tokens. -/
def lexAux : LexMode → List Char → Option (List Token)
  | .idle, [] => some []
  | .word acc, [] => (wordToken acc.reverse).map (fun t => [t])
  | _, [] => none
  | mode, c :: cs =>
    match lexStep mode c with
    | none => none
    | some (m, ts) => (lexAux m cs).map (fun rest => ts ++ rest)

/-- An open position of the parser.  The first frame of the stack says what
the parser expects next. -/
inductive Frame where
  | top
  | arrStart
  | arrValue (elems : List JSVal)
  | arrNext (elems : List JSVal)
  | objStart
  | objKey (fields : List (String × JSVal))
  | objColon (fields : List (String × JSVal)) (key : String)
  | objValue (fields : List (String × JSVal)) (key : String)
  | objNext (fields : List (String × JSVal))
  | done (v : JSVal)

/-- Hands a complete value to the position that expects one. -/
def deliver (v : JSVal) : List Frame → Option (List Frame)
  | .top :: rest => some (.done v :: rest)
  | .arrStart :: rest => some (.arrNext [v] :: rest)
  | .arrValue es :: rest => some (.arrNext (es ++ [v]) :: rest)
  | .objValue fs k :: rest => some (.objNext (assocSet fs k v) :: rest)
  | _ => none

/-- Whether the first frame expects a value. -/
def expectsValue : List Frame → Bool
  | .top :: _ => true
  | .arrStart :: _ => true
  | .arrValue _ :: _ => true
  | .objValue _ _ :: _ => true
  | _ => false

/-- One token read by the parser. -/
def parseStep (stack : List Frame) (t : Token) : Option (List Frame) :=
  match t, stack with
  | .atom v, _ => deliver v stack
  | .string s, .objStart :: rest => some (.objColon [] s :: rest)
  | .string s, .objKey fs :: rest => some (.objColon fs s :: rest)
  | .string s, _ => deliver (.str s) stack
  | .lbrack, _ => if expectsValue stack then some (.arrStart :: stack) else none
  | .lbrace, _ => if expectsValue stack then some (.objStart :: stack) else none
  | .rbrack, .arrStart :: rest => deliver (.arr [] []) rest
  | .rbrack, .arrNext es :: rest => deliver (.arr es []) rest
  | .rbrace, .objStart :: rest => deliver (.obj []) rest
  | .rbrace, .objNext fs :: rest => deliver (.obj fs) rest
  | .comma, .arrNext es :: rest => some (.arrValue es :: rest)
  | .comma, .objNext fs :: rest => some (.objKey fs :: rest)
  | .colon, .objColon fs k :: rest => some (.objValue fs k :: rest)
  | _, _ => none

/-- Runs the tokens through the parser. -/
def parseTokens : List Frame → List Token → Option (List Frame)
  | stack, [] => some stack
  | stack, t :: ts =>
    match parseStep stack t with
    | none => none
    | some stack => parseTokens stack ts

/-- Models `JSON.parse(text)`: the value of the text, or `none` for a
`SyntaxError`. -/
def jsonParse (text : String) : Option JSVal :=
  match lexAux .idle text.toList with
  | none => none
  | some tokens =>
    match parseTokens [.top] tokens with
    | some [.done v] => some v
    | _ => none

/-! ## The vocabulary of the specification -/

/-- Whether a value can carry properties: an object, an array or a built-in. -/
def JSVal.isObjectLike : JSVal → Bool
  | .obj _ => true
  | .arr _ _ => true
  | .builtin _ _ => true
  | _ => false

/-- The twelve categories of a Verdict, as the specification lists them. -/
def categoryEnum : List String :=
  ["none", "profanity", "sexual_content", "grooming", "self_harm", "hate_harassment",
    "violent_content", "personal_info_solicitation", "scams_malware", "dangerous_acts",
    "drugs_alcohol_gambling", "other"]

/-- The four severities, as the specification lists them. -/
def severityEnum : List String := ["low", "medium", "high", "critical"]

/-- The seven actions, as the specification lists them. -/
def actionEnum : List String :=
  ["allow", "warn", "delete", "timeout_10m", "timeout_1h", "kick", "ban"]

/-- The severity-from-action table, as the specification states it. -/
def specSeverityTable : List (String × String) :=
  [("ban", "critical"), ("kick", "high"), ("timeout_1h", "high"), ("timeout_10m", "medium"),
    ("delete", "medium"), ("warn", "low"), ("allow", "low")]

/-- Models `x >= y` for a number `x` and a finite literal `y`. -/
def JSNum.ge (x : JSNum) (y : ℚ) : Bool :=
  match x with
  | .nan => false
  | .posInf => true
  | .negInf => false
  | .fin q => decide (y ≤ q)

/-- Whether a value is a string of the given list. -/
def JSVal.isOneOf (v : JSVal) (names : List String) : Bool :=
  match v with
  | .str s => decide (s ∈ names)
  | _ => false

/-- The verdict `normalizeModeration` builds from the empty object. -/
def conservativeVerdict : JSVal :=
  .obj [("safe", .bool false), ("version", .str "1.0"), ("category", .str "other"),
    ("suggested_action", .str "delete"), ("severity", .str "medium"),
    ("confidence", .num (.fin 0.85)), ("rationale", .str "normalized")]

/-- The span the specification describes: from the first opening brace to the
closing brace that balances it, counting nested braces.  `depth` is the number
of braces open so far and `acc` the span read so far, in reverse. -/
def balancedFrom : ℕ → List Char → List Char → Option (List Char)
  | _, _, [] => none
  | depth, acc, c :: cs =>
    if c = '{' then balancedFrom (depth + 1) (c :: acc) cs
    else if c = '}' then
      if depth = 1 then some (c :: acc).reverse
      else balancedFrom (depth - 1) (c :: acc) cs
    else balancedFrom depth (c :: acc) cs

/-- The first balanced `{...}` span of a text, if there is one. -/
def firstBalancedSpan (cs : List Char) : Option (List Char) :=
  match cs.dropWhile (fun c => c != '{') with
  | [] => none
  | c :: rest => balancedFrom 1 [c] rest

/-- Whether a value is a number in the interval `[0, 1]`. -/
def JSVal.isUnitNumber (v : JSVal) : Prop :=
  ∃ q : ℚ, v = .num (.fin q) ∧ 0 ≤ q ∧ q ≤ 1

/-- Whether a value is a string. -/
def JSVal.isString (v : JSVal) : Prop := ∃ s, v = .str s

/-- The fields a parsed object supplies are well-typed: each of `category`,
`severity`, `suggested_action`, `version` and `rationale` is falsy (absent) or
of its type, and `confidence` is not a number or is a number in `[0, 1]`. -/
structure SuppliedFieldsWellTyped (o : JSVal) : Prop where
  category : (o.get "category").truthy = true → (o.get "category").isOneOf categoryEnum = true
  severity : (o.get "severity").truthy = true → (o.get "severity").isOneOf severityEnum = true
  suggested_action :
    (o.get "suggested_action").truthy = true →
      (o.get "suggested_action").isOneOf actionEnum = true
  version : (o.get "version").truthy = true → (o.get "version").isString
  rationale : (o.get "rationale").truthy = true → (o.get "rationale").isString
  confidence : typeOf (o.get "confidence") = .number → (o.get "confidence").isUnitNumber

/-- The seven fields of `conservativeVerdict`. -/
def conservativeFields : List (String × JSVal) :=
  [("safe", .bool false), ("version", .str "1.0"), ("category", .str "other"),
    ("suggested_action", .str "delete"), ("severity", .str "medium"),
    ("confidence", .num (.fin 0.85)), ("rationale", .str "normalized")]

/-- The typed reading of `conservativeVerdict`. -/
def conservativeTyped : Verdict :=
  { version := .str "1.0"
    safe := false
    confidence := .fin 0.85
    category := .str "other"
    severity := .str "medium"
    suggested_action := .str "delete"
    rationale := .str "normalized" }

/-! ## Auxiliary definitions of the proofs -/

/-- The severity `defaultSeverity` stores when the property key is `key`. -/
def severityFor (o : JSVal) (key : Option String) : JSVal :=
  jsOr (lookupLiteral severityByAction key)
    (if (o.get "safe").truthy then .str "low" else .str "medium")

/-- The object `normalizeModeration` works on: the parsed input, or the empty
object when the input is not an object. -/
def parsedObject (JSON_parse : String → Option JSVal) (raw : JSVal) : JSVal :=
  ensureObject (parseRaw JSON_parse raw)

/-- The object before the severity statement of `normalizeModeration`. -/
def beforeSeverity (o : JSVal) : JSVal :=
  defaultSuggestedAction (defaultCategory (defaultVersion (defaultSafe o)))

/-- The value of `safe` after the first statement. -/
def safeOf (o : JSVal) : JSVal :=
  if typeOf (o.get "safe") = .boolean then o.get "safe" else .bool false

/-- The value of `suggested_action` after its statement. -/
def suggestedActionOf (o : JSVal) : JSVal :=
  jsOr (o.get "suggested_action")
    (if (safeOf o).truthy then .str "allow" else .str "delete")

/-- The severity of the result, when the parsed object has none: the entry of
the lookup table under the key of the suggested action, else `low` for a safe
verdict and `medium` for an unsafe one. -/
def severityOf (o : JSVal) (key : Option String) : JSVal :=
  jsOr (lookupLiteral severityByAction key)
    (if (safeOf o).truthy then .str "low" else .str "medium")

/-- The value of `confidence` after its statement. -/
def confidenceOf (o : JSVal) : JSVal :=
  if typeOf (o.get "confidence") = .number then o.get "confidence"
  else if (safeOf o).truthy then .num (.fin 0.6) else .num (.fin 0.85)

/-- The value of `ACTION_POLICY[key] || ACTION_POLICY.other`. -/
def policyFor (key : Option String) : JSVal :=
  jsOr (lookupLiteral ACTION_POLICY key) (lookupLiteral ACTION_POLICY (some "other"))

/-- A Decision whose action is not `allow` and which has no `reason`. -/
def isPlainNonAllow (d : JSVal) : Bool :=
  !((d.get "action").isStr "allow") && !(d.has "reason")

/-! ## Sample inputs -/

/-- A classifier reply whose `suggested_action` is an object with a data member
named `toString`. -/
def unconvertibleActionReply : String :=
  "\x7b\"suggested_action\":\x7b\"toString\":0\x7d\x7d"

/-- A verdict that claims safety with confidence 0.3 and a punitive
suggestion. -/
def unsureVerdict : Verdict :=
  { version := .str "1.0"
    safe := true
    confidence := .fin 0.3
    category := .str "grooming"
    severity := .str "critical"
    suggested_action := .str "ban"
    rationale := .str "unsure" }

/-- An unsafe verdict of category `grooming` whose own severity and suggested
action are the mildest. -/
def groomingVerdict : Verdict :=
  { version := .str "1.0"
    safe := false
    confidence := .fin 0.9
    category := .str "grooming"
    severity := .str "low"
    suggested_action := .str "allow"
    rationale := .str "r" }

/-- A safe verdict whose confidence is exactly 0.55. -/
def thresholdVerdict : Verdict :=
  { version := .str "1.0"
    safe := true
    confidence := .fin 0.55
    category := .str "none"
    severity := .str "low"
    suggested_action := .str "allow"
    rationale := .str "r" }

/-- A classifier reply that is unsafe with the category `constructor`. -/
def constructorReply : String := "\x7b\"safe\":false,\"category\":\"constructor\"\x7d"

/-- The verdict `normalizeModeration` returns for `constructorReply`. -/
def constructorVerdict : Verdict :=
  { version := .str "1.0"
    safe := false
    confidence := .fin 0.85
    category := .str "constructor"
    severity := .str "medium"
    suggested_action := .str "delete"
    rationale := .str "normalized" }

/-- A classifier reply that claims safety with confidence 0.3. -/
def quietUnsureReply : String := "\x7b\"safe\":true,\"confidence\":0.3\x7d"

/-- The verdict `normalizeModeration` returns for `quietUnsureReply`: safe,
with confidence 0.3 and the defaults `allow` and `low`. -/
def quietUnsureVerdict : Verdict :=
  { version := .str "1.0"
    safe := true
    confidence := .fin (mkRat 3 10)
    category := .str "other"
    severity := .str "low"
    suggested_action := .str "allow"
    rationale := .str "normalized" }

/-- A safe verdict of high confidence whose severity is not `low`. -/
def sureSevereVerdict : Verdict :=
  { version := .str "1.0"
    safe := true
    confidence := .fin 0.9
    category := .str "none"
    severity := .str "high"
    suggested_action := .str "allow"
    rationale := .str "r" }

/-- A classifier reply none of whose fields but `safe` has a value of the
data model. -/
def illTypedReply : String :=
  "\x7b\"safe\":true,\"confidence\":5,\"category\":\"spam\",\"severity\":\"none\"," ++
    "\"suggested_action\":\"mute\",\"version\":2,\"rationale\":[\"x\"]\x7d"

/-- The object `JSON.parse` builds from `illTypedReply`. -/
def illTypedObject : JSVal :=
  .obj [("safe", .bool true), ("confidence", .num (.fin (mkRat 5 1))),
    ("category", .str "spam"), ("severity", .str "none"), ("suggested_action", .str "mute"),
    ("version", .num (.fin (mkRat 2 1))), ("rationale", .arr [.str "x"] [])]

/-- A classifier reply that supplies a category and a suggested action only. -/
def partialReply : String := "\x7b\"category\":\"grooming\",\"suggested_action\":\"kick\"\x7d"

/-- A reply in which a second pair of braces follows the JSON object. -/
def trailingBracesReply : String :=
  "Verdict: \x7b\"safe\":true,\"severity\":\"low\"\x7d (schema: \x7b...\x7d)"

/-- The first balanced span of `trailingBracesReply`, a valid JSON object. -/
def trailingBracesObject : String := "\x7b\"safe\":true,\"severity\":\"low\"\x7d"

/-- A classifier reply with a suggested action and no severity. -/
def kickReply : String :=
  "\x7b\"safe\":true,\"category\":\"none\",\"suggested_action\":\"kick\"\x7d"

/-! ## Enforcement (`src/bot.js`, lines 504-557)

A member is read through its three capability flags; `null` is the absent
member.  The calls to the platform (`member.ban`, `member.kick`,
`member.timeout`) are a parameter: the platform answers a call with `none` when
it succeeds and with the value it throws when it fails.  A thrown value is an
`Error`, given by its `message` and by its string form. -/

/-- The capability flags of a guild member, as `member?.bannable`,
`member?.kickable` and `member?.moderatable` read them. -/
structure Member where
  bannable : Bool
  kickable : Bool
  moderatable : Bool

/-- A call to the platform.  The sanction calls carry the value `reason`, from
which the text ``Kojo: ${reason}`` is made; a timeout carries its duration in
milliseconds. -/
inductive PlatformCall where
  | ban (reason : JSVal)
  | kick (reason : JSVal)
  | timeout (ms : ℕ) (reason : JSVal)

/-- A value thrown by a platform call: `message` is `e.message` (empty when the
error has none) and `text` is `String(e)`. -/
structure Thrown where
  message : String
  text : String

/-- The object `enforcePunishment` returns: `{ applied }` or
`{ applied, note }`. -/
structure EnforcementResult where
  applied : Bool
  note : Option String
deriving DecidableEq

/-- A run of `enforcePunishment`: the result and the platform calls attempted,
in order. -/
structure Enforcement where
  result : EnforcementResult
  calls : List PlatformCall

/-- Models `String(e?.message || e)`. -/
def errorText (e : Thrown) : String :=
  if e.message ≠ "" then e.message else e.text

/-- Models `member?.bannable`: `undefined`, hence falsy, for the absent
member. -/
def canBan (member : Option Member) : Bool :=
  match member with
  | none => false
  | some m => m.bannable

/-- Models `member?.kickable`. -/
def canKick (member : Option Member) : Bool :=
  match member with
  | none => false
  | some m => m.kickable

/-- Models `member?.moderatable`. -/
def canModerate (member : Option Member) : Bool :=
  match member with
  | none => false
  | some m => m.moderatable

/-- One sanction inside the `try` block: the argument ``Kojo: ${reason}`` is
evaluated first, and the conversion of `reason` to a string can throw; then the
call is made.  Either exception is caught, and the `catch` block returns
`{ applied: false, note: String(e?.message || e) }`. -/
def sanction (platform : PlatformCall → Option Thrown) (reason : JSVal)
    (call : PlatformCall) (done : EnforcementResult) : Enforcement :=
  match toPropertyKey reason with
  | .error (.typeError msg) => { result := { applied := false, note := some msg }, calls := [] }
  | .ok _ =>
    match platform call with
    | none => { result := done, calls := [call] }
    | some e => { result := { applied := false, note := some (errorText e) }, calls := [call] }

/-- Models `enforcePunishment(member, action, reason)`. -/
def enforcePunishment (platform : PlatformCall → Option Thrown) (member : Option Member)
    (action : JSVal) (reason : JSVal) : Enforcement :=
  if action.isStr "ban" then
    if canBan member then
      sanction platform reason (.ban reason) { applied := true, note := none }
    else if canKick member then
      sanction platform reason (.kick reason) { applied := true, note := some "kick fallback" }
    else if canModerate member then
      sanction platform reason (.timeout (60 * 60 * 1000) reason)
        { applied := true, note := some "timeout fallback" }
    else
      { result := { applied := false, note := some "not bannable/kickable/moderatable" },
        calls := [] }
  else if action.isStr "kick" then
    if canKick member then
      sanction platform reason (.kick reason) { applied := true, note := none }
    else if canModerate member then
      sanction platform reason (.timeout (60 * 60 * 1000) reason)
        { applied := true, note := some "timeout fallback" }
    else { result := { applied := false, note := some "not kickable/moderatable" }, calls := [] }
  else if action.isStr "timeout_1h" then
    if canModerate member then
      sanction platform reason (.timeout (60 * 60 * 1000) reason)
        { applied := true, note := none }
    else { result := { applied := false, note := some "not moderatable" }, calls := [] }
  else if action.isStr "timeout_10m" then
    if canModerate member then
      sanction platform reason (.timeout (10 * 60 * 1000) reason)
        { applied := true, note := none }
    else { result := { applied := false, note := some "not moderatable" }, calls := [] }
  else { result := { applied := true, note := none }, calls := [] }

/-- Whether a call is a ban. -/
def PlatformCall.isBan : PlatformCall → Bool
  | .ban _ => true
  | _ => false

/-- A platform on which every call succeeds. -/
def obligingPlatform : PlatformCall → Option Thrown := fun _ => none

/-- A platform on which every call fails with a permission error. -/
def refusingPlatform : PlatformCall → Option Thrown :=
  fun _ => some { message := "Missing Permissions", text := "DiscordAPIError: Missing Permissions" }

/-! ## Debounce of speech-start events (`src/bot.js`, lines 786, 833-841)

Times are the integers `Date.now()` returns, in milliseconds.  The map
`perUserDebounce` is a function from user ids to the recorded time, if any. -/

/-- The constant `MIN_GAP_MS`. -/
def MIN_GAP_MS : ℤ := 1500

/-- The map `session.perUserDebounce`. -/
abbrev DebounceMap := String → Option ℤ

/-- Models `session.perUserDebounce.get(userId) || 0`: a missing entry, like a
recorded time 0, reads as 0. -/
def lastTrigger (perUserDebounce : DebounceMap) (userId : String) : ℤ :=
  (perUserDebounce userId).getD 0

/-- Models `session.perUserDebounce.set(userId, now)`. -/
def recordTrigger (perUserDebounce : DebounceMap) (userId : String) (now : ℤ) : DebounceMap :=
  fun u => if u = userId then some now else perUserDebounce u

/-- The debounce gate of the speech-start handler: `if (now - last <
MIN_GAP_MS) return; session.perUserDebounce.set(userId, now)`.  The result
says whether the event passes and gives the map afterwards. -/
def debounceGate (perUserDebounce : DebounceMap) (userId : String) (now : ℤ) :
    Bool × DebounceMap :=
  if now - lastTrigger perUserDebounce userId < MIN_GAP_MS then (false, perUserDebounce)
  else (true, recordTrigger perUserDebounce userId now)

/-- Runs a sequence of speech-start events `(userId, now)` through the gate;
the result lists, in order, whether each event passed, and gives the final
map. -/
def debounceRun : DebounceMap → List (String × ℤ) → List Bool × DebounceMap
  | m, [] => ([], m)
  | m, (u, now) :: rest =>
    let step := debounceGate m u now
    let tail := debounceRun step.2 rest
    (step.1 :: tail.1, tail.2)

/-- The map of a fresh session: `new Map()`. -/
def emptyDebounce : DebounceMap := fun _ => none

/-! ## Frame sampling and the worst-of reduction (`src/bot.js`, lines 375-426)

The download, the probe and the extraction of frames are effects of the host;
the embedding takes their results as inputs: the duration, the listing of the
frames directory and the verdict `moderateImage` returns for each file.  The
decimal form of a number, `Number::toString`, is a parameter. -/

/-- Models the array `pts` for a finite duration: `[0.1, 0.5, 0.9].map((p) =>
Math.max(0.0, Math.min(durationSec - 0.1, durationSec * p)))`. -/
def pts (durationSec : ℚ) : List ℚ :=
  [0.1, 0.5, 0.9].map (fun p => max 0.0 (min (durationSec - 0.1) (durationSec * p)))

/-- Models `/\.jpe?g$/i.test(f)`: the name ends in `.jpg` or `.jpeg`, in any
case of the letters. -/
def isJpegName (f : String) : Bool :=
  let cs := f.toList.map Char.toLower
  ['.', 'j', 'p', 'g'].isSuffixOf cs || ['.', 'j', 'p', 'e', 'g'].isSuffixOf cs

/-- Models the array `files`: `fs.readdirSync(framesDir).filter((f) =>
/\.jpe?g$/i.test(f)).slice(0, 4)`. -/
def files (listing : List String) : List String :=
  (listing.filter isJpegName).take 4

/-- The object literal `rank`. -/
def rank : List (String × JSVal) :=
  [ ("critical", .num (.fin 3)),
    ("high", .num (.fin 2)),
    ("medium", .num (.fin 1)),
    ("low", .num (.fin 0)) ]

/-- Whether a value is `undefined` or `null`. -/
def JSVal.isNullish : JSVal → Bool
  | .undefined => true
  | .null => true
  | _ => false

/-- Models `a ?? b`. -/
def jsCoalesce (a b : JSVal) : JSVal := if a.isNullish then b else a

/-- The string form of a built-in: `[object Object]` for `Object.prototype`,
the source text of a native function otherwise. -/
def builtinText (name : String) : String :=
  if name = objectPrototypeName then "[object Object]"
  else if name = "Object" then "function Object() \x7b [native code] \x7d"
  else "function " ++ name.drop 17 ++ "() \x7b [native code] \x7d"

/-- Models `x > y` on numbers. -/
def JSNum.gt (x y : JSNum) : Bool :=
  match x, y with
  | .nan, _ => false
  | _, .nan => false
  | .posInf, .posInf => false
  | .posInf, _ => true
  | _, .posInf => false
  | .negInf, _ => false
  | .fin _, .negInf => true
  | .fin a, .fin b => decide (b < a)

/-- Models `a > b` for two operands of the form `rank[...] ?? 0`.  Such an
operand is a number of the table, the number 0, or a built-in inherited from
`Object.prototype`.  Two numbers compare as numbers; two built-ins convert to
their string forms and compare as strings; a built-in against a number
converts to `NaN` and the comparison is false. -/
def rankGreater (a b : JSVal) : Bool :=
  match a, b with
  | .num x, .num y => x.gt y
  | .builtin n _, .builtin m _ => decide (builtinText m < builtinText n)
  | _, _ => false

/-- Models `rank[r.severity] ?? 0`; the conversion of the severity to a
property key can throw. -/
def rankOperand (r : JSVal) : Except JSError JSVal :=
  match toPropertyKey (r.get "severity") with
  | .error e => .error e
  | .ok key => .ok (jsCoalesce (lookupLiteral rank key) (.num (.fin 0)))

/-- Models the test `(rank[r.severity] ?? 0) > (rank[worst.severity] ?? 0)`,
the left operand first. -/
def worseThan (r worst : JSVal) : Except JSError Bool :=
  match rankOperand r with
  | .error e => .error e
  | .ok a =>
    match rankOperand worst with
    | .error e => .error e
    | .ok b => .ok (rankGreater a b)

/-- Models the loop `for (const r of rest) { if (...) worst = r }`, started
with the current `worst`. -/
def worstFrom : JSVal → List JSVal → Except JSError JSVal
  | worst, [] => .ok worst
  | worst, r :: rest =>
    match worseThan r worst with
    | .error e => .error e
    | .ok true => worstFrom r rest
    | .ok false => worstFrom worst rest

/-- Models `let worst = results[0]; for (const r of results.slice(1)) ...`. -/
def worst (results : List JSVal) : Except JSError JSVal :=
  match results with
  | [] => .ok .undefined
  | first :: rest => worstFrom first rest

mutual
/-- Models `ToString v`, as string concatenation and template literals apply
it: the text of a primitive, the joined texts of the elements of an array, the
string form of an object.  An object whose own `toString` member is data has
no conversion, and the conversion throws a `TypeError`. -/
def toText (numberToString : JSNum → String) : JSVal → Except JSError String
  | .undefined => .ok "undefined"
  | .null => .ok "null"
  | .bool b => .ok (if b then "true" else "false")
  | .num x => .ok (numberToString x)
  | .str s => .ok s
  | .obj fs =>
    if (assocGet fs "toString").isSome then
      .error (.typeError "Cannot convert object to primitive value")
    else .ok "[object Object]"
  | .arr es ps =>
    if (assocGet ps "toString").isSome then
      .error (.typeError "Cannot convert object to primitive value")
    else if (assocGet ps "join").isSome then .ok "[object Array]"
    else (elementTexts numberToString es).map (fun ts => ",".intercalate ts)
  | .builtin n ps =>
    if (assocGet ps "toString").isSome then
      .error (.typeError "Cannot convert object to primitive value")
    else .ok (builtinText n)

/-- The texts of the elements of an array, as `join` computes them. -/
def elementTexts (numberToString : JSNum → String) : List JSVal → Except JSError (List String)
  | [] => .ok []
  | .undefined :: rest => (elementTexts numberToString rest).map (fun ts => "" :: ts)
  | .null :: rest => (elementTexts numberToString rest).map (fun ts => "" :: ts)
  | v :: rest =>
    match toText numberToString v with
    | .error e => .error e
    | .ok t => (elementTexts numberToString rest).map (fun ts => t :: ts)
end

/-- Models `worst.rationale = (worst.rationale || "frame_based") +
`_frames:${n}``; the conversion of the rationale to a string can throw. -/
def markFrames (numberToString : JSNum → String) (worst : JSVal) (n : ℕ) :
    Except JSError JSVal :=
  match toText numberToString (jsOr (worst.get "rationale") (.str "frame_based")) with
  | .error e => .error e
  | .ok t => .ok (worst.set "rationale" (.str (t ++ "_frames:" ++ toString n)))

/-- How the frame path of `moderateVideoFromFrames` ends: with a verdict, or in
the `catch` block, which falls back to `moderateVideo`; `message` is the text
of the caught error. -/
inductive FramePath where
  | verdict (v : JSVal)
  | fallback (message : String)

/-- Models lines 404-426 of `moderateVideoFromFrames`: the frames are listed
and capped, each is classified by `moderateImage`, the worst verdict is chosen
and marked with the number of frames. -/
def frameVerdict (numberToString : JSNum → String) (moderateImage : String → JSVal)
    (listing : List String) : FramePath :=
  if (files listing).length = 0 then .fallback "No frames extracted"
  else
    match worst ((files listing).map moderateImage) with
    | .error (.typeError msg) => .fallback msg
    | .ok w =>
      match markFrames numberToString w (files listing).length with
      | .error (.typeError msg) => .fallback msg
      | .ok v => .verdict v

/-- The rank of a severity, as the specification states it: critical 3, high
2, medium 1, low 0; any other severity counts 0. -/
def specRank (severity : String) : ℕ :=
  if severity = "critical" then 3
  else if severity = "high" then 2
  else if severity = "medium" then 1
  else 0

/-- The severity of a frame verdict is a string that names no member of
`Object.prototype`. -/
def hasPlainSeverity (r : JSVal) : Prop :=
  ∃ s, r.get "severity" = .str s ∧ assocGet objectPrototypeMembers s = none

/-- The rank of a frame verdict with a string severity, 0 otherwise. -/
def verdictRank (r : JSVal) : ℕ :=
  match r.get "severity" with
  | .str s => specRank s
  | _ => 0

/-- A frame verdict with the given severity and rationale. -/
def frameOf (severity rationale : String) : JSVal :=
  .obj [("safe", .bool false), ("version", .str "1.0"), ("category", .str "other"),
    ("suggested_action", .str "delete"), ("severity", .str severity),
    ("confidence", .num (.fin 0.85)), ("rationale", .str rationale)]

/-! ## Texts

`String.prototype.toLowerCase` belongs to the host: the functions that call it
take it as the parameter `toLowerCase`, and the theorems hold for every such
function.  `asciiLower` is the concrete function used to evaluate them: it
agrees with `toLowerCase` on texts of ASCII characters. -/

/-- Models `hay.includes(needle)`. -/
def includes (hay needle : String) : Bool :=
  hay.toList.tails.any (fun t => needle.toList.isPrefixOf t)

/-- Lower-cases the ASCII letters of a text. -/
def asciiLower (s : String) : String := String.mk (s.toList.map Char.toLower)

/-- Models `s.trim()` being truthy: the text has a character that is not white
space. -/
def isNonBlank (s : String) : Bool := !(trimChars s.toList).isEmpty

/-! ## The fallback of `moderateText` (`src/bot.js`, lines 108-203) -/

/-- The array `keywords` of `riskyPIIHeuristic`. -/
def keywords : List String :=
  [ "home address",
    "address",
    "phone number",
    "whatsapp",
    "snapchat",
    "telegram",
    "send pics",
    "nudes",
    "meet up",
    "where do you live",
    "what school",
    "which school",
    "class schedule",
    "come to my",
    "dm me privately",
    "move to" ]

/-- Models `riskyPIIHeuristic(text)`. -/
def riskyPIIHeuristic (toLowerCase : String → String) (text : String) : Bool :=
  if text = "" then false
  else keywords.any (fun k => includes (toLowerCase text) k)

/-- The object literal `moderateText` normalises for blank content. -/
def blankContentLiteral : JSVal :=
  .obj [("safe", .bool true), ("suggested_action", .str "allow"), ("category", .str "other"),
    ("confidence", .num (.fin 0.95))]

/-- The object literal `moderateText` normalises when the heuristic fires. -/
def piiFallbackLiteral : JSVal :=
  .obj [("safe", .bool false), ("category", .str "personal_info_solicitation"),
    ("severity", .str "high"), ("suggested_action", .str "ban"),
    ("rationale", .str "fallback_pii_heuristic")]

/-- The object literal `moderateText` normalises when the analysis is
unavailable. -/
def unavailableLiteral : JSVal :=
  .obj [("safe", .bool false), ("category", .str "other"), ("severity", .str "medium"),
    ("suggested_action", .str "delete"), ("rationale", .str "analysis_unavailable")]

/-- The `catch` block of `moderateText`. -/
def moderateTextFallback (JSON_parse : String → Option JSVal) (toLowerCase : String → String)
    (content : String) : Except JSError JSVal :=
  if riskyPIIHeuristic toLowerCase content then normalizeModeration JSON_parse piiFallbackLiteral
  else normalizeModeration JSON_parse unavailableLiteral

/-- Models `moderateText(content, context)`.  The classification call is the
parameter `classify`: `none` when the call fails, else the value of
`r.choices?.[0]?.message?.content`.  An exception of the call, or of the
normalisation of its reply, ends in the `catch` block. -/
def moderateText (JSON_parse : String → Option JSVal) (toLowerCase : String → String)
    (classify : String → String → Option JSVal) (content context : String) :
    Except JSError JSVal :=
  if content = "" ∨ isNonBlank content = false then
    normalizeModeration JSON_parse blankContentLiteral
  else
    match classify content context with
    | none => moderateTextFallback JSON_parse toLowerCase content
    | some reply =>
      match normalizeModeration JSON_parse (cleanJSONResponse (jsOr reply (.str ""))) with
      | .ok v => .ok v
      | .error _ => moderateTextFallback JSON_parse toLowerCase content

/-- A classification service that is down. -/
def classifierDown : String → String → Option JSVal := fun _ _ => none

/-- The typed reading of the verdict of the heuristic fallback. -/
def piiFallbackTyped : Verdict :=
  { version := .str "1.0"
    safe := false
    confidence := .fin 0.85
    category := .str "personal_info_solicitation"
    severity := .str "high"
    suggested_action := .str "ban"
    rationale := .str "fallback_pii_heuristic" }

/-- The typed reading of the verdict of the plain fallback. -/
def unavailableTyped : Verdict :=
  { version := .str "1.0"
    safe := false
    confidence := .fin 0.85
    category := .str "other"
    severity := .str "medium"
    suggested_action := .str "delete"
    rationale := .str "analysis_unavailable" }

/-! ## The URL check of the demo server (`src/server.js`, lines 511-612) -/

/-- The array `safeDomains`. -/
def safeDomains : List String :=
  [ "google.com", "youtube.com", "wikipedia.org", "khanacademy.org", "scratch.mit.edu",
    "minecraft.net", "roblox.com", "coolmath-games.com", "nationalgeographic.com", "nasa.gov",
    "smithsonianmag.com", "kids.gov", "pbskids.org", "funbrain.com", "abcya.com" ]

/-- The array `blockedDomains`. -/
def blockedDomains : List String :=
  [ "pornhub.com", "xvideos.com", "xnxx.com", "redtube.com", "youporn.com", "onlyfans.com",
    "chaturbate.com", "liveleak.com", "bestgore.com", "4chan.org", "8chan.org",
    "kiwifarms.com", "casino.com", "bet365.com" ]

/-- The array `suspiciousKeywords`. -/
def suspiciousKeywords : List String :=
  [ "xxx", "adult", "porn", "sex", "nude", "gore", "violence", "casino", "bet", "gamble",
    "drugs", "darkweb", "hack", "crack" ]

/-- The object `analyzeURLAdvanced` returns. -/
structure UrlAnalysis where
  safe : Bool
  response : String
  confidence : ℚ

/-- Models `analyzeURLAdvanced(url)` for a string `url`: the three loops, each
returning at its first hit, and the final result. -/
def analyzeURLAdvanced (toLowerCase : String → String) (url : String) : UrlAnalysis :=
  let lowercaseUrl := toLowerCase url
  match safeDomains.find? (fun safeDomain => includes lowercaseUrl safeDomain) with
  | some safeDomain =>
    { safe := true
      response := "✅ SAFE DOMAIN: " ++ safeDomain ++ " is a trusted, child-friendly website!"
      confidence := 0.95 }
  | none =>
    match blockedDomains.find? (fun domain => includes lowercaseUrl domain) with
    | some domain =>
      { safe := false
        response := "🛡️ BLOCKED: This website (" ++ domain ++
          ") is not appropriate for children. Please stick to kid-friendly sites!"
        confidence := 0.95 }
    | none =>
      match suspiciousKeywords.find? (fun keyword => includes lowercaseUrl keyword) with
      | some keyword =>
        { safe := false
          response := "🛡️ BLOCKED: This link contains inappropriate content (" ++ keyword ++
            "). Let's keep things child-friendly!"
          confidence := 0.8 }
      | none =>
        { safe := true
          response := "✅ LINK CHECKED: This website appears to be safe! " ++
            "Always ask a trusted adult before visiting new websites."
          confidence := 0.7 }

/-! ## The message handler (`src/bot.js`, lines 602-689)

The classifiers `moderateText`, `moderateURL`, `moderateImage`,
`moderateVideoFromFrames` and `moderateVideo` are parameters of the handler,
which is read through the calls it makes, in order: a run of the handler is
the list of its calls to the classifiers and to `applyModeration`.  The parser
of `new URL(url)` belongs to the host and is the parameter `urlPathname`
(`none` when the constructor throws). -/

/-- An attachment of a message.  A missing or empty property is the empty
string, which `||` treats alike. -/
structure Attachment where
  url : String
  attachment : String
  name : String
  contentType : String

/-- A message: whether its author is a bot, its content (empty when missing)
and its attachments in arrival order. -/
structure Message where
  authorBot : Bool
  content : String
  attachments : List Attachment

/-- The classifiers the handler calls.  `moderateVideoFromFrames` is `none`
when it throws. -/
structure Classifiers where
  moderateText : String → JSVal
  moderateURL : String → JSVal
  moderateImage : String → JSVal
  moderateVideoFromFrames : String → String → Option JSVal
  moderateVideo : String → String → JSVal

/-- A call made by the handler. -/
inductive HandlerCall where
  | moderateText (text : String)
  | moderateURL (url : String)
  | moderateImage (url : String)
  | moderateVideoFromFrames (url name : String)
  | moderateVideo (url name : String)
  | applyModeration (ai : JSVal)

/-- The condition `!ai.safe || ai.severity !== "low"` on the object a
classifier returned. -/
def handlerGateOn (ai : JSVal) : Bool :=
  !(ai.get "safe").truthy || !((ai.get "severity").isStr "low")

/-- Whether a text starts with `http://` or `https://`, in any case of the
letters, followed by at least one more character. -/
def schemeMatch (cs : List Char) : Bool :=
  match cs.map Char.toLower with
  | 'h' :: 't' :: 't' :: 'p' :: 's' :: ':' :: '/' :: '/' :: _ :: _ => true
  | 'h' :: 't' :: 't' :: 'p' :: ':' :: '/' :: '/' :: _ :: _ => true
  | _ => false

/-- The match of `/https?:\/\/\S+/i` inside a run of characters without white
space: the leftmost suffix that starts with the scheme, taken to the end of the
run. -/
def urlInToken : List Char → Option (List Char)
  | [] => none
  | c :: cs => if schemeMatch (c :: cs) then some (c :: cs) else urlInToken cs

/-- The maximal runs of characters that are not white space; `acc` is the run
being read, in reverse. -/
def tokensFrom : List Char → List Char → List (List Char)
  | acc, [] => if acc.isEmpty then [] else [acc.reverse]
  | acc, c :: cs =>
    if isJSWhitespace c then
      if acc.isEmpty then tokensFrom [] cs else acc.reverse :: tokensFrom [] cs
    else tokensFrom (c :: acc) cs

/-- Models `Array.from(text.matchAll(/https?:\/\/\S+/gi)).map((m) => m[0])`:
a match never crosses white space and runs to the end of its run of
characters, so each run holds at most one match. -/
def extractUrls (text : String) : List String :=
  (tokensFrom [] text.toList).filterMap (fun t => (urlInToken t).map String.mk)

/-- Whether a name ends in a dot and one of the given extensions, in any case
of the letters: the tests `/\.(png|...)$/i`. -/
def hasExtension (exts : List String) (name : String) : Bool :=
  exts.any (fun e => ('.' :: e.toList).isSuffixOf (name.toList.map Char.toLower))

/-- The extensions of `/\.(png|jpe?g|gif|webp|bmp|tiff)$/i`. -/
def imageExtensions : List String := ["png", "jpg", "jpeg", "gif", "webp", "bmp", "tiff"]

/-- The extensions of `/\.(mp4|mov|webm|mkv|avi)$/i`. -/
def videoExtensions : List String := ["mp4", "mov", "webm", "mkv", "avi"]

/-- Models `url.split("?")[0]`. -/
def beforeQuery (url : String) : String :=
  String.mk (url.toList.takeWhile (fun c => c != '?'))

/-- Models `att.url || att.attachment || ""`. -/
def Attachment.source (att : Attachment) : String :=
  if att.url ≠ "" then att.url else att.attachment

/-- Models `cleanPath`: the path of `new URL(url)`, or the text before the
first question mark when the URL does not parse, in lower case. -/
def cleanPath (toLowerCase : String → String) (urlPathname : String → Option String)
    (url : String) : String :=
  toLowerCase ((urlPathname url).getD (beforeQuery url))

/-- What the handler does with an attachment. -/
inductive MediaKind where
  | image
  | video
  | skip
deriving DecidableEq

/-- The six tests of the handler on an attachment. -/
structure MediaTests where
  byMimeImage : Bool
  byMimeVideo : Bool
  byNameImage : Bool
  byNameVideo : Bool
  byUrlImage : Bool
  byUrlVideo : Bool

/-- Models the constants `byMimeImage` ... `byUrlVideo` of the handler. -/
def mediaTests (toLowerCase : String → String) (urlPathname : String → Option String)
    (att : Attachment) : MediaTests :=
  let ct := toLowerCase att.contentType
  { byMimeImage := "image/".toList.isPrefixOf ct.toList
    byMimeVideo := "video/".toList.isPrefixOf ct.toList
    byNameImage := hasExtension imageExtensions att.name
    byNameVideo := hasExtension videoExtensions att.name
    byUrlImage := hasExtension imageExtensions (cleanPath toLowerCase urlPathname att.source)
    byUrlVideo := hasExtension videoExtensions (cleanPath toLowerCase urlPathname att.source) }

/-- Models `isImage`, `isVideo` and the branch `if (isImage) ... else if
(isVideo) ... else continue`. -/
def mediaKind (toLowerCase : String → String) (urlPathname : String → Option String)
    (att : Attachment) : MediaKind :=
  let t := mediaTests toLowerCase urlPathname att
  let isImage := t.byMimeImage || t.byNameImage || t.byUrlImage
  let isVideo := t.byMimeVideo || t.byNameVideo || t.byUrlVideo
  if isImage then .image else if isVideo then .video else .skip

/-- The decision the specification describes: the declared media type decides
if it is `image/*` or `video/*`, otherwise the extension of the file name,
otherwise the extension of the URL path. -/
def specMediaKind (t : MediaTests) : MediaKind :=
  if t.byMimeImage then .image
  else if t.byMimeVideo then .video
  else if t.byNameImage then .image
  else if t.byNameVideo then .video
  else if t.byUrlImage then .image
  else if t.byUrlVideo then .video
  else .skip

/-- The calls that classify one attachment, and the verdict obtained; `none`
for an attachment that is skipped. -/
def classifyAttachment (toLowerCase : String → String) (urlPathname : String → Option String)
    (cl : Classifiers) (att : Attachment) : Option (List HandlerCall × JSVal) :=
  match mediaKind toLowerCase urlPathname att with
  | .skip => none
  | .image => some ([.moderateImage att.source], cl.moderateImage att.source)
  | .video =>
    match cl.moderateVideoFromFrames att.source att.name with
    | some ai => some ([.moderateVideoFromFrames att.source att.name], ai)
    | none =>
      some ([.moderateVideoFromFrames att.source att.name, .moderateVideo att.source att.name],
        cl.moderateVideo att.source att.name)

/-- Models the loop over the attachments.  An exception of
`normalizeModeration` ends the handler in its `catch` block. -/
def attachmentsStage (JSON_parse : String → Option JSVal) (toLowerCase : String → String)
    (urlPathname : String → Option String) (cl : Classifiers) :
    List Attachment → List HandlerCall
  | [] => []
  | att :: rest =>
    match classifyAttachment toLowerCase urlPathname cl att with
    | none => attachmentsStage JSON_parse toLowerCase urlPathname cl rest
    | some (calls, aiMedia) =>
      match normalizeModeration JSON_parse aiMedia with
      | .error _ => calls
      | .ok aiNorm =>
        if handlerGateOn aiNorm then calls ++ [.applyModeration aiNorm]
        else calls ++ attachmentsStage JSON_parse toLowerCase urlPathname cl rest

/-- Models the URL stage and what follows it. -/
def urlStage (JSON_parse : String → Option JSVal) (toLowerCase : String → String)
    (urlPathname : String → Option String) (cl : Classifiers) (message : Message) :
    List HandlerCall :=
  match extractUrls message.content with
  | [] => attachmentsStage JSON_parse toLowerCase urlPathname cl message.attachments
  | url :: _ =>
    if handlerGateOn (cl.moderateURL url) then
      [.moderateURL url, .applyModeration (cl.moderateURL url)]
    else
      .moderateURL url ::
        attachmentsStage JSON_parse toLowerCase urlPathname cl message.attachments

/-- Models the `messageCreate` handler that moderates messages. -/
def messageCreate (JSON_parse : String → Option JSVal) (toLowerCase : String → String)
    (urlPathname : String → Option String) (cl : Classifiers) (message : Message) :
    List HandlerCall :=
  if message.authorBot then []
  else if isNonBlank message.content then
    if handlerGateOn (cl.moderateText message.content) then
      [.moderateText message.content, .applyModeration (cl.moderateText message.content)]
    else
      .moderateText message.content ::
        urlStage JSON_parse toLowerCase urlPathname cl message
  else urlStage JSON_parse toLowerCase urlPathname cl message

/-- Whether a call is a call of a URL, image or video classifier. -/
def HandlerCall.isMediaOrUrl : HandlerCall → Bool
  | .moderateURL _ => true
  | .moderateImage _ => true
  | .moderateVideoFromFrames _ _ => true
  | .moderateVideo _ _ => true
  | _ => false

/-- Whether a call is a call of the text classifier. -/
def HandlerCall.isText : HandlerCall → Bool
  | .moderateText _ => true
  | _ => false

/-- Whether a call is a call of `applyModeration`. -/
def HandlerCall.isApply : HandlerCall → Bool
  | .applyModeration _ => true
  | _ => false

/-- A URL parser that rejects every text. -/
def noUrlParser : String → Option String := fun _ => none

/-- An attachment declared as a video whose file name has an image
extension. -/
def mixedAttachment : Attachment :=
  { url := "https://cdn.example/files/1", attachment := "", name := "clip.png",
    contentType := "video/mp4" }

/-- Classifiers that call every text unsafe and everything else safe. -/
def strictTextClassifiers : Classifiers :=
  { moderateText := fun _ => frameOf "high" "text"
    moderateURL := fun _ => conservativeVerdict
    moderateImage := fun _ => conservativeVerdict
    moderateVideoFromFrames := fun _ _ => some conservativeVerdict
    moderateVideo := fun _ _ => conservativeVerdict }

/-- A message with unsafe text, a link and two attachments. -/
def loadedMessage : Message :=
  { authorBot := false
    content := "look at https://example.com/a.png now"
    attachments :=
      [ mixedAttachment,
        { url := "https://cdn.example/v.mp4", attachment := "", name := "v.mp4",
          contentType := "video/mp4" } ] }

/-! ## The voice session of a guild (`src/bot.js`, lines 783-954)

The state of one guild is its entry in `voiceSessions`, read through the
channel it tracks, and whether the guild has a voice connection
(`getVoiceConnection(guild.id)`).  A voice-state change carries the channels
before and after, the account it concerns and the channel cache of the guild
when the change is handled.  `joinVoiceChannel` is taken to succeed. -/

/-- A member present in a voice channel: `m.user.bot`. -/
structure Occupant where
  bot : Bool

/-- A channel of the cache `guild.channels.cache`; `type` 2 is a voice
channel. -/
structure VoiceChannel where
  id : String
  name : String
  type : ℕ
  members : List Occupant

/-- The configuration: `process.env.VOICE_CHANNEL_ID || null` and
`process.env.VOICE_CHANNEL_NAME || null`; an unset or empty variable is
`none`. -/
structure VoiceConfig where
  TARGET_VC_ID : Option String
  TARGET_VC_NAME : Option String

/-- The voice state of a guild: the channel its session tracks, if it has a
session, and whether it has a voice connection. -/
structure VoiceGuild where
  session : Option String
  connected : Bool
deriving DecidableEq

/-- A `voiceStateUpdate` event: `oldState.channelId`, `newState.channelId`
(`none` for `null`), whether the member is an automated account, and the
channel cache of the guild. -/
structure VoiceStateUpdate where
  oldChannelId : Option String
  newChannelId : Option String
  memberIsBot : Bool
  channels : List VoiceChannel

/-- Truthiness of a channel id: `null` and the empty string are falsy. -/
def isSet (id : Option String) : Bool :=
  match id with
  | none => false
  | some s => decide (s ≠ "")

/-- Models `guild.channels.cache.get(id)`. -/
def cacheGet (channels : List VoiceChannel) (id : String) : Option VoiceChannel :=
  channels.find? (fun c => decide (c.id = id))

/-- Models `resolveTargetVc(guild)`. -/
def resolveTargetVc (cfg : VoiceConfig) (toLowerCase : String → String)
    (channels : List VoiceChannel) : Option VoiceChannel :=
  match cfg.TARGET_VC_ID with
  | some id => cacheGet channels id
  | none =>
    match cfg.TARGET_VC_NAME with
    | some name =>
      channels.find? (fun c => decide (c.type = 2) && decide (toLowerCase c.name = toLowerCase name))
    | none => none

/-- Models `ensureVoiceJoined(newState)`. -/
def ensureVoiceJoined (cfg : VoiceConfig) (toLowerCase : String → String) (st : VoiceGuild)
    (ev : VoiceStateUpdate) : VoiceGuild :=
  match resolveTargetVc cfg toLowerCase ev.channels with
  | none => st
  | some target =>
    if ev.newChannelId ≠ some target.id then st
    else if st.connected then st
    else { session := some target.id, connected := true }

/-- The number of members of a channel that are not automated accounts. -/
def humans (c : VoiceChannel) : ℕ := (c.members.filter (fun m => !m.bot)).length

/-- Models `maybeLeaveIfEmpty(oldState, newState)`. -/
def maybeLeaveIfEmpty (st : VoiceGuild) (ev : VoiceStateUpdate) : VoiceGuild :=
  match st.session with
  | none => st
  | some channelId =>
    match cacheGet ev.channels channelId with
    | none => { session := none, connected := false }
    | some channel =>
      if humans channel = 0 then { session := none, connected := false } else st

/-- Models the `voiceStateUpdate` handler. -/
def voiceStateUpdate (cfg : VoiceConfig) (toLowerCase : String → String) (st : VoiceGuild)
    (ev : VoiceStateUpdate) : VoiceGuild :=
  if isSet ev.oldChannelId = false ∧ isSet ev.newChannelId = true then
    ensureVoiceJoined cfg toLowerCase st ev
  else
    let st :=
      if isSet ev.oldChannelId = true ∧ isSet ev.newChannelId = true ∧
          ev.oldChannelId ≠ ev.newChannelId then
        ensureVoiceJoined cfg toLowerCase st ev
      else st
    maybeLeaveIfEmpty st ev

/-- Whether a voice-state change is a fresh join: no channel before, a channel
after. -/
def VoiceStateUpdate.isFreshJoin (ev : VoiceStateUpdate) : Bool :=
  !isSet ev.oldChannelId && isSet ev.newChannelId

/-- The guild without session and without connection. -/
def idleGuild : VoiceGuild := { session := none, connected := false }

/-- A configuration with the target channel `vc1`. -/
def targetById : VoiceConfig := { TARGET_VC_ID := some "vc1", TARGET_VC_NAME := none }

/-- An automated account joins the target channel, in which it is alone. -/
def botJoinsTarget : VoiceStateUpdate :=
  { oldChannelId := none
    newChannelId := some "vc1"
    memberIsBot := true
    channels := [{ id := "vc1", name := "Lounge", type := 2, members := [{ bot := true }] }] }

/-- A person joins another channel while the tracked channel `vc1` holds no
person. -/
def joinElsewhere : VoiceStateUpdate :=
  { oldChannelId := none
    newChannelId := some "vc2"
    memberIsBot := false
    channels :=
      [ { id := "vc1", name := "Lounge", type := 2, members := [{ bot := true }] },
        { id := "vc2", name := "Other", type := 2, members := [{ bot := false }] } ] }

/-- The last person leaves the tracked channel `vc1`. -/
def lastPersonLeaves : VoiceStateUpdate :=
  { oldChannelId := some "vc1"
    newChannelId := none
    memberIsBot := false
    channels := [{ id := "vc1", name := "Lounge", type := 2, members := [{ bot := true }] }] }

/-- The events of a user that pass the debounce gate, in order, when a
sequence of speech-start events is run from a map. -/
def debouncePassed : DebounceMap → List (String × ℤ) → List (String × ℤ)
  | _, [] => []
  | m, (u, now) :: rest =>
    if (debounceGate m u now).1 then (u, now) :: debouncePassed (debounceGate m u now).2 rest
    else debouncePassed (debounceGate m u now).2 rest

/-- An unsafe verdict of the category `hate_harassment`. -/
def insultVerdict : Verdict :=
  { version := .str "1.0"
    safe := false
    confidence := .fin 0.9
    category := .str "hate_harassment"
    severity := .str "medium"
    suggested_action := .str "delete"
    rationale := .str "r" }

/-- The same verdict with the category `profanity`. -/
def swearVerdict : Verdict := { insultVerdict with category := .str "profanity" }

/-! ## Lemmas on properties -/

theorem assocGet_assocSet (l : List (String × JSVal)) (k k' : String) (x : JSVal) :
    assocGet (assocSet l k x) k' = if k = k' then some x else assocGet l k' := by
  induction l with
  | nil =>
    by_cases h : k = k' <;> simp [assocSet, assocGet, h]
  | cons p rest ih =>
    obtain ⟨a, b⟩ := p
    by_cases hak : a = k
    · subst hak
      by_cases h : a = k' <;> simp [assocSet, assocGet, h]
    · by_cases h : k = k'
      · subst h
        simp [assocSet, assocGet, hak, ih]
      · by_cases h2 : a = k'
        · subst h2
          simp [assocSet, assocGet, hak, h]
        · simp [assocSet, assocGet, hak, h, h2, ih]

theorem get_set (v : JSVal) (h : v.isObjectLike = true) (k k' : String) (x : JSVal) :
    (v.set k x).get k' = if k = k' then x else v.get k' := by
  cases v <;> simp [JSVal.isObjectLike] at h <;>
    by_cases hk : k = k' <;>
    simp [JSVal.set, JSVal.get, JSVal.fields, assocGet_assocSet, hk]

theorem set_isObjectLike (v : JSVal) (k : String) (x : JSVal) :
    (v.set k x).isObjectLike = v.isObjectLike := by
  cases v <;> simp [JSVal.set, JSVal.isObjectLike]

theorem ensureObject_isObjectLike (v : JSVal) : (ensureObject v).isObjectLike = true := by
  unfold ensureObject
  split_ifs with h
  · rfl
  · cases v <;> simp_all [typeOf, JSVal.isNull, JSVal.isObjectLike]

/-! ## The statements of `normalizeModeration`, one by one -/

theorem defaultSafe_isObjectLike (o : JSVal) (h : o.isObjectLike = true) :
    (defaultSafe o).isObjectLike = true := by
  unfold defaultSafe
  split_ifs <;> simp [set_isObjectLike, h]

theorem defaultSafe_get (o : JSVal) (h : o.isObjectLike = true) (k : String) :
    (defaultSafe o).get k =
      if k = "safe" then
        (if typeOf (o.get "safe") = .boolean then o.get "safe" else .bool false)
      else o.get k := by
  unfold defaultSafe
  by_cases hk : k = "safe"
  · subst hk
    split_ifs <;> simp_all [get_set]
  · have hk2 : ¬ "safe" = k := fun e => hk e.symm
    split_ifs <;> simp_all [get_set]

theorem defaultVersion_isObjectLike (o : JSVal) (h : o.isObjectLike = true) :
    (defaultVersion o).isObjectLike = true := by
  unfold defaultVersion
  split_ifs <;> simp [set_isObjectLike, h]

theorem defaultVersion_get (o : JSVal) (h : o.isObjectLike = true) (k : String) :
    (defaultVersion o).get k =
      if k = "version" then jsOr (o.get "version") (.str "1.0") else o.get k := by
  unfold defaultVersion jsOr
  by_cases hk : k = "version"
  · subst hk
    split_ifs <;> simp_all [get_set]
  · have hk2 : ¬ "version" = k := fun e => hk e.symm
    split_ifs <;> simp_all [get_set]

theorem defaultCategory_isObjectLike (o : JSVal) (h : o.isObjectLike = true) :
    (defaultCategory o).isObjectLike = true := by
  unfold defaultCategory
  split_ifs <;> simp [set_isObjectLike, h]

theorem defaultCategory_get (o : JSVal) (h : o.isObjectLike = true) (k : String) :
    (defaultCategory o).get k =
      if k = "category" then jsOr (o.get "category") (.str "other") else o.get k := by
  unfold defaultCategory jsOr
  by_cases hk : k = "category"
  · subst hk
    split_ifs <;> simp_all [get_set]
  · have hk2 : ¬ "category" = k := fun e => hk e.symm
    split_ifs <;> simp_all [get_set]

theorem defaultSuggestedAction_isObjectLike (o : JSVal) (h : o.isObjectLike = true) :
    (defaultSuggestedAction o).isObjectLike = true := by
  unfold defaultSuggestedAction
  split_ifs <;> simp [set_isObjectLike, h]

theorem defaultSuggestedAction_get (o : JSVal) (h : o.isObjectLike = true) (k : String) :
    (defaultSuggestedAction o).get k =
      if k = "suggested_action" then
        jsOr (o.get "suggested_action")
          (if (o.get "safe").truthy then .str "allow" else .str "delete")
      else o.get k := by
  unfold defaultSuggestedAction jsOr
  by_cases hk : k = "suggested_action"
  · subst hk
    split_ifs <;> simp_all [get_set]
  · have hk2 : ¬ "suggested_action" = k := fun e => hk e.symm
    split_ifs <;> simp_all [get_set]

theorem defaultConfidence_isObjectLike (o : JSVal) (h : o.isObjectLike = true) :
    (defaultConfidence o).isObjectLike = true := by
  unfold defaultConfidence
  split_ifs <;> simp [set_isObjectLike, h]

theorem defaultConfidence_get (o : JSVal) (h : o.isObjectLike = true) (k : String) :
    (defaultConfidence o).get k =
      if k = "confidence" then
        (if typeOf (o.get "confidence") = .number then o.get "confidence"
         else if (o.get "safe").truthy then .num (.fin 0.6) else .num (.fin 0.85))
      else o.get k := by
  unfold defaultConfidence
  by_cases hk : k = "confidence"
  · subst hk
    split_ifs <;> simp_all [get_set]
  · have hk2 : ¬ "confidence" = k := fun e => hk e.symm
    split_ifs <;> simp_all [get_set]

theorem defaultRationale_isObjectLike (o : JSVal) (h : o.isObjectLike = true) :
    (defaultRationale o).isObjectLike = true := by
  unfold defaultRationale
  split_ifs <;> simp [set_isObjectLike, h]

theorem defaultRationale_get (o : JSVal) (h : o.isObjectLike = true) (k : String) :
    (defaultRationale o).get k =
      if k = "rationale" then jsOr (o.get "rationale") (.str "normalized") else o.get k := by
  unfold defaultRationale jsOr
  by_cases hk : k = "rationale"
  · subst hk
    split_ifs <;> simp_all [get_set]
  · have hk2 : ¬ "rationale" = k := fun e => hk e.symm
    split_ifs <;> simp_all [get_set]

theorem defaultSeverity_of_truthy (o : JSVal) (h : (o.get "severity").truthy = true) :
    defaultSeverity o = .ok o := by
  simp [defaultSeverity, h]

theorem defaultSeverity_of_key (o : JSVal) (key : Option String)
    (h : (o.get "severity").truthy = false)
    (hk : toPropertyKey (o.get "suggested_action") = .ok key) :
    defaultSeverity o = .ok (o.set "severity" (severityFor o key)) := by
  simp [defaultSeverity, h, hk, severityFor]

theorem defaultSeverity_of_error (o : JSVal) (e : JSError)
    (h : (o.get "severity").truthy = false)
    (hk : toPropertyKey (o.get "suggested_action") = .error e) :
    defaultSeverity o = .error e := by
  simp [defaultSeverity, h, hk]

/-- What a successful `defaultSeverity` returns. -/
theorem defaultSeverity_ok (o v : JSVal) (h : o.isObjectLike = true)
    (hv : defaultSeverity o = .ok v) :
    v.isObjectLike = true ∧ (∀ k, k ≠ "severity" → v.get k = o.get k) ∧
      (((o.get "severity").truthy = true ∧ v.get "severity" = o.get "severity") ∨
        ((o.get "severity").truthy = false ∧
          ∃ key, toPropertyKey (o.get "suggested_action") = .ok key ∧
            v.get "severity" = severityFor o key)) := by
  by_cases ht : (o.get "severity").truthy = true
  · rw [defaultSeverity_of_truthy o ht] at hv
    cases hv
    exact ⟨h, fun _ _ => rfl, Or.inl ⟨ht, rfl⟩⟩
  · have hf : (o.get "severity").truthy = false := by simpa using ht
    cases hkey : toPropertyKey (o.get "suggested_action") with
    | error e =>
      rw [defaultSeverity_of_error o e hf hkey] at hv
      cases hv
    | ok key =>
      rw [defaultSeverity_of_key o key hf hkey] at hv
      cases hv
      refine ⟨by simp [set_isObjectLike, h], ?_, Or.inr ⟨hf, key, rfl, ?_⟩⟩
      · intro k hk
        have hk2 : ¬ "severity" = k := fun e => hk e.symm
        simp [get_set, h, hk2]
      · simp [get_set, h]

theorem normalizeModeration_eq (JSON_parse : String → Option JSVal) (raw : JSVal) :
    normalizeModeration JSON_parse raw =
      match defaultSeverity (beforeSeverity (parsedObject JSON_parse raw)) with
      | .error e => .error e
      | .ok o => .ok (defaultRationale (defaultConfidence o)) := by
  rfl

theorem parsedObject_isObjectLike (JSON_parse : String → Option JSVal) (raw : JSVal) :
    (parsedObject JSON_parse raw).isObjectLike = true :=
  ensureObject_isObjectLike _

theorem beforeSeverity_isObjectLike (o : JSVal) (h : o.isObjectLike = true) :
    (beforeSeverity o).isObjectLike = true :=
  defaultSuggestedAction_isObjectLike _
    (defaultCategory_isObjectLike _ (defaultVersion_isObjectLike _ (defaultSafe_isObjectLike _ h)))

theorem beforeSeverity_get (o : JSVal) (h : o.isObjectLike = true) (k : String) :
    (beforeSeverity o).get k =
      if k = "safe" then safeOf o
      else if k = "version" then jsOr (o.get "version") (.str "1.0")
      else if k = "category" then jsOr (o.get "category") (.str "other")
      else if k = "suggested_action" then suggestedActionOf o
      else o.get k := by
  have h1 := defaultSafe_isObjectLike o h
  have h2 := defaultVersion_isObjectLike _ h1
  have h3 := defaultCategory_isObjectLike _ h2
  unfold beforeSeverity suggestedActionOf safeOf
  simp only [defaultSuggestedAction_get _ h3, defaultCategory_get _ h2,
    defaultVersion_get _ h1, defaultSafe_get _ h]
  by_cases e1 : k = "safe"
  · subst e1; simp +decide
  by_cases e2 : k = "version"
  · subst e2; simp +decide
  by_cases e3 : k = "category"
  · subst e3; simp +decide
  by_cases e4 : k = "suggested_action"
  · subst e4; simp +decide
  simp [e1, e2, e3, e4]

/-- The seven fields of a verdict that `normalizeModeration` returns, in terms
of the parsed object. -/
theorem normalizeModeration_ok (JSON_parse : String → Option JSVal) (raw v : JSVal)
    (hv : normalizeModeration JSON_parse raw = .ok v) :
    v.isObjectLike = true ∧
      v.get "safe" = safeOf (parsedObject JSON_parse raw) ∧
      v.get "version" = jsOr ((parsedObject JSON_parse raw).get "version") (.str "1.0") ∧
      v.get "category" = jsOr ((parsedObject JSON_parse raw).get "category") (.str "other") ∧
      v.get "suggested_action" = suggestedActionOf (parsedObject JSON_parse raw) ∧
      ((((parsedObject JSON_parse raw).get "severity").truthy = true ∧
          v.get "severity" = (parsedObject JSON_parse raw).get "severity") ∨
        (((parsedObject JSON_parse raw).get "severity").truthy = false ∧
          ∃ key, toPropertyKey (suggestedActionOf (parsedObject JSON_parse raw)) = .ok key ∧
            v.get "severity" = severityOf (parsedObject JSON_parse raw) key)) ∧
      v.get "confidence" = confidenceOf (parsedObject JSON_parse raw) ∧
      v.get "rationale" =
        jsOr ((parsedObject JSON_parse raw).get "rationale") (.str "normalized") := by
  rw [normalizeModeration_eq] at hv
  have ho := parsedObject_isObjectLike JSON_parse raw
  generalize parsedObject JSON_parse raw = o at hv ho ⊢
  have hb := beforeSeverity_isObjectLike o ho
  cases hs : defaultSeverity (beforeSeverity o) with
  | error e => rw [hs] at hv; cases hv
  | ok w =>
    rw [hs] at hv
    cases hv
    obtain ⟨hw, hother, hsev⟩ := defaultSeverity_ok _ w hb hs
    have hc := defaultConfidence_isObjectLike w hw
    have key : ∀ k, (defaultRationale (defaultConfidence w)).get k =
        if k = "rationale" then jsOr (w.get "rationale") (.str "normalized")
        else if k = "confidence" then
          (if typeOf (w.get "confidence") = .number then w.get "confidence"
           else if (w.get "safe").truthy then .num (.fin 0.6) else .num (.fin 0.85))
        else w.get k := by
      intro k
      rw [defaultRationale_get _ hc, defaultConfidence_get _ hw, defaultConfidence_get _ hw]
      by_cases e1 : k = "rationale"
      · subst e1; simp +decide
      · simp [e1]
    have g : ∀ k, k ≠ "severity" → w.get k =
        if k = "safe" then safeOf o
        else if k = "version" then jsOr (o.get "version") (.str "1.0")
        else if k = "category" then jsOr (o.get "category") (.str "other")
        else if k = "suggested_action" then suggestedActionOf o
        else o.get k := by
      intro k hk
      rw [hother k hk, beforeSeverity_get o ho]
    have gsev : (beforeSeverity o).get "severity" = o.get "severity" := by
      rw [beforeSeverity_get o ho]; simp +decide
    have gact : (beforeSeverity o).get "suggested_action" = suggestedActionOf o := by
      rw [beforeSeverity_get o ho]; simp +decide
    have gsafe : (beforeSeverity o).get "safe" = safeOf o := by
      rw [beforeSeverity_get o ho]; simp +decide
    refine ⟨defaultRationale_isObjectLike _ hc, ?_, ?_, ?_, ?_, ?_, ?_, ?_⟩
    · have e := key "safe"
      simp +decide only [if_false] at e
      rw [e, g "safe" (by decide)]
      simp +decide
    · have e := key "version"
      simp +decide only [if_false] at e
      rw [e, g "version" (by decide)]
      simp +decide
    · have e := key "category"
      simp +decide only [if_false] at e
      rw [e, g "category" (by decide)]
      simp +decide
    · have e := key "suggested_action"
      simp +decide only [if_false] at e
      rw [e, g "suggested_action" (by decide)]
      simp +decide
    · have : (defaultRationale (defaultConfidence w)).get "severity" = w.get "severity" := by
        rw [key]; simp +decide
      rw [this]
      rcases hsev with ⟨ht, hval⟩ | ⟨hf, k, hk, hval⟩
      · left
        rw [gsev] at ht hval
        exact ⟨ht, hval⟩
      · right
        rw [gsev] at hf
        rw [gact] at hk
        refine ⟨hf, k, hk, ?_⟩
        rw [hval, severityFor, gsafe, severityOf]
    · have e := key "confidence"
      simp +decide only [if_false, if_true] at e
      rw [e, g "confidence" (by decide), g "safe" (by decide)]
      simp +decide [confidenceOf]
    · have e := key "rationale"
      simp +decide only [if_true] at e
      rw [e, g "rationale" (by decide)]
      simp +decide

/-- The function `normalizeModeration` returns a verdict whenever the parsed
object has a truthy severity. -/
theorem normalizeModeration_returns_of_severity (JSON_parse : String → Option JSVal)
    (raw : JSVal) (h : ((parsedObject JSON_parse raw).get "severity").truthy = true) :
    ∃ v, normalizeModeration JSON_parse raw = .ok v := by
  rw [normalizeModeration_eq]
  have ho := parsedObject_isObjectLike JSON_parse raw
  have gsev : (beforeSeverity (parsedObject JSON_parse raw)).get "severity" =
      (parsedObject JSON_parse raw).get "severity" := by
    rw [beforeSeverity_get _ ho]; simp +decide
  rw [defaultSeverity_of_truthy _ (by rw [gsev]; exact h)]
  exact ⟨_, rfl⟩

/-- The function `normalizeModeration` returns a verdict whenever the suggested
action, after defaulting, converts to a property key. -/
theorem normalizeModeration_returns_of_key (JSON_parse : String → Option JSVal)
    (raw : JSVal) (key : Option String)
    (h : toPropertyKey (suggestedActionOf (parsedObject JSON_parse raw)) = .ok key) :
    ∃ v, normalizeModeration JSON_parse raw = .ok v := by
  by_cases hs : ((parsedObject JSON_parse raw).get "severity").truthy = true
  · exact normalizeModeration_returns_of_severity JSON_parse raw hs
  · rw [normalizeModeration_eq]
    have ho := parsedObject_isObjectLike JSON_parse raw
    have gsev : (beforeSeverity (parsedObject JSON_parse raw)).get "severity" =
        (parsedObject JSON_parse raw).get "severity" := by
      rw [beforeSeverity_get _ ho]; simp +decide
    have gact : (beforeSeverity (parsedObject JSON_parse raw)).get "suggested_action" =
        suggestedActionOf (parsedObject JSON_parse raw) := by
      rw [beforeSeverity_get _ ho]; simp +decide
    rw [defaultSeverity_of_key _ key (by rw [gsev]; simpa using hs) (by rw [gact]; exact h)]
    exact ⟨_, rfl⟩

/-! ## Lemmas on `decideAction` -/

theorem decideAction_of_key (ai : Verdict) (key : Option String)
    (h : toPropertyKey ai.category = .ok key) :
    decideAction ai =
      if ai.safe = true ∧ ai.confidence.lt 0.55 = true then .ok lowConfidenceDecision
      else if ai.safe = false then .ok (policyFor key)
      else .ok allowDecision := by
  simp only [decideAction, h, policyFor]

theorem decideAction_of_str (ai : Verdict) (s : String) (h : ai.category = .str s) :
    decideAction ai =
      if ai.safe = true ∧ ai.confidence.lt 0.55 = true then .ok lowConfidenceDecision
      else if ai.safe = false then .ok (policyFor (some s))
      else .ok allowDecision :=
  decideAction_of_key ai (some s) (by rw [h]; rfl)

theorem assocGet_mem (l : List (String × JSVal)) (k : String) (v : JSVal)
    (h : assocGet l k = some v) : (k, v) ∈ l := by
  induction l with
  | nil => simp [assocGet] at h
  | cons p rest ih =>
    obtain ⟨a, b⟩ := p
    by_cases hak : a = k
    · simp [assocGet, hak] at h
      subst hak h
      exact List.mem_cons_self _ _
    · simp [assocGet, hak] at h
      exact List.mem_cons_of_mem _ (ih h)

theorem ACTION_POLICY_plain : ∀ p ∈ ACTION_POLICY, isPlainNonAllow p.2 = true := by
  decide

theorem objectPrototypeMembers_plain :
    ∀ p ∈ objectPrototypeMembers, isPlainNonAllow p.2 = true := by
  decide

/-- Whatever string the category is, the policy found for it has an action
other than `allow` and no `reason` field. -/
theorem policyFor_str (s : String) : isPlainNonAllow (policyFor (some s)) = true := by
  unfold policyFor jsOr
  split_ifs with ht
  · unfold lookupLiteral at ht ⊢
    cases h1 : assocGet ACTION_POLICY s with
    | some v =>
      simp only [h1]
      exact ACTION_POLICY_plain _ (assocGet_mem _ _ _ h1)
    | none =>
      simp only [h1] at ht ⊢
      cases h2 : assocGet objectPrototypeMembers s with
      | some v =>
        simp only [h2, Option.getD_some]
        exact objectPrototypeMembers_plain _ (assocGet_mem _ _ _ h2)
      | none =>
        simp [h2, JSVal.truthy] at ht
  · rfl

theorem lt_false_of_ge (x : JSNum) (y : ℚ) (h : x.ge y = true) : x.lt y = false := by
  cases x <;> simp_all [JSNum.ge, JSNum.lt]

/-! ## Claims on normalisation and policy resolution -/

/-- C1, where the code departs from the claim: the reply
`{"suggested_action":{"toString":0}}` is a valid JSON text for an object, and
`normalizeModeration` raises a `TypeError` on it instead of returning a verdict:
the severity lookup converts the suggested action to a property key, and an
object whose `toString` member is data has no conversion. -/
theorem normalizeModeration_throws_on_unconvertible_action :
    jsonParse unconvertibleActionReply =
        some (.obj [("suggested_action", .obj [("toString", .num (.fin (mkRat 0 1)))])]) ∧
      cleanJSONResponse (.str unconvertibleActionReply) = .str unconvertibleActionReply ∧
      normalizeModeration jsonParse (.str unconvertibleActionReply) =
        .error (.typeError "Cannot convert object to primitive value") := by
  refine ⟨rfl, rfl, rfl⟩

/-- C2: for every verdict with a string category, `safe = true` and
`confidence < 0.55`, `decideAction` returns exactly `{severity: medium, action:
delete, reason: low_confidence}`, whatever the category, severity and
suggested action are. -/
theorem decideAction_low_confidence_override (ai : Verdict) (s : String)
    (hcat : ai.category = .str s) (hsafe : ai.safe = true)
    (hconf : ai.confidence.lt 0.55 = true) :
    decideAction ai =
      .ok (.obj [("severity", .str "medium"), ("action", .str "delete"),
        ("reason", .str "low_confidence")]) := by
  rw [decideAction_of_str ai s hcat]
  simp [hsafe, hconf, lowConfidenceDecision]

theorem decideAction_low_confidence_override_witness :
    unsureVerdict.category = .str "grooming" ∧ unsureVerdict.safe = true ∧
      unsureVerdict.confidence.lt 0.55 = true ∧
      decideAction unsureVerdict =
        .ok (.obj [("severity", .str "medium"), ("action", .str "delete"),
          ("reason", .str "low_confidence")]) :=
  have h : unsureVerdict.confidence.lt 0.55 = true := by
    norm_num [unsureVerdict, JSNum.lt]
  ⟨rfl, rfl, h, decideAction_low_confidence_override unsureVerdict "grooming" rfl rfl h⟩

/-- C3, where the code departs from the claim: the unsafe verdict that
normalisation returns for the reply `{"safe":false,"category":"constructor"}`
has an unrecognized category, and `decideAction` returns for it the built-in
`Object` function, which `ACTION_POLICY` inherits under the name
`constructor`, and not the `other` entry `{medium, delete}`; the returned value
has neither a severity nor an action. -/
theorem decideAction_unrecognized_category_inherited :
    (assocGet ACTION_POLICY "constructor").isSome = false ∧
      (normalizeModeration jsonParse (.str constructorReply)).toOption.bind JSVal.toVerdict? =
        some constructorVerdict ∧
      decideAction constructorVerdict = .ok (.builtin "Object" []) ∧
      decideAction constructorVerdict ≠ .ok (policyEntry "medium" "delete") ∧
      (JSVal.builtin "Object" []).get "severity" = .undefined ∧
      (JSVal.builtin "Object" []).get "action" = .undefined := by
  refine ⟨rfl, rfl, rfl, ?_, rfl, rfl⟩
  intro h
  have h2 : decideAction constructorVerdict = .ok (.builtin "Object" []) := rfl
  rw [h2] at h
  simp [policyEntry] at h

/-- For an unsafe verdict whose category has an entry in `ACTION_POLICY`,
`decideAction` returns that entry, whatever the verdict's severity, suggested
action and confidence are (the part of C3 the code satisfies). -/
theorem decideAction_unsafe_listed (ai : Verdict) (s : String) (entry : JSVal)
    (hcat : ai.category = .str s) (hsafe : ai.safe = false)
    (hentry : assocGet ACTION_POLICY s = some entry) :
    decideAction ai = .ok entry := by
  have hmem := ACTION_POLICY_plain _ (assocGet_mem _ _ _ hentry)
  have ht : entry.truthy = true := by
    have := assocGet_mem _ _ _ hentry
    simp only [ACTION_POLICY, policyEntry, List.mem_cons, Prod.mk.injEq, List.mem_nil_iff,
      or_false] at this
    rcases this with ⟨_, h⟩ | ⟨_, h⟩ | ⟨_, h⟩ | ⟨_, h⟩ | ⟨_, h⟩ | ⟨_, h⟩ | ⟨_, h⟩ | ⟨_, h⟩ |
      ⟨_, h⟩ | ⟨_, h⟩ | ⟨_, h⟩ <;> rw [h] <;> rfl
  rw [decideAction_of_str ai s hcat]
  simp [hsafe, policyFor, lookupLiteral, hentry, jsOr, ht]

/-- For an unsafe verdict whose category is a string that names neither an
entry of `ACTION_POLICY` nor a member of `Object.prototype`, `decideAction`
returns the `other` entry `{medium, delete}` (the part of C3 the code
satisfies). -/
theorem decideAction_unsafe_unlisted (ai : Verdict) (s : String)
    (hcat : ai.category = .str s) (hsafe : ai.safe = false)
    (hentry : assocGet ACTION_POLICY s = none)
    (hproto : assocGet objectPrototypeMembers s = none) :
    decideAction ai = .ok (policyEntry "medium" "delete") := by
  rw [decideAction_of_str ai s hcat]
  simp [hsafe, policyFor, lookupLiteral, hentry, hproto, jsOr, JSVal.truthy]
  rfl

/-- C4: for every verdict with `safe = false` and a string category,
`decideAction` returns a Decision whose action is not `allow`; and
`decideAction` gives the same result for any two verdicts that agree on
`safe`, `confidence` and `category`. -/
theorem decideAction_unsafe_never_allow_and_pure :
    (∀ (ai : Verdict) (s : String), ai.category = .str s → ai.safe = false →
        ∃ d, decideAction ai = .ok d ∧ (d.get "action").isStr "allow" = false) ∧
      (∀ a b : Verdict, a.safe = b.safe → a.confidence = b.confidence →
        a.category = b.category → decideAction a = decideAction b) := by
  constructor
  · intro ai s hcat hsafe
    refine ⟨policyFor (some s), ?_, ?_⟩
    · rw [decideAction_of_str ai s hcat]
      simp [hsafe]
    · have := policyFor_str s
      simp only [isPlainNonAllow, Bool.and_eq_true, Bool.not_eq_true'] at this
      exact this.1
  · intro a b h1 h2 h3
    simp only [decideAction, h1, h2, h3]

theorem decideAction_unsafe_never_allow_and_pure_witness :
    (∃ d, decideAction groomingVerdict = .ok d ∧ (d.get "action").isStr "allow" = false) ∧
      decideAction groomingVerdict =
        decideAction { groomingVerdict with severity := .str "high", rationale := .str "q" } :=
  ⟨decideAction_unsafe_never_allow_and_pure.1 groomingVerdict "grooming" rfl rfl,
    decideAction_unsafe_never_allow_and_pure.2 groomingVerdict
      { groomingVerdict with severity := .str "high", rationale := .str "q" } rfl rfl rfl⟩

/-- C5: for every verdict with a string category, `safe = true` and
`confidence >= 0.55`, `decideAction` returns `{severity: low, action: allow}`,
which has no `reason` field; and over all verdicts with a string category the
Decision has a `reason` field if and only if `safe = true` and
`confidence < 0.55`. -/
theorem decideAction_allow_and_reason :
    (∀ (ai : Verdict) (s : String), ai.category = .str s → ai.safe = true →
        ai.confidence.ge 0.55 = true →
        decideAction ai = .ok (.obj [("severity", .str "low"), ("action", .str "allow")])) ∧
      (∀ (ai : Verdict) (s : String), ai.category = .str s →
        ∃ d, decideAction ai = .ok d ∧
          (d.has "reason" = true ↔ (ai.safe = true ∧ ai.confidence.lt 0.55 = true))) := by
  constructor
  · intro ai s hcat hsafe hconf
    rw [decideAction_of_str ai s hcat]
    simp [hsafe, lt_false_of_ge _ _ hconf, allowDecision, policyEntry]
  · intro ai s hcat
    rw [decideAction_of_str ai s hcat]
    by_cases h1 : ai.safe = true ∧ ai.confidence.lt 0.55 = true
    · refine ⟨lowConfidenceDecision, by simp [h1], ?_⟩
      simp [h1]
      rfl
    · by_cases h2 : ai.safe = false
      · refine ⟨policyFor (some s), by simp [h1, h2], ?_⟩
        have := policyFor_str s
        simp only [isPlainNonAllow, Bool.and_eq_true, Bool.not_eq_true'] at this
        simp [this.2, h2]
      · have hs : ai.safe = true := by simpa using h2
        have hc : ai.confidence.lt 0.55 = false := by
          cases hlt : ai.confidence.lt 0.55
          · rfl
          · exact absurd ⟨hs, hlt⟩ h1
        refine ⟨allowDecision, by simp [hs, hc], ?_⟩
        have hr : allowDecision.has "reason" = false := rfl
        simp only [hr]
        constructor
        · intro h; cases h
        · intro h; exact absurd h h1

theorem decideAction_allow_and_reason_witness :
    thresholdVerdict.confidence.ge 0.55 = true ∧
      decideAction thresholdVerdict =
        .ok (.obj [("severity", .str "low"), ("action", .str "allow")]) ∧
      ∃ d, decideAction unsureVerdict = .ok d ∧
        (d.has "reason" = true ↔
          (unsureVerdict.safe = true ∧ unsureVerdict.confidence.lt 0.55 = true)) :=
  have h : thresholdVerdict.confidence.ge 0.55 = true := by
    simp [thresholdVerdict, JSNum.ge]
  ⟨h, decideAction_allow_and_reason.1 thresholdVerdict "none" rfl rfl h,
    decideAction_allow_and_reason.2 unsureVerdict "grooming" rfl⟩

/-! ## The gate of the handlers against the Decision -/

/-- C6, where the code departs from the claim: the verdict normalisation
returns for the reply `{"safe":true,"confidence":0.3}` is safe with confidence
below 0.55 and severity `low`; the Decision for it is the low-confidence
`delete` of `decideAction`, yet the condition of the handler is false, so
`applyModeration` is not called and the branch of `decideAction` that fails
closed on uncertainty is never reached. -/
theorem handlerGate_misses_low_confidence :
    (normalizeModeration jsonParse (.str quietUnsureReply)).toOption.bind JSVal.toVerdict? =
        some quietUnsureVerdict ∧
      quietUnsureVerdict.safe = true ∧
      quietUnsureVerdict.confidence.lt 0.55 = true ∧
      decideAction quietUnsureVerdict = .ok lowConfidenceDecision ∧
      deletesMessage lowConfidenceDecision = true ∧
      handlerGate quietUnsureVerdict = false ∧
      ¬ (handlerGate quietUnsureVerdict = true ↔
          ∃ d, decideAction quietUnsureVerdict = .ok d ∧ deletesMessage d = true) := by
  have hlt : quietUnsureVerdict.confidence.lt 0.55 = true := by
    norm_num [quietUnsureVerdict, JSNum.lt]
  have hd : decideAction quietUnsureVerdict = .ok lowConfidenceDecision := by
    have hs : quietUnsureVerdict.safe = true := rfl
    rw [decideAction_of_str quietUnsureVerdict "other" rfl]
    simp [hlt, hs]
  refine ⟨rfl, rfl, hlt, hd, rfl, rfl, ?_⟩
  intro h
  have hg : handlerGate quietUnsureVerdict = false := rfl
  have := h.2 ⟨lowConfidenceDecision, hd, rfl⟩
  rw [hg] at this
  cases this

/-- The condition of the handlers against the Decision, for every verdict with
a string category: (1) if `safe` is false, the condition of the handler holds
and the Decision is not `allow`; (2) if `safe` is true, the condition holds if
and only if the severity is not `low`, whatever the confidence; (3) if `safe`
is true, the Decision is not `allow` if and only if `confidence < 0.55`.  So the
two agree on every unsafe verdict, and differ on a safe verdict exactly when
`severity = low` and `confidence < 0.55` hold together or fail together. -/
theorem handlerGate_versus_decision (ai : Verdict) (s : String)
    (hcat : ai.category = .str s) :
    (ai.safe = false →
        handlerGate ai = true ∧ ∃ d, decideAction ai = .ok d ∧ deletesMessage d = true) ∧
      (ai.safe = true → (handlerGate ai = true ↔ ai.severity.isStr "low" = false)) ∧
      (ai.safe = true →
        ∃ d, decideAction ai = .ok d ∧
          (deletesMessage d = true ↔ ai.confidence.lt 0.55 = true)) := by
  refine ⟨?_, ?_, ?_⟩
  · intro hs
    refine ⟨by simp [handlerGate, hs], policyFor (some s), ?_, ?_⟩
    · rw [decideAction_of_str ai s hcat]
      simp [hs]
    · have := policyFor_str s
      simp only [isPlainNonAllow, Bool.and_eq_true, Bool.not_eq_true'] at this
      simp [deletesMessage, this.1]
  · intro hs
    simp [handlerGate, hs]
  · intro hs
    rw [decideAction_of_str ai s hcat]
    cases hlt : ai.confidence.lt 0.55
    · refine ⟨allowDecision, by simp [hs], ?_⟩
      have : deletesMessage allowDecision = false := rfl
      simp [this]
    · refine ⟨lowConfidenceDecision, by simp [hs], ?_⟩
      have : deletesMessage lowConfidenceDecision = true := rfl
      simp [this]

theorem handlerGate_versus_decision_witness :
    sureSevereVerdict.category = .str "none" ∧
      (sureSevereVerdict.safe = true →
        (handlerGate sureSevereVerdict = true ↔
          sureSevereVerdict.severity.isStr "low" = false)) ∧
      (sureSevereVerdict.safe = true →
        ∃ d, decideAction sureSevereVerdict = .ok d ∧
          (deletesMessage d = true ↔ sureSevereVerdict.confidence.lt 0.55 = true)) :=
  ⟨rfl, (handlerGate_versus_decision sureSevereVerdict "none" rfl).2.1,
    (handlerGate_versus_decision sureSevereVerdict "none" rfl).2.2⟩

/-! ## Well-typedness of normalised verdicts -/

theorem isOneOf_iff (v : JSVal) (names : List String) :
    v.isOneOf names = true ↔ ∃ s, v = .str s ∧ s ∈ names := by
  cases v <;> simp [JSVal.isOneOf]

theorem typeOf_boolean (v : JSVal) (h : typeOf v = .boolean) : ∃ b, v = .bool b := by
  cases v <;> simp [typeOf] at h ⊢
  split_ifs at h

theorem typeOf_number (v : JSVal) (h : typeOf v = .number) : ∃ x, v = .num x := by
  cases v <;> simp [typeOf] at h ⊢
  split_ifs at h

theorem safeOf_bool (o : JSVal) : ∃ b, safeOf o = .bool b := by
  unfold safeOf
  split_ifs with h
  · exact typeOf_boolean _ h
  · exact ⟨false, rfl⟩

/-- The code's table agrees with the table of the specification. -/
theorem lookup_specSeverityTable (a sev : String) (h : (a, sev) ∈ specSeverityTable) :
    lookupLiteral severityByAction (some a) = .str sev := by
  simp only [specSeverityTable, List.mem_cons, Prod.mk.injEq, List.mem_nil_iff, or_false] at h
  rcases h with ⟨rfl, rfl⟩ | ⟨rfl, rfl⟩ | ⟨rfl, rfl⟩ | ⟨rfl, rfl⟩ | ⟨rfl, rfl⟩ | ⟨rfl, rfl⟩ |
    ⟨rfl, rfl⟩ <;> rfl

theorem specSeverityTable_total (a : String) (h : a ∈ actionEnum) :
    ∃ sev, (a, sev) ∈ specSeverityTable ∧ sev ∈ severityEnum := by
  simp only [actionEnum, List.mem_cons, List.mem_nil_iff, or_false] at h
  rcases h with rfl | rfl | rfl | rfl | rfl | rfl | rfl
  · exact ⟨"low", by decide, by decide⟩
  · exact ⟨"low", by decide, by decide⟩
  · exact ⟨"medium", by decide, by decide⟩
  · exact ⟨"medium", by decide, by decide⟩
  · exact ⟨"high", by decide, by decide⟩
  · exact ⟨"high", by decide, by decide⟩
  · exact ⟨"critical", by decide, by decide⟩

theorem specSeverityTable_nonempty (a sev : String) (h : (a, sev) ∈ specSeverityTable) :
    sev ≠ "" := by
  simp only [specSeverityTable, List.mem_cons, Prod.mk.injEq, List.mem_nil_iff, or_false] at h
  rcases h with ⟨rfl, rfl⟩ | ⟨rfl, rfl⟩ | ⟨rfl, rfl⟩ | ⟨rfl, rfl⟩ | ⟨rfl, rfl⟩ | ⟨rfl, rfl⟩ |
    ⟨rfl, rfl⟩ <;> decide

theorem severityOf_spec (o : JSVal) (a sev : String) (h : (a, sev) ∈ specSeverityTable) :
    severityOf o (some a) = .str sev := by
  unfold severityOf jsOr
  rw [lookup_specSeverityTable a sev h]
  simp [JSVal.truthy, specSeverityTable_nonempty a sev h]

/-- C7, as stated, fails: `normalizeModeration` returns the object of the reply
`illTypedReply` unchanged, with a category, a severity and a suggested action
outside their enumerations, a numeric version, an array as rationale and the
confidence 5, which is above 1. -/
theorem normalizeModeration_passes_ill_typed_fields :
    normalizeModeration jsonParse (.str illTypedReply) = .ok illTypedObject ∧
      (illTypedObject.get "category").isOneOf categoryEnum = false ∧
      (illTypedObject.get "severity").isOneOf severityEnum = false ∧
      (illTypedObject.get "suggested_action").isOneOf actionEnum = false ∧
      illTypedObject.get "version" = .num (.fin (mkRat 2 1)) ∧
      illTypedObject.get "rationale" = .arr [.str "x"] [] ∧
      illTypedObject.get "confidence" = .num (.fin (mkRat 5 1)) ∧
      (1 : ℚ) < mkRat 5 1 := by
  refine ⟨rfl, rfl, rfl, rfl, rfl, rfl, rfl, by decide⟩

theorem suggestedActionOf_wellTyped (o : JSVal)
    (h : (o.get "suggested_action").truthy = true →
      (o.get "suggested_action").isOneOf actionEnum = true) :
    ∃ a, suggestedActionOf o = .str a ∧ a ∈ actionEnum := by
  unfold suggestedActionOf jsOr
  split_ifs with h1 h2
  · exact (isOneOf_iff _ _).1 (h h1)
  · exact ⟨"allow", rfl, by decide⟩
  · exact ⟨"delete", rfl, by decide⟩

theorem jsOr_cases (a b : JSVal) :
    (a.truthy = true ∧ jsOr a b = a) ∨ (a.truthy = false ∧ jsOr a b = b) := by
  unfold jsOr
  cases h : a.truthy <;> simp

/-- C7, amended: for every input whose parsed object supplies well-typed
fields (each of category, severity, suggested_action, version, rationale is
absent or of its type, confidence is not a number or lies in `[0,1]`),
`normalizeModeration` returns a verdict whose category, severity and
suggested_action are in their enumerations, whose version and rationale are
strings, whose confidence is a number in `[0,1]` and whose `safe` is a
boolean. -/
theorem normalizeModeration_wellTyped (JSON_parse : String → Option JSVal) (raw : JSVal)
    (h : SuppliedFieldsWellTyped (parsedObject JSON_parse raw)) :
    ∃ v, normalizeModeration JSON_parse raw = .ok v ∧
      (v.get "category").isOneOf categoryEnum = true ∧
      (v.get "severity").isOneOf severityEnum = true ∧
      (v.get "suggested_action").isOneOf actionEnum = true ∧
      (v.get "version").isString ∧
      (v.get "rationale").isString ∧
      (v.get "confidence").isUnitNumber ∧
      ∃ b, v.get "safe" = .bool b := by
  obtain ⟨a, ha, hamem⟩ := suggestedActionOf_wellTyped _ h.suggested_action
  obtain ⟨v, hv⟩ := normalizeModeration_returns_of_key JSON_parse raw (some a)
    (by rw [ha]; rfl)
  obtain ⟨-, hsafe, hver, hcat, hact, hsev, hconf, hrat⟩ :=
    normalizeModeration_ok JSON_parse raw v hv
  refine ⟨v, hv, ?_, ?_, ?_, ?_, ?_, ?_, ?_⟩
  · rw [hcat]
    rcases jsOr_cases ((parsedObject JSON_parse raw).get "category") (.str "other") with
      ⟨ht, e⟩ | ⟨-, e⟩
    · rw [e]; exact h.category ht
    · rw [e]; rfl
  · rcases hsev with ⟨ht, e⟩ | ⟨-, key, hkey, e⟩
    · rw [e]; exact h.severity ht
    · rw [ha] at hkey
      have hk : key = some a := by
        simp only [toPropertyKey, Except.ok.injEq] at hkey
        exact hkey.symm
      obtain ⟨sev, hmem, hsevmem⟩ := specSeverityTable_total a hamem
      rw [e, hk, severityOf_spec _ a sev hmem]
      exact (isOneOf_iff _ _).2 ⟨sev, rfl, hsevmem⟩
  · rw [hact, ha]
    exact (isOneOf_iff _ _).2 ⟨a, rfl, hamem⟩
  · rw [hver]
    rcases jsOr_cases ((parsedObject JSON_parse raw).get "version") (.str "1.0") with
      ⟨ht, e⟩ | ⟨-, e⟩
    · rw [e]; exact h.version ht
    · rw [e]; exact ⟨"1.0", rfl⟩
  · rw [hrat]
    rcases jsOr_cases ((parsedObject JSON_parse raw).get "rationale") (.str "normalized") with
      ⟨ht, e⟩ | ⟨-, e⟩
    · rw [e]; exact h.rationale ht
    · rw [e]; exact ⟨"normalized", rfl⟩
  · rw [hconf]
    unfold confidenceOf
    split_ifs with h1 h2
    · exact h.confidence h1
    · exact ⟨0.6, rfl, by norm_num, by norm_num⟩
    · exact ⟨0.85, rfl, by norm_num, by norm_num⟩
  · rw [hsafe]
    exact safeOf_bool _

theorem normalizeModeration_wellTyped_witness :
    SuppliedFieldsWellTyped (parsedObject jsonParse (.str partialReply)) ∧
      ∃ v, normalizeModeration jsonParse (.str partialReply) = .ok v ∧
        (v.get "category").isOneOf categoryEnum = true ∧
        (v.get "severity").isOneOf severityEnum = true ∧
        (v.get "suggested_action").isOneOf actionEnum = true ∧
        (v.get "version").isString ∧
        (v.get "rationale").isString ∧
        (v.get "confidence").isUnitNumber ∧
        ∃ b, v.get "safe" = .bool b :=
  have h : SuppliedFieldsWellTyped (parsedObject jsonParse (.str partialReply)) :=
    { category := fun _ => rfl
      severity := fun h => by cases h
      suggested_action := fun _ => rfl
      version := fun h => by cases h
      rationale := fun h => by cases h
      confidence := fun h => by cases h }
  ⟨h, normalizeModeration_wellTyped jsonParse (.str partialReply) h⟩

theorem confidenceOf_num (o : JSVal) : ∃ x, confidenceOf o = .num x := by
  unfold confidenceOf
  split_ifs with h1 h2
  · exact typeOf_number _ h1
  · exact ⟨_, rfl⟩
  · exact ⟨_, rfl⟩

/-- Every object `normalizeModeration` returns reads as a `Verdict`: its `safe`
is a boolean and its `confidence` a number. -/
theorem normalizeModeration_toVerdict (JSON_parse : String → Option JSVal) (raw v : JSVal)
    (hv : normalizeModeration JSON_parse raw = .ok v) :
    ∃ ai, v.toVerdict? = some ai ∧ v.get "safe" = .bool ai.safe ∧
      v.get "confidence" = .num ai.confidence ∧ ai.category = v.get "category" ∧
      ai.severity = v.get "severity" := by
  obtain ⟨-, hsafe, -, -, -, -, hconf, -⟩ := normalizeModeration_ok JSON_parse raw v hv
  obtain ⟨b, hb⟩ := safeOf_bool (parsedObject JSON_parse raw)
  obtain ⟨x, hx⟩ := confidenceOf_num (parsedObject JSON_parse raw)
  rw [hb] at hsafe
  rw [hx] at hconf
  exact
    ⟨{ version := v.get "version"
       safe := b
       confidence := x
       category := v.get "category"
       severity := v.get "severity"
       suggested_action := v.get "suggested_action"
       rationale := v.get "rationale" },
      by simp only [JSVal.toVerdict?, hsafe, hconf], hsafe, hconf, rfl, rfl⟩

/-! ## Conservative degradation -/

theorem normalizeModeration_of_parsedObject (JSON_parse : String → Option JSVal)
    (raw : JSVal) (h : parsedObject JSON_parse raw = .obj []) :
    normalizeModeration JSON_parse raw = .ok conservativeVerdict := by
  rw [normalizeModeration_eq, h]
  rfl

/-- C8: for every parser, a string that is not valid JSON, a string that
parses to `null`, a number, a boolean or a string, and a raw input that is
itself `null`, `undefined`, a number or a boolean, all give the verdict of the
empty object: `safe = false`, `version = "1.0"`, `category = other`,
`suggested_action = delete`, `severity = medium`, `confidence = 0.85`,
`rationale = "normalized"`; a string that parses to an array gives that array
carrying the same seven fields; and `decideAction` of the verdict is `{medium,
delete}`. -/
theorem normalizeModeration_conservative (JSON_parse : String → Option JSVal) :
    normalizeModeration JSON_parse (.obj []) =
        .ok (.obj [("safe", .bool false), ("version", .str "1.0"), ("category", .str "other"),
          ("suggested_action", .str "delete"), ("severity", .str "medium"),
          ("confidence", .num (.fin 0.85)), ("rationale", .str "normalized")]) ∧
      (∀ s, JSON_parse s = none →
        normalizeModeration JSON_parse (.str s) = normalizeModeration JSON_parse (.obj [])) ∧
      (∀ s v, JSON_parse s = some v →
        (v = .null ∨ (∃ x, v = .num x) ∨ (∃ b, v = .bool b) ∨ (∃ t, v = .str t)) →
        normalizeModeration JSON_parse (.str s) = normalizeModeration JSON_parse (.obj [])) ∧
      (∀ raw, (raw = .null ∨ raw = .undefined ∨ (∃ x, raw = .num x) ∨ (∃ b, raw = .bool b)) →
        normalizeModeration JSON_parse raw = normalizeModeration JSON_parse (.obj [])) ∧
      (∀ s es, JSON_parse s = some (.arr es []) →
        normalizeModeration JSON_parse (.str s) = .ok (.arr es conservativeFields)) ∧
      (∀ es, (JSVal.arr es conservativeFields).toVerdict? = conservativeVerdict.toVerdict?) ∧
      conservativeVerdict.toVerdict? = some conservativeTyped ∧
      decideAction conservativeTyped =
        .ok (.obj [("severity", .str "medium"), ("action", .str "delete")]) := by
  have h0 : normalizeModeration JSON_parse (.obj []) = .ok conservativeVerdict := rfl
  refine ⟨h0, ?_, ?_, ?_, ?_, ?_, rfl, rfl⟩
  · intro s hs
    rw [h0]
    apply normalizeModeration_of_parsedObject
    simp [parsedObject, parseRaw, hs]
    rfl
  · intro s v hs hv
    rw [h0]
    apply normalizeModeration_of_parsedObject
    simp only [parsedObject, parseRaw, hs, Option.getD_some]
    rcases hv with rfl | ⟨x, rfl⟩ | ⟨b, rfl⟩ | ⟨t, rfl⟩ <;> simp [ensureObject, typeOf, JSVal.isNull]
  · intro raw hraw
    rw [h0]
    apply normalizeModeration_of_parsedObject
    rcases hraw with rfl | rfl | ⟨x, rfl⟩ | ⟨b, rfl⟩ <;>
      simp [parsedObject, parseRaw, ensureObject, typeOf, JSVal.isNull]
  · intro s es hs
    rw [normalizeModeration_eq]
    have : parsedObject JSON_parse (.str s) = .arr es [] := by
      simp [parsedObject, parseRaw, hs, ensureObject, typeOf, JSVal.isNull]
    rw [this]
    rfl
  · intro es
    rfl

theorem normalizeModeration_conservative_witness :
    jsonParse "I cannot help with that." = none ∧
      jsonParse "42" = some (.num (.fin (mkRat 42 1))) ∧
      normalizeModeration jsonParse (.str "I cannot help with that.") =
        normalizeModeration jsonParse (.obj []) ∧
      normalizeModeration jsonParse (.str "42") = normalizeModeration jsonParse (.obj []) ∧
      normalizeModeration jsonParse .null = normalizeModeration jsonParse (.obj []) ∧
      normalizeModeration jsonParse (.str "[1]") =
        .ok (.arr [.num (.fin (mkRat 1 1))] conservativeFields) :=
  ⟨rfl, rfl,
    (normalizeModeration_conservative jsonParse).2.1 "I cannot help with that." rfl,
    (normalizeModeration_conservative jsonParse).2.2.1 "42" _ rfl (Or.inr (Or.inl ⟨_, rfl⟩)),
    (normalizeModeration_conservative jsonParse).2.2.2.1 .null (Or.inl rfl),
    (normalizeModeration_conservative jsonParse).2.2.2.2.1 "[1]" _ rfl⟩

/-! ## Locating the JSON object of a reply -/

theorem dropWhile_append_of_all (p : Char → Bool) (l₁ l₂ : List Char)
    (h : ∀ c ∈ l₁, p c = true) : (l₁ ++ l₂).dropWhile p = l₂.dropWhile p := by
  induction l₁ with
  | nil => rfl
  | cons c rest ih =>
    have hc : p c = true := h c (List.mem_cons_self _ _)
    simp only [List.cons_append, List.dropWhile_cons, hc, if_true]
    exact ih (fun d hd => h d (List.mem_cons_of_mem _ hd))

/-- The match of the regular expression on a text `pre ++ "{" ++ body ++ "}" ++
post` whose prefix has no opening brace and whose suffix has no closing brace
is `"{" ++ body ++ "}"`. -/
theorem matchBraces_wrapped (pre body post : List Char)
    (hpre : ∀ c ∈ pre, c ≠ '{') (hpost : ∀ c ∈ post, c ≠ '}') :
    matchBraces (pre ++ '{' :: (body ++ '}' :: post)) = some ('{' :: (body ++ ['}'])) := by
  unfold matchBraces
  have h1 : (pre ++ '{' :: (body ++ '}' :: post)).dropWhile (fun c => c != '{') =
      '{' :: (body ++ '}' :: post) := by
    rw [dropWhile_append_of_all _ _ _ (by simpa using hpre)]
    simp
  rw [h1]
  have h2 : ('{' :: (body ++ '}' :: post)).reverse =
      post.reverse ++ '}' :: (body.reverse ++ ['{']) := by
    simp
  have h3 : (post.reverse ++ '}' :: (body.reverse ++ ['{'])).dropWhile (fun c => c != '}') =
      '}' :: (body.reverse ++ ['{']) := by
    rw [dropWhile_append_of_all _ _ _ (by simpa using hpost)]
    simp
  simp only [h2, h3]
  simp

/-- C9, as stated, fails: in `trailingBracesReply` the first balanced span is
the JSON object `{"safe":true,"severity":"low"}`, whose normalisation is a safe
verdict; `cleanJSONResponse` returns the text from the first opening brace to
the last closing brace, which is not JSON, and its normalisation is the
conservative unsafe verdict. -/
theorem cleanJSONResponse_not_first_balanced_span :
    firstBalancedSpan trailingBracesReply.toList = some trailingBracesObject.toList ∧
      jsonParse trailingBracesObject =
        some (.obj [("safe", .bool true), ("severity", .str "low")]) ∧
      cleanJSONResponse (.str trailingBracesReply) =
        .str "\x7b\"safe\":true,\"severity\":\"low\"\x7d (schema: \x7b...\x7d" ∧
      normalizeModeration jsonParse (cleanJSONResponse (.str trailingBracesReply)) =
        .ok conservativeVerdict ∧
      normalizeModeration jsonParse (.str trailingBracesObject) =
        .ok (.obj [("safe", .bool true), ("severity", .str "low"), ("version", .str "1.0"),
          ("category", .str "other"), ("suggested_action", .str "allow"),
          ("confidence", .num (.fin 0.6)), ("rationale", .str "normalized")]) ∧
      normalizeModeration jsonParse (cleanJSONResponse (.str trailingBracesReply)) ≠
        normalizeModeration jsonParse (.str trailingBracesObject) := by
  have h1 : normalizeModeration jsonParse (cleanJSONResponse (.str trailingBracesReply)) =
      .ok conservativeVerdict := rfl
  have h2 : normalizeModeration jsonParse (.str trailingBracesObject) =
      .ok (.obj [("safe", .bool true), ("severity", .str "low"), ("version", .str "1.0"),
        ("category", .str "other"), ("suggested_action", .str "allow"),
        ("confidence", .num (.fin 0.6)), ("rationale", .str "normalized")]) := rfl
  refine ⟨rfl, rfl, rfl, h1, h2, ?_⟩
  rw [h1, h2]
  simp [conservativeVerdict]

/-- C9, amended: for every text `pre ++ "{" ++ body ++ "}" ++ post` in which
`pre` contains no opening brace and `post` no closing brace,
`cleanJSONResponse` returns `"{" ++ body ++ "}"`, and normalising the cleaned
text gives the same result as normalising `"{" ++ body ++ "}"` alone, for
every parser. -/
theorem cleanJSONResponse_wrapped (JSON_parse : String → Option JSVal)
    (pre body post : List Char)
    (hpre : ∀ c ∈ pre, c ≠ '{') (hpost : ∀ c ∈ post, c ≠ '}') :
    cleanJSONResponse (.str (String.mk (pre ++ '{' :: (body ++ '}' :: post)))) =
        .str (String.mk ('{' :: (body ++ ['}']))) ∧
      normalizeModeration JSON_parse
          (cleanJSONResponse (.str (String.mk (pre ++ '{' :: (body ++ '}' :: post))))) =
        normalizeModeration JSON_parse (.str (String.mk ('{' :: (body ++ ['}'])))) := by
  have h : cleanJSONResponse (.str (String.mk (pre ++ '{' :: (body ++ '}' :: post)))) =
      .str (String.mk ('{' :: (body ++ ['}']))) := by
    simp only [cleanJSONResponse, String.toList, matchBraces_wrapped pre body post hpre hpost]
  exact ⟨h, by rw [h]⟩

theorem cleanJSONResponse_wrapped_witness :
    (∀ c ∈ "Here you go:\n".toList, c ≠ '{') ∧ (∀ c ∈ "\nDone.".toList, c ≠ '}') ∧
      cleanJSONResponse
          (.str (String.mk ("Here you go:\n".toList ++
            '{' :: ("\"safe\":false".toList ++ '}' :: "\nDone.".toList)))) =
        .str (String.mk ('{' :: ("\"safe\":false".toList ++ ['}']))) ∧
      normalizeModeration jsonParse
          (cleanJSONResponse
            (.str (String.mk ("Here you go:\n".toList ++
              '{' :: ("\"safe\":false".toList ++ '}' :: "\nDone.".toList))))) =
        normalizeModeration jsonParse
          (.str (String.mk ('{' :: ("\"safe\":false".toList ++ ['}'])))) :=
  have hpre : ∀ c ∈ "Here you go:\n".toList, c ≠ '{' := by decide
  have hpost : ∀ c ∈ "\nDone.".toList, c ≠ '}' := by decide
  ⟨hpre, hpost,
    cleanJSONResponse_wrapped jsonParse "Here you go:\n".toList "\"safe\":false".toList
      "\nDone.".toList hpre hpost⟩

/-! ## Severity from the suggested action -/

/-- C10: for every parser and input whose parsed object has no (truthy)
severity and whose suggested action after defaulting, `suggestedActionOf`, is
the action `a` of a row `(a, sev)` of the table ban→critical, kick→high,
timeout_1h→high, timeout_10m→medium, delete→medium, warn→low, allow→low,
`normalizeModeration` returns a verdict with that suggested action and the
severity `sev`, whatever the other fields are; and every action of the
enumeration has exactly one severity in the code's table, a member of the
severity enumeration. -/
theorem normalizeModeration_severity_from_action :
    (∀ (JSON_parse : String → Option JSVal) (raw : JSVal) (a sev : String),
        (a, sev) ∈ specSeverityTable →
        ((parsedObject JSON_parse raw).get "severity").truthy = false →
        suggestedActionOf (parsedObject JSON_parse raw) = .str a →
        ∃ v, normalizeModeration JSON_parse raw = .ok v ∧
          v.get "suggested_action" = .str a ∧ v.get "severity" = .str sev) ∧
      (∀ a ∈ actionEnum,
        ∃! sev, sev ∈ severityEnum ∧ lookupLiteral severityByAction (some a) = .str sev) := by
  constructor
  · intro JSON_parse raw a sev hmem hsev hact
    obtain ⟨v, hv⟩ := normalizeModeration_returns_of_key JSON_parse raw (some a)
      (by rw [hact]; rfl)
    obtain ⟨-, -, -, -, hact2, hsev2, -, -⟩ := normalizeModeration_ok JSON_parse raw v hv
    refine ⟨v, hv, by rw [hact2, hact], ?_⟩
    rcases hsev2 with ⟨ht, -⟩ | ⟨-, key, hkey, e⟩
    · rw [hsev] at ht
      cases ht
    · rw [hact] at hkey
      have hk : key = some a := by
        simp only [toPropertyKey, Except.ok.injEq] at hkey
        exact hkey.symm
      rw [e, hk, severityOf_spec _ a sev hmem]
  · intro a ha
    obtain ⟨sev, hmem, hsevmem⟩ := specSeverityTable_total a ha
    refine ⟨sev, ⟨hsevmem, lookup_specSeverityTable a sev hmem⟩, ?_⟩
    rintro y ⟨-, hy⟩
    rw [lookup_specSeverityTable a sev hmem] at hy
    cases hy
    rfl

theorem normalizeModeration_severity_from_action_witness :
    ("kick", "high") ∈ specSeverityTable ∧
      ((parsedObject jsonParse (.str kickReply)).get "severity").truthy = false ∧
      suggestedActionOf (parsedObject jsonParse (.str kickReply)) = .str "kick" ∧
      (∃ v, normalizeModeration jsonParse (.str kickReply) = .ok v ∧
        v.get "suggested_action" = .str "kick" ∧ v.get "severity" = .str "high") ∧
      ∃! sev, sev ∈ severityEnum ∧ lookupLiteral severityByAction (some "ban") = .str sev :=
  ⟨by decide, rfl, rfl,
    normalizeModeration_severity_from_action.1 jsonParse (.str kickReply) "kick" "high"
      (by decide) rfl rfl,
    normalizeModeration_severity_from_action.2 "ban" (by decide)⟩

/-! ## The confidence default -/

/-- C11: for every parser and every input on which `normalizeModeration`
returns (the parsed object has a truthy severity, or its suggested action
converts to a property key), the returned verdict has: when the confidence of
the parsed object is missing or not a number, the confidence 0.6 if the
resulting `safe` is true and 0.85 if it is false; when it is a number, that
number unchanged. -/
theorem normalizeModeration_confidence_default (JSON_parse : String → Option JSVal)
    (raw : JSVal)
    (hret : ((parsedObject JSON_parse raw).get "severity").truthy = true ∨
      ∃ key, toPropertyKey (suggestedActionOf (parsedObject JSON_parse raw)) = .ok key) :
    ∃ v, normalizeModeration JSON_parse raw = .ok v ∧
      (typeOf ((parsedObject JSON_parse raw).get "confidence") ≠ .number →
        (v.get "safe" = .bool true ∨ v.get "safe" = .bool false) ∧
        (v.get "safe" = .bool true → v.get "confidence" = .num (.fin 0.6)) ∧
        (v.get "safe" = .bool false → v.get "confidence" = .num (.fin 0.85))) ∧
      (typeOf ((parsedObject JSON_parse raw).get "confidence") = .number →
        v.get "confidence" = (parsedObject JSON_parse raw).get "confidence") := by
  have hex : ∃ v, normalizeModeration JSON_parse raw = .ok v := by
    rcases hret with h | ⟨key, h⟩
    · exact normalizeModeration_returns_of_severity JSON_parse raw h
    · exact normalizeModeration_returns_of_key JSON_parse raw key h
  obtain ⟨v, hv⟩ := hex
  obtain ⟨-, hsafe, -, -, -, -, hconf, -⟩ := normalizeModeration_ok JSON_parse raw v hv
  obtain ⟨b, hb⟩ := safeOf_bool (parsedObject JSON_parse raw)
  refine ⟨v, hv, ?_, ?_⟩
  · intro hn
    rw [hsafe, hconf, hb]
    unfold confidenceOf
    rw [hb]
    cases b <;> simp [hn, JSVal.truthy]
  · intro hn
    rw [hconf]
    simp [confidenceOf, hn]

theorem normalizeModeration_confidence_default_witness :
    (∃ key, toPropertyKey (suggestedActionOf (parsedObject jsonParse (.str kickReply))) =
        .ok key) ∧
      ∃ v, normalizeModeration jsonParse (.str kickReply) = .ok v ∧
        (typeOf ((parsedObject jsonParse (.str kickReply)).get "confidence") ≠ .number →
          (v.get "safe" = .bool true ∨ v.get "safe" = .bool false) ∧
          (v.get "safe" = .bool true → v.get "confidence" = .num (.fin 0.6)) ∧
          (v.get "safe" = .bool false → v.get "confidence" = .num (.fin 0.85))) ∧
        (typeOf ((parsedObject jsonParse (.str kickReply)).get "confidence") = .number →
          v.get "confidence" = (parsedObject jsonParse (.str kickReply)).get "confidence") :=
  have h : ∃ key, toPropertyKey (suggestedActionOf (parsedObject jsonParse (.str kickReply))) =
      .ok key := ⟨some "kick", rfl⟩
  ⟨h, normalizeModeration_confidence_default jsonParse (.str kickReply) (Or.inr h)⟩

/-! ## The policy table -/

/-- C12, as stated, fails: `none` is one of the twelve categories and
`ACTION_POLICY`, which has eleven entries, has no entry for it. -/
theorem ACTION_POLICY_lacks_none :
    "none" ∈ categoryEnum ∧ categoryEnum.length = 12 ∧ ACTION_POLICY.length = 11 ∧
      assocGet ACTION_POLICY "none" = none ∧
      ¬ (∀ c ∈ categoryEnum, (ACTION_POLICY.filter (fun p => p.1 = c)).length = 1) := by
  refine ⟨by decide, rfl, rfl, rfl, ?_⟩
  intro h
  have := h "none" (by decide)
  revert this
  decide

/-- C12, amended: every category other than `none` has exactly one entry in
`ACTION_POLICY`, with a severity of the severity enumeration and an action of
the action enumeration; the table has no other keys; and the category `none`,
which has no entry, resolves through the fallback of `decideAction` to the
`other` entry `{medium, delete}`. -/
theorem ACTION_POLICY_total_but_none (c : String) (hc : c ∈ categoryEnum)
    (hnone : c ≠ "none") :
    (ACTION_POLICY.filter (fun p => p.1 = c)).length = 1 ∧
      (∃ sev act, assocGet ACTION_POLICY c = some (policyEntry sev act) ∧
        sev ∈ severityEnum ∧ act ∈ actionEnum) ∧
      (∀ p ∈ ACTION_POLICY, p.1 ∈ categoryEnum ∧ p.1 ≠ "none") ∧
      policyFor (some "none") = policyEntry "medium" "delete" := by
  refine ⟨?_, ?_, by decide, rfl⟩
  · simp only [categoryEnum, List.mem_cons, List.mem_nil_iff, or_false] at hc
    rcases hc with rfl | rfl | rfl | rfl | rfl | rfl | rfl | rfl | rfl | rfl | rfl | rfl
    · exact absurd rfl hnone
    all_goals rfl
  · simp only [categoryEnum, List.mem_cons, List.mem_nil_iff, or_false] at hc
    rcases hc with rfl | rfl | rfl | rfl | rfl | rfl | rfl | rfl | rfl | rfl | rfl | rfl
    · exact absurd rfl hnone
    · exact ⟨"low", "warn", rfl, by decide, by decide⟩
    · exact ⟨"high", "kick", rfl, by decide, by decide⟩
    · exact ⟨"critical", "ban", rfl, by decide, by decide⟩
    · exact ⟨"high", "timeout_1h", rfl, by decide, by decide⟩
    · exact ⟨"high", "kick", rfl, by decide, by decide⟩
    · exact ⟨"high", "kick", rfl, by decide, by decide⟩
    · exact ⟨"high", "ban", rfl, by decide, by decide⟩
    · exact ⟨"high", "kick", rfl, by decide, by decide⟩
    · exact ⟨"medium", "delete", rfl, by decide, by decide⟩
    · exact ⟨"medium", "delete", rfl, by decide, by decide⟩
    · exact ⟨"medium", "delete", rfl, by decide, by decide⟩

theorem ACTION_POLICY_total_but_none_witness :
    "self_harm" ∈ categoryEnum ∧ "self_harm" ≠ "none" ∧
      (ACTION_POLICY.filter (fun p => p.1 = "self_harm")).length = 1 ∧
      (∃ sev act, assocGet ACTION_POLICY "self_harm" = some (policyEntry sev act) ∧
        sev ∈ severityEnum ∧ act ∈ actionEnum) ∧
      (∀ p ∈ ACTION_POLICY, p.1 ∈ categoryEnum ∧ p.1 ≠ "none") ∧
      policyFor (some "none") = policyEntry "medium" "delete" :=
  ⟨by decide, by decide, ACTION_POLICY_total_but_none "self_harm" (by decide) (by decide)⟩

/-! ## Enforcement -/

theorem sanction_of_success (platform : PlatformCall → Option Thrown) (reason : JSVal)
    (call : PlatformCall) (done : EnforcementResult)
    (hreason : ∃ key, toPropertyKey reason = .ok key) (hcall : platform call = none) :
    sanction platform reason call done = { result := done, calls := [call] } := by
  obtain ⟨key, hkey⟩ := hreason
  simp only [sanction, hkey, hcall]

theorem sanction_calls_le (platform : PlatformCall → Option Thrown) (reason : JSVal)
    (call : PlatformCall) (done : EnforcementResult) :
    (sanction platform reason call done).calls = [] ∨
      (sanction platform reason call done).calls = [call] := by
  unfold sanction
  cases toPropertyKey reason with
  | error e => cases e; left; rfl
  | ok key => cases platform call <;> (right; rfl)

theorem sanction_of_failure (platform : PlatformCall → Option Thrown) (reason : JSVal)
    (call : PlatformCall) (done : EnforcementResult) (c : PlatformCall) (e : Thrown)
    (hc : c ∈ (sanction platform reason call done).calls) (he : platform c = some e) :
    (sanction platform reason call done).result =
      { applied := false, note := some (errorText e) } := by
  unfold sanction at hc ⊢
  cases hk : toPropertyKey reason with
  | error err =>
    cases err
    simp [hk] at hc
  | ok key =>
    cases hp : platform call with
    | none =>
      simp only [hk, hp, List.mem_singleton] at hc
      rw [hc, hp] at he
      cases he
    | some e2 =>
      simp only [hk, hp, List.mem_singleton] at hc
      rw [hc, hp] at he
      cases he
      rfl

/-- The calls `enforcePunishment` attempts: none, or one. -/
theorem enforcePunishment_calls (platform : PlatformCall → Option Thrown)
    (member : Option Member) (action reason : JSVal) :
    (enforcePunishment platform member action reason).calls = [] ∨
      ∃ c, (enforcePunishment platform member action reason).calls = [c] := by
  unfold enforcePunishment
  split_ifs <;>
    first
      | (left; rfl)
      | (rcases sanction_calls_le platform reason _ _ with h | h
         · left; exact h
         · right; exact ⟨_, h⟩)

/-- C13: for the action `ban`, a reason that converts to a string and platform
calls that succeed: a bannable member is banned and the result is `{applied:
true}` without a note; otherwise a kickable member is kicked, with the note
"kick fallback"; otherwise a moderatable member is timed out for 3,600,000 ms,
with the note "timeout fallback"; otherwise no platform call is made and
`applied` is false.  Whatever the platform answers, at most one call is
attempted. -/
theorem enforcePunishment_ban_chain (platform : PlatformCall → Option Thrown)
    (member : Option Member) (reason : JSVal)
    (hok : ∀ c, platform c = none) (hreason : ∃ key, toPropertyKey reason = .ok key) :
    (canBan member = true →
        enforcePunishment platform member (.str "ban") reason =
          { result := { applied := true, note := none }, calls := [.ban reason] }) ∧
      (canBan member = false → canKick member = true →
        enforcePunishment platform member (.str "ban") reason =
          { result := { applied := true, note := some "kick fallback" },
            calls := [.kick reason] }) ∧
      (canBan member = false → canKick member = false → canModerate member = true →
        enforcePunishment platform member (.str "ban") reason =
          { result := { applied := true, note := some "timeout fallback" },
            calls := [.timeout 3600000 reason] }) ∧
      (canBan member = false → canKick member = false → canModerate member = false →
        (enforcePunishment platform member (.str "ban") reason).result.applied = false ∧
          (enforcePunishment platform member (.str "ban") reason).calls = []) ∧
      (∀ (anyPlatform : PlatformCall → Option Thrown) (anyReason : JSVal),
        (enforcePunishment anyPlatform member (.str "ban") anyReason).calls.length ≤ 1) := by
  refine ⟨?_, ?_, ?_, ?_, ?_⟩
  · intro h1
    simp [enforcePunishment, JSVal.isStr, h1, sanction_of_success _ _ _ _ hreason (hok _)]
  · intro h1 h2
    simp [enforcePunishment, JSVal.isStr, h1, h2, sanction_of_success _ _ _ _ hreason (hok _)]
  · intro h1 h2 h3
    simp [enforcePunishment, JSVal.isStr, h1, h2, h3,
      sanction_of_success _ _ _ _ hreason (hok _)]
  · intro h1 h2 h3
    simp [enforcePunishment, JSVal.isStr, h1, h2, h3]
  · intro anyPlatform anyReason
    rcases enforcePunishment_calls anyPlatform member (.str "ban") anyReason with h | ⟨c, h⟩ <;>
      simp [h]

theorem enforcePunishment_ban_chain_witness :
    (∀ c, obligingPlatform c = none) ∧
      (∃ key, toPropertyKey (.str "grooming") = .ok key) ∧
      enforcePunishment obligingPlatform
          (some { bannable := false, kickable := true, moderatable := true })
          (.str "ban") (.str "grooming") =
        { result := { applied := true, note := some "kick fallback" },
          calls := [.kick (.str "grooming")] } :=
  have hok : ∀ c, obligingPlatform c = none := fun _ => rfl
  have hreason : ∃ key, toPropertyKey (.str "grooming") = .ok key := ⟨some "grooming", rfl⟩
  ⟨hok, hreason,
    (enforcePunishment_ban_chain obligingPlatform
      (some { bannable := false, kickable := true, moderatable := true }) (.str "grooming")
      hok hreason).2.1 rfl rfl⟩

/-- C14: for the action `kick`, a reason that converts to a string and
platform calls that succeed: a kickable member is kicked and the result is
`{applied: true}` without a note; otherwise a moderatable member is timed out
for 3,600,000 ms with the note "timeout fallback"; otherwise `applied` is false
and no call is made; no run for `kick` ever attempts a ban.  For `timeout_1h`
and `timeout_10m` a moderatable member is timed out for exactly 3,600,000 ms
and 600,000 ms; otherwise `applied` is false and no call is made. -/
theorem enforcePunishment_kick_and_timeout_chains (platform : PlatformCall → Option Thrown)
    (member : Option Member) (reason : JSVal)
    (hok : ∀ c, platform c = none) (hreason : ∃ key, toPropertyKey reason = .ok key) :
    (canKick member = true →
        enforcePunishment platform member (.str "kick") reason =
          { result := { applied := true, note := none }, calls := [.kick reason] }) ∧
      (canKick member = false → canModerate member = true →
        enforcePunishment platform member (.str "kick") reason =
          { result := { applied := true, note := some "timeout fallback" },
            calls := [.timeout 3600000 reason] }) ∧
      (canKick member = false → canModerate member = false →
        (enforcePunishment platform member (.str "kick") reason).result.applied = false ∧
          (enforcePunishment platform member (.str "kick") reason).calls = []) ∧
      (∀ (anyPlatform : PlatformCall → Option Thrown) (anyReason : JSVal),
        ∀ c ∈ (enforcePunishment anyPlatform member (.str "kick") anyReason).calls,
          c.isBan = false) ∧
      (canModerate member = true →
        enforcePunishment platform member (.str "timeout_1h") reason =
            { result := { applied := true, note := none },
              calls := [.timeout 3600000 reason] } ∧
          enforcePunishment platform member (.str "timeout_10m") reason =
            { result := { applied := true, note := none },
              calls := [.timeout 600000 reason] }) ∧
      (canModerate member = false →
        (enforcePunishment platform member (.str "timeout_1h") reason).result.applied = false ∧
          (enforcePunishment platform member (.str "timeout_1h") reason).calls = [] ∧
          (enforcePunishment platform member (.str "timeout_10m") reason).result.applied =
            false ∧
          (enforcePunishment platform member (.str "timeout_10m") reason).calls = []) := by
  refine ⟨?_, ?_, ?_, ?_, ?_, ?_⟩
  · intro h1
    simp [enforcePunishment, JSVal.isStr, h1, sanction_of_success _ _ _ _ hreason (hok _)]
  · intro h1 h2
    simp [enforcePunishment, JSVal.isStr, h1, h2, sanction_of_success _ _ _ _ hreason (hok _)]
  · intro h1 h2
    simp [enforcePunishment, JSVal.isStr, h1, h2]
  · intro anyPlatform anyReason c hc
    have hne : ((JSVal.str "kick").isStr "ban") = false := by decide
    have hk : ((JSVal.str "kick").isStr "kick") = true := by decide
    simp only [enforcePunishment, hne, hk, if_true, Bool.false_eq_true, if_false] at hc
    split_ifs at hc
    · rcases sanction_calls_le anyPlatform anyReason (.kick anyReason)
        { applied := true, note := none } with h | h <;> rw [h] at hc <;> simp at hc
      subst hc
      rfl
    · rcases sanction_calls_le anyPlatform anyReason (.timeout (60 * 60 * 1000) anyReason)
        { applied := true, note := some "timeout fallback" } with h | h <;>
        rw [h] at hc <;> simp at hc
      subst hc
      rfl
    · simp at hc
  · intro h1
    constructor <;>
      simp [enforcePunishment, JSVal.isStr, h1, sanction_of_success _ _ _ _ hreason (hok _)]
  · intro h1
    simp [enforcePunishment, JSVal.isStr, h1]

theorem enforcePunishment_kick_and_timeout_chains_witness :
    (∀ c, obligingPlatform c = none) ∧
      (∃ key, toPropertyKey (.str "self_harm") = .ok key) ∧
      enforcePunishment obligingPlatform
          (some { bannable := true, kickable := false, moderatable := true })
          (.str "kick") (.str "self_harm") =
        { result := { applied := true, note := some "timeout fallback" },
          calls := [.timeout 3600000 (.str "self_harm")] } ∧
      enforcePunishment obligingPlatform
          (some { bannable := true, kickable := false, moderatable := true })
          (.str "timeout_10m") (.str "self_harm") =
        { result := { applied := true, note := none },
          calls := [.timeout 600000 (.str "self_harm")] } :=
  have hok : ∀ c, obligingPlatform c = none := fun _ => rfl
  have hreason : ∃ key, toPropertyKey (.str "self_harm") = .ok key := ⟨some "self_harm", rfl⟩
  ⟨hok, hreason,
    (enforcePunishment_kick_and_timeout_chains obligingPlatform
      (some { bannable := true, kickable := false, moderatable := true }) (.str "self_harm")
      hok hreason).2.1 rfl rfl,
    ((enforcePunishment_kick_and_timeout_chains obligingPlatform
      (some { bannable := true, kickable := false, moderatable := true }) (.str "self_harm")
      hok hreason).2.2.2.2.1 rfl).2⟩

/-- C15: for the actions `delete`, `warn` and `allow`, every platform, every
member (the absent member included) and every reason, `enforcePunishment`
makes no platform call and returns `{applied: true}` without a note. -/
theorem enforcePunishment_nonpunitive (platform : PlatformCall → Option Thrown)
    (member : Option Member) (reason : JSVal) :
    enforcePunishment platform member (.str "delete") reason =
        { result := { applied := true, note := none }, calls := [] } ∧
      enforcePunishment platform member (.str "warn") reason =
        { result := { applied := true, note := none }, calls := [] } ∧
      enforcePunishment platform member (.str "allow") reason =
        { result := { applied := true, note := none }, calls := [] } := by
  refine ⟨?_, ?_, ?_⟩ <;> simp [enforcePunishment, JSVal.isStr]

/-- C16: for every platform, member, action and reason, if the platform call
that `enforcePunishment` attempts fails with an error `e`, the result is
`{applied: false, note: String(e?.message || e)}`, which is the message of the
error when it has one; and an exception raised while the reason is converted
is reported the same way, before any call.  The exceptions are results of the
function, which returns for every input. -/
theorem enforcePunishment_never_raises (platform : PlatformCall → Option Thrown)
    (member : Option Member) (action reason : JSVal) :
    (∀ c e, c ∈ (enforcePunishment platform member action reason).calls →
        platform c = some e →
        (enforcePunishment platform member action reason).result =
          { applied := false, note := some (errorText e) }) ∧
      (∀ e : Thrown, e.message ≠ "" → errorText e = e.message) ∧
      (∀ msg, toPropertyKey reason = .error (.typeError msg) →
        (enforcePunishment platform member action reason).calls = [] ∧
        (canBan member = true →
          (enforcePunishment platform member (.str "ban") reason).result =
            { applied := false, note := some msg })) := by
  refine ⟨?_, ?_, ?_⟩
  · intro c e hc he
    unfold enforcePunishment at hc ⊢
    split_ifs at hc ⊢ <;>
      first
        | exact sanction_of_failure platform reason _ _ c e hc he
        | simp at hc
  · intro e he
    simp [errorText, he]
  · intro msg hmsg
    have hs : ∀ (p : PlatformCall → Option Thrown) call done,
        sanction p reason call done =
          { result := { applied := false, note := some msg }, calls := [] } := by
      intro p call done
      simp only [sanction, hmsg]
    constructor
    · unfold enforcePunishment
      split_ifs <;> simp [hs]
    · intro hb
      simp [enforcePunishment, JSVal.isStr, hb, hs]

theorem enforcePunishment_never_raises_witness :
    PlatformCall.ban (.str "grooming") ∈
        (enforcePunishment refusingPlatform
          (some { bannable := true, kickable := true, moderatable := true })
          (.str "ban") (.str "grooming")).calls ∧
      (enforcePunishment refusingPlatform
          (some { bannable := true, kickable := true, moderatable := true })
          (.str "ban") (.str "grooming")).result =
        { applied := false, note := some "Missing Permissions" } :=
  have hc : PlatformCall.ban (.str "grooming") ∈
      (enforcePunishment refusingPlatform
        (some { bannable := true, kickable := true, moderatable := true })
        (.str "ban") (.str "grooming")).calls := List.mem_singleton.2 rfl
  ⟨hc,
    (enforcePunishment_never_raises refusingPlatform
      (some { bannable := true, kickable := true, moderatable := true })
      (.str "ban") (.str "grooming")).1 _ _ hc rfl⟩

/-! ## The worst-of reduction -/

theorem rankOperand_plain (r : JSVal) (s : String) (hs : r.get "severity" = .str s)
    (hp : assocGet objectPrototypeMembers s = none) :
    rankOperand r = .ok (.num (.fin (specRank s : ℚ))) := by
  have hkey : toPropertyKey (.str s) = .ok (some s) := rfl
  have hrank : assocGet rank s =
      if "critical" = s then some (.num (.fin 3))
      else if "high" = s then some (.num (.fin 2))
      else if "medium" = s then some (.num (.fin 1))
      else if "low" = s then some (.num (.fin 0))
      else none := rfl
  simp only [rankOperand, hs, hkey, lookupLiteral, hrank, hp, specRank]
  by_cases h1 : "critical" = s
  · subst h1; simp [jsCoalesce, JSVal.isNullish]
  by_cases h2 : "high" = s
  · subst h2; simp +decide [jsCoalesce, JSVal.isNullish]
  by_cases h3 : "medium" = s
  · subst h3; simp +decide [jsCoalesce, JSVal.isNullish]
  by_cases h4 : "low" = s
  · subst h4; simp +decide [jsCoalesce, JSVal.isNullish]
  have e1 : ¬ s = "critical" := fun e => h1 e.symm
  have e2 : ¬ s = "high" := fun e => h2 e.symm
  have e3 : ¬ s = "medium" := fun e => h3 e.symm
  simp [h1, h2, h3, h4, e1, e2, e3, jsCoalesce, JSVal.isNullish]

theorem verdictRank_plain (r : JSVal) (s : String) (hs : r.get "severity" = .str s) :
    verdictRank r = specRank s := by
  simp [verdictRank, hs]

theorem worseThan_plain (r w : JSVal) (hr : hasPlainSeverity r) (hw : hasPlainSeverity w) :
    worseThan r w = .ok (decide (verdictRank w < verdictRank r)) := by
  obtain ⟨s, hs, hps⟩ := hr
  obtain ⟨t, ht, hpt⟩ := hw
  simp only [worseThan, rankOperand_plain r s hs hps, rankOperand_plain w t ht hpt,
    verdictRank_plain r s hs, verdictRank_plain w t ht, rankGreater, JSNum.gt, Nat.cast_lt]

/-- What the loop returns on verdicts with plain severities: an element at a
position before which every rank is smaller, and whose rank no element
exceeds. -/
theorem worstFrom_spec (rest : List JSVal) :
    ∀ current : JSVal, (∀ r ∈ current :: rest, hasPlainSeverity r) →
      ∃ w pre post, worstFrom current rest = .ok w ∧ current :: rest = pre ++ w :: post ∧
        (∀ r ∈ current :: rest, verdictRank r ≤ verdictRank w) ∧
        (∀ r ∈ pre, verdictRank r < verdictRank w) := by
  induction rest with
  | nil =>
    intro current _
    exact ⟨current, [], [], rfl, rfl, by simp, by simp⟩
  | cons r rest ih =>
    intro current h
    have hcur : hasPlainSeverity current := h current (List.mem_cons_self _ _)
    have hr : hasPlainSeverity r := h r (List.mem_cons_of_mem _ (List.mem_cons_self _ _))
    have hrest : ∀ x ∈ rest, hasPlainSeverity x := fun x hx =>
      h x (List.mem_cons_of_mem _ (List.mem_cons_of_mem _ hx))
    by_cases hlt : verdictRank current < verdictRank r
    · obtain ⟨w, pre, post, hw, hsplit, hmax, hpre⟩ :=
        ih r (by
          intro x hx
          rcases List.mem_cons.1 hx with rfl | hx
          · exact hr
          · exact hrest x hx)
      refine ⟨w, current :: pre, post, ?_, ?_, ?_, ?_⟩
      · simp only [worstFrom, worseThan_plain r current hr hcur, hlt, decide_True]
        exact hw
      · rw [hsplit]; rfl
      · intro x hx
        rcases List.mem_cons.1 hx with rfl | hx
        · exact le_of_lt (lt_of_lt_of_le hlt (hmax r (List.mem_cons_self _ _)))
        · exact hmax x hx
      · intro x hx
        rcases List.mem_cons.1 hx with rfl | hx
        · exact lt_of_lt_of_le hlt (hmax r (List.mem_cons_self _ _))
        · exact hpre x hx
    · obtain ⟨w, pre, post, hw, hsplit, hmax, hpre⟩ :=
        ih current (by
          intro x hx
          rcases List.mem_cons.1 hx with rfl | hx
          · exact hcur
          · exact hrest x hx)
      have hle : verdictRank r ≤ verdictRank current := not_lt.1 hlt
      have hstep : worstFrom current (r :: rest) = .ok w := by
        simp only [worstFrom, worseThan_plain r current hr hcur, hlt, decide_False]
        exact hw
      cases pre with
      | nil =>
        simp only [List.nil_append, List.cons.injEq] at hsplit
        obtain ⟨hcw, hpost⟩ := hsplit
        subst hcw
        refine ⟨current, [], r :: rest, hstep, rfl, ?_, by simp⟩
        intro x hx
        rcases List.mem_cons.1 hx with rfl | hx
        · exact le_refl _
        rcases List.mem_cons.1 hx with rfl | hx
        · exact hle
        · exact hmax x (List.mem_cons_of_mem _ hx)
      | cons p pre2 =>
        simp only [List.cons_append, List.cons.injEq] at hsplit
        obtain ⟨hcp, hrest2⟩ := hsplit
        subst hcp
        have hcw : verdictRank current < verdictRank w := hpre current (List.mem_cons_self _ _)
        refine ⟨w, current :: r :: pre2, post, hstep, ?_, ?_, ?_⟩
        · rw [hrest2]; rfl
        · intro x hx
          rcases List.mem_cons.1 hx with rfl | hx
          · exact le_of_lt hcw
          rcases List.mem_cons.1 hx with rfl | hx
          · exact le_trans hle (le_of_lt hcw)
          · exact hmax x (List.mem_cons_of_mem _ hx)
        · intro x hx
          rcases List.mem_cons.1 hx with rfl | hx
          · exact hcw
          rcases List.mem_cons.1 hx with rfl | hx
          · exact lt_of_le_of_lt hle hcw
          · exact hpre x (List.mem_cons_of_mem _ hx)

/-- C17: for every non-empty list of frame verdicts with plain severities
(strings that name no member of `Object.prototype`; a severity outside the
four ranks counts 0), the reduction returns an element `w` of the list such
that no element has a greater rank and every element before `w` has a smaller
rank, so `w` is the first of maximal rank; and for three verdicts of
severities low, critical, medium it returns the second. -/
theorem worst_is_first_of_maximal_rank (first : JSVal) (rest : List JSVal)
    (h : ∀ r ∈ first :: rest, hasPlainSeverity r) :
    (∃ w pre post, worst (first :: rest) = .ok w ∧ first :: rest = pre ++ w :: post ∧
        (∀ r ∈ first :: rest, verdictRank r ≤ verdictRank w) ∧
        (∀ r ∈ pre, verdictRank r < verdictRank w)) ∧
      (∀ a b c : JSVal, a.get "severity" = .str "low" → b.get "severity" = .str "critical" →
        c.get "severity" = .str "medium" → worst [a, b, c] = .ok b) := by
  refine ⟨worstFrom_spec rest first h, ?_⟩
  intro a b c ha hb hc
  have pa : hasPlainSeverity a := ⟨"low", ha, rfl⟩
  have pb : hasPlainSeverity b := ⟨"critical", hb, rfl⟩
  have pc : hasPlainSeverity c := ⟨"medium", hc, rfl⟩
  have ra : verdictRank a = 0 := by rw [verdictRank_plain a _ ha]; rfl
  have rb : verdictRank b = 3 := by rw [verdictRank_plain b _ hb]; rfl
  have rc : verdictRank c = 1 := by rw [verdictRank_plain c _ hc]; rfl
  simp [worst, worstFrom, worseThan_plain b a pb pa, worseThan_plain c b pc pb, ra, rb, rc]

theorem worst_is_first_of_maximal_rank_witness :
    (∀ r ∈ [frameOf "high" "a", frameOf "low" "b", frameOf "high" "c"], hasPlainSeverity r) ∧
      (∃ w pre post,
        worst [frameOf "high" "a", frameOf "low" "b", frameOf "high" "c"] = .ok w ∧
        [frameOf "high" "a", frameOf "low" "b", frameOf "high" "c"] = pre ++ w :: post ∧
        (∀ r ∈ [frameOf "high" "a", frameOf "low" "b", frameOf "high" "c"],
          verdictRank r ≤ verdictRank w) ∧
        (∀ r ∈ pre, verdictRank r < verdictRank w)) ∧
      worst [frameOf "low" "a", frameOf "critical" "b", frameOf "medium" "c"] =
        .ok (frameOf "critical" "b") :=
  have h : ∀ r ∈ [frameOf "high" "a", frameOf "low" "b", frameOf "high" "c"],
      hasPlainSeverity r := by
    intro r hr
    simp only [List.mem_cons, List.mem_nil_iff, or_false] at hr
    rcases hr with rfl | rfl | rfl
    · exact ⟨"high", rfl, rfl⟩
    · exact ⟨"low", rfl, rfl⟩
    · exact ⟨"high", rfl, rfl⟩
  ⟨h, (worst_is_first_of_maximal_rank (frameOf "high" "a")
      [frameOf "low" "b", frameOf "high" "c"] h).1,
    (worst_is_first_of_maximal_rank (frameOf "high" "a")
      [frameOf "low" "b", frameOf "high" "c"] h).2 _ _ _ rfl rfl rfl⟩

/-! ## Frame timestamps -/

/-- C18, as stated, fails: for the positive duration 0.05 the three timestamps
are 0, and 0 lies outside the interval `[0, 0.05 - 0.1]`, which is empty. -/
theorem pts_outside_interval_for_short_duration :
    (0 : ℚ) < 0.05 ∧ pts 0.05 = [0, 0, 0] ∧
      ¬ (∀ t ∈ pts 0.05, 0 ≤ t ∧ t ≤ (0.05 : ℚ) - 0.1) := by
  have h : pts 0.05 = [0, 0, 0] := by norm_num [pts]
  refine ⟨by norm_num, h, ?_⟩
  intro hall
  have := (hall 0 (by rw [h]; simp)).2
  norm_num at this

/-- C18, amended: for every duration `d`, in particular every positive one,
there are three timestamps, each in `[0, max 0 (d - 0.1)]`; when `d ≥ 0.1` each
lies in `[0, d - 0.1]`, and when `d < 0.1` each is 0. -/
theorem pts_clamped (d : ℚ) :
    (pts d).length = 3 ∧
      (∀ t ∈ pts d, 0 ≤ t ∧ t ≤ max 0 (d - 0.1)) ∧
      (0.1 ≤ d → ∀ t ∈ pts d, 0 ≤ t ∧ t ≤ d - 0.1) ∧
      (d < 0.1 → ∀ t ∈ pts d, t = 0) := by
  have key : ∀ t ∈ pts d, ∃ p : ℚ, 0 < p ∧ t = max 0 (min (d - 0.1) (d * p)) := by
    intro t ht
    simp only [pts, List.map_cons, List.map_nil, List.mem_cons, List.mem_nil_iff,
      or_false] at ht
    rcases ht with rfl | rfl | rfl
    · exact ⟨0.1, by norm_num, by norm_num⟩
    · exact ⟨0.5, by norm_num, by norm_num⟩
    · exact ⟨0.9, by norm_num, by norm_num⟩
  refine ⟨rfl, ?_, ?_, ?_⟩
  · intro t ht
    obtain ⟨p, -, rfl⟩ := key t ht
    exact ⟨le_max_left _ _, max_le_max (le_refl _) (min_le_left _ _)⟩
  · intro h t ht
    obtain ⟨p, -, rfl⟩ := key t ht
    refine ⟨le_max_left _ _, max_le (by linarith) (min_le_left _ _)⟩
  · intro h t ht
    obtain ⟨p, -, rfl⟩ := key t ht
    apply max_eq_left
    exact le_trans (min_le_left _ _) (by linarith)

theorem pts_clamped_witness :
    (0 : ℚ) < 10 ∧ (0.1 : ℚ) ≤ 10 ∧ pts 10 = [1, 5, 9] ∧
      ∀ t ∈ pts 10, 0 ≤ t ∧ t ≤ (10 : ℚ) - 0.1 :=
  ⟨by norm_num, by norm_num, by norm_num [pts],
    (pts_clamped 10).2.2.1 (by norm_num)⟩

/-! ## The frame cap and the audit marker -/

theorem markFrames_of_string (numberToString : JSNum → String) (w : JSVal) (s : String)
    (n : ℕ) (hs : s ≠ "") (hw : w.get "rationale" = .str s) :
    markFrames numberToString w n =
      .ok (w.set "rationale" (.str (s ++ "_frames:" ++ toString n))) := by
  have ht : (JSVal.str s).truthy = true := by simp [JSVal.truthy, hs]
  simp only [markFrames, hw, jsOr, ht, if_true, toText]

/-- C19: for every listing of the frames directory with at least one JPEG
name, and frame verdicts that are objects with a plain severity and a
non-empty string rationale: the number `N` of frames classified is the minimum
of 4 and the number of JPEG names, the frames are the first `N` JPEG names (the
first `N` names of the listing when all are JPEG names), and the verdict of the
frame path is the worst frame verdict with its rationale replaced by the
original rationale followed by `_frames:` and `N`, every other field being
unchanged. -/
theorem frameVerdict_cap_and_marker (numberToString : JSNum → String)
    (moderateImage : String → JSVal) (listing : List String)
    (hne : files listing ≠ [])
    (htyped : ∀ f ∈ files listing,
      hasPlainSeverity (moderateImage f) ∧ (moderateImage f).isObjectLike = true ∧
        ∃ s, s ≠ "" ∧ (moderateImage f).get "rationale" = .str s) :
    (files listing).length = min 4 (listing.filter isJpegName).length ∧
      files listing = (listing.filter isJpegName).take (files listing).length ∧
      ((∀ f ∈ listing, isJpegName f = true) →
        files listing = listing.take (min 4 listing.length)) ∧
      ((files listing).map moderateImage).length = (files listing).length ∧
      ∃ w s, worst ((files listing).map moderateImage) = .ok w ∧
        w ∈ (files listing).map moderateImage ∧
        w.get "rationale" = .str s ∧
        frameVerdict numberToString moderateImage listing =
          .verdict (w.set "rationale"
            (.str (s ++ "_frames:" ++ toString (files listing).length))) ∧
        ∀ k, k ≠ "rationale" →
          (w.set "rationale"
            (.str (s ++ "_frames:" ++ toString (files listing).length))).get k = w.get k := by
  have hlen : (files listing).length = min 4 (listing.filter isJpegName).length := by
    simp [files, List.length_take]
  refine ⟨hlen, ?_, ?_, by simp, ?_⟩
  · rw [hlen]
    simp [files, List.take_eq_take]
  · intro hall
    have hf : listing.filter isJpegName = listing := List.filter_eq_self.2 hall
    simp [files, hf, List.take_eq_take]
  · cases hfs : files listing with
    | nil => exact absurd hfs hne
    | cons f fs =>
      have hplain : ∀ r ∈ moderateImage f :: fs.map moderateImage, hasPlainSeverity r := by
        intro r hr
        rw [← List.map_cons] at hr
        obtain ⟨g, hg, rfl⟩ := List.mem_map.1 hr
        exact (htyped g (by rw [hfs]; exact hg)).1
      obtain ⟨w, pre, post, hw, hsplit, -, -⟩ := worstFrom_spec (fs.map moderateImage)
        (moderateImage f) hplain
      have hmem : w ∈ (f :: fs).map moderateImage := by
        rw [List.map_cons, hsplit]
        simp
      obtain ⟨g, hg, hgw⟩ := List.mem_map.1 hmem
      obtain ⟨-, hobj, s, hs, hrat⟩ := htyped g (by rw [hfs]; exact hg)
      rw [hgw] at hobj hrat
      have hworst : worst ((f :: fs).map moderateImage) = .ok w := hw
      refine ⟨w, s, hworst, hmem, hrat, ?_, ?_⟩
      · have hl : (files listing).length ≠ 0 := by rw [hfs]; simp
        simp only [frameVerdict, hl, if_false, hfs] at *
        simp only [hworst, markFrames_of_string numberToString w s _ hs hrat]
        exact if_neg hl
      · intro k hk
        have hk2 : ¬ "rationale" = k := fun e => hk e.symm
        simp [get_set, hobj, hk2]

theorem frameVerdict_cap_and_marker_witness :
    files ["f1.jpg", "f2.jpg", "f3.jpg", "notes.txt", "f4.JPEG", "f5.jpg"] =
        ["f1.jpg", "f2.jpg", "f3.jpg", "f4.JPEG"] ∧
      ∃ w s,
        worst ((files ["f1.jpg", "f2.jpg", "f3.jpg", "notes.txt", "f4.JPEG", "f5.jpg"]).map
          (fun f => frameOf (if f = "f2.jpg" then "high" else "low") "img")) = .ok w ∧
        w ∈ (files ["f1.jpg", "f2.jpg", "f3.jpg", "notes.txt", "f4.JPEG", "f5.jpg"]).map
          (fun f => frameOf (if f = "f2.jpg" then "high" else "low") "img") ∧
        w.get "rationale" = .str s ∧
        frameVerdict (fun _ => "") (fun f => frameOf (if f = "f2.jpg" then "high" else "low") "img")
            ["f1.jpg", "f2.jpg", "f3.jpg", "notes.txt", "f4.JPEG", "f5.jpg"] =
          .verdict (w.set "rationale"
            (.str (s ++ "_frames:" ++
              toString (files ["f1.jpg", "f2.jpg", "f3.jpg", "notes.txt", "f4.JPEG",
                "f5.jpg"]).length))) ∧
        ∀ k, k ≠ "rationale" →
          (w.set "rationale"
            (.str (s ++ "_frames:" ++
              toString (files ["f1.jpg", "f2.jpg", "f3.jpg", "notes.txt", "f4.JPEG",
                "f5.jpg"]).length))).get k = w.get k :=
  have hne : files ["f1.jpg", "f2.jpg", "f3.jpg", "notes.txt", "f4.JPEG", "f5.jpg"] ≠ [] := by
    decide
  have htyped : ∀ f ∈ files ["f1.jpg", "f2.jpg", "f3.jpg", "notes.txt", "f4.JPEG", "f5.jpg"],
      hasPlainSeverity (frameOf (if f = "f2.jpg" then "high" else "low") "img") ∧
        (frameOf (if f = "f2.jpg" then "high" else "low") "img").isObjectLike = true ∧
        ∃ s, s ≠ "" ∧
          (frameOf (if f = "f2.jpg" then "high" else "low") "img").get "rationale" = .str s := by
    intro f _
    by_cases hf : f = "f2.jpg"
    · simp only [hf, if_true]
      exact ⟨⟨"high", rfl, rfl⟩, rfl, "img", by decide, rfl⟩
    · simp only [hf, if_false]
      exact ⟨⟨"low", rfl, rfl⟩, rfl, "img", by decide, rfl⟩
  ⟨rfl,
    (frameVerdict_cap_and_marker (fun _ => "")
      (fun f => frameOf (if f = "f2.jpg" then "high" else "low") "img")
      ["f1.jpg", "f2.jpg", "f3.jpg", "notes.txt", "f4.JPEG", "f5.jpg"] hne htyped).2.2.2.2⟩

/-! ## The debounce gate -/

/-- C20, as stated, fails for a start time below 1500: in a fresh session the
missing entry reads as the time 0, so of events at the times 0, 500 and 2000
only the last passes the gate. -/
theorem debounce_ignores_first_event_near_zero :
    emptyDebounce "user" = none ∧
      (debounceRun emptyDebounce [("user", 0), ("user", 0 + 500), ("user", 0 + 2000)]).1 =
        [false, false, true] ∧
      (debounceRun emptyDebounce [("user", 0), ("user", 0 + 500), ("user", 0 + 2000)]).1 ≠
        [true, false, true] := by
  have h : (debounceRun emptyDebounce
      [("user", 0), ("user", 0 + 500), ("user", 0 + 2000)]).1 = [false, false, true] := by
    simp [debounceRun, debounceGate, lastTrigger, recordTrigger, emptyDebounce, MIN_GAP_MS]
  refine ⟨rfl, h, ?_⟩
  rw [h]
  simp

/-- C20, amended: for every start time `t ≥ 1500` and a map without an entry
for the user, of three events of that user at `t`, `t + 500` and `t + 2000`
exactly the first and the third pass the gate; in general an event is ignored
if and only if `now - last < 1500`, where `last` is the user's recorded trigger
or 0 when none is recorded; an event that passes records its time. -/
theorem debounce_three_events (m : DebounceMap) (user : String) (t : ℤ)
    (hfresh : m user = none) (ht : 1500 ≤ t) :
    (debounceRun m [(user, t), (user, t + 500), (user, t + 2000)]).1 = [true, false, true] ∧
      (∀ (m2 : DebounceMap) (u : String) (now last : ℤ), m2 u = some last →
        ((debounceGate m2 u now).1 = false ↔ now - last < 1500)) ∧
      (∀ (m2 : DebounceMap) (u : String) (now : ℤ), m2 u = none →
        ((debounceGate m2 u now).1 = false ↔ now < 1500)) ∧
      (∀ (m2 : DebounceMap) (u : String) (now : ℤ), (debounceGate m2 u now).1 = true →
        (debounceGate m2 u now).2 u = some now) := by
  refine ⟨?_, ?_, ?_, ?_⟩
  · have h1 : debounceGate m user t = (true, recordTrigger m user t) := by
      simp [debounceGate, lastTrigger, hfresh, MIN_GAP_MS, ht]
    have h2 : debounceGate (recordTrigger m user t) user (t + 500) =
        (false, recordTrigger m user t) := by
      simp [debounceGate, lastTrigger, recordTrigger, MIN_GAP_MS]
    have h3 : debounceGate (recordTrigger m user t) user (t + 2000) =
        (true, recordTrigger (recordTrigger m user t) user (t + 2000)) := by
      simp [debounceGate, lastTrigger, recordTrigger, MIN_GAP_MS]
    simp [debounceRun, h1, h2, h3]
  · intro m2 u now last hlast
    simp only [debounceGate, lastTrigger, hlast, Option.getD_some, MIN_GAP_MS]
    split_ifs with h <;> simp [h]
  · intro m2 u now hnone
    simp only [debounceGate, lastTrigger, hnone, Option.getD_none, MIN_GAP_MS, sub_zero]
    split_ifs with h <;> simp [h]
  · intro m2 u now hpass
    by_cases h : now - lastTrigger m2 u < MIN_GAP_MS
    · simp [debounceGate, h] at hpass
    · simp [debounceGate, h, recordTrigger]

theorem debounce_three_events_witness :
    emptyDebounce "user" = none ∧ (1500 : ℤ) ≤ 1700000000000 ∧
      (debounceRun emptyDebounce
        [("user", 1700000000000), ("user", 1700000000000 + 500),
          ("user", 1700000000000 + 2000)]).1 = [true, false, true] :=
  ⟨rfl, by decide,
    (debounce_three_events emptyDebounce "user" 1700000000000 rfl (by decide)).1⟩

/-! ## The dispatch of a message -/

/-- C21, as stated, fails: a message whose author is a bot is left alone by
the handler, which returns at its first line; for such a message with non-blank
text that the text classifier calls unsafe, the handler calls the text
classifier zero times and `applyModeration` zero times. -/
theorem messageCreate_skips_bot_author :
    ({ loadedMessage with authorBot := true } : Message).authorBot = true ∧
      isNonBlank ({ loadedMessage with authorBot := true } : Message).content = true ∧
      (strictTextClassifiers.moderateText
        ({ loadedMessage with authorBot := true } : Message).content).get "safe" =
          .bool false ∧
      messageCreate jsonParse asciiLower noUrlParser strictTextClassifiers
        { loadedMessage with authorBot := true } = [] ∧
      ((messageCreate jsonParse asciiLower noUrlParser strictTextClassifiers
        { loadedMessage with authorBot := true }).filter HandlerCall.isText).length = 0 ∧
      ((messageCreate jsonParse asciiLower noUrlParser strictTextClassifiers
        { loadedMessage with authorBot := true }).filter HandlerCall.isText).length ≠ 1 := by
  refine ⟨rfl, rfl, rfl, rfl, rfl, by decide⟩

/-- C21, amended: for every message of an author that is not a bot, with
non-blank text for which the text classifier returns an unsafe verdict (`safe`
is `false`), whatever links and attachments it carries: the handler calls the
text classifier once, then `applyModeration` once with the text verdict, and
makes no other call; in particular it calls none of the URL, image and video
classifiers. -/
theorem messageCreate_short_circuit (JSON_parse : String → Option JSVal)
    (toLowerCase : String → String) (urlPathname : String → Option String)
    (cl : Classifiers) (message : Message)
    (hauthor : message.authorBot = false) (htext : isNonBlank message.content = true)
    (hverdict : (cl.moderateText message.content).get "safe" = .bool false) :
    messageCreate JSON_parse toLowerCase urlPathname cl message =
        [.moderateText message.content, .applyModeration (cl.moderateText message.content)] ∧
      ((messageCreate JSON_parse toLowerCase urlPathname cl message).filter
        HandlerCall.isText).length = 1 ∧
      ((messageCreate JSON_parse toLowerCase urlPathname cl message).filter
        HandlerCall.isMediaOrUrl).length = 0 ∧
      ((messageCreate JSON_parse toLowerCase urlPathname cl message).filter
        HandlerCall.isApply).length = 1 := by
  have hgate : handlerGateOn (cl.moderateText message.content) = true := by
    simp [handlerGateOn, hverdict, JSVal.truthy]
  have h : messageCreate JSON_parse toLowerCase urlPathname cl message =
      [.moderateText message.content, .applyModeration (cl.moderateText message.content)] := by
    simp [messageCreate, hauthor, htext, hgate]
  rw [h]
  exact ⟨rfl, rfl, rfl, rfl⟩

theorem messageCreate_short_circuit_witness :
    loadedMessage.authorBot = false ∧ isNonBlank loadedMessage.content = true ∧
      (strictTextClassifiers.moderateText loadedMessage.content).get "safe" = .bool false ∧
      extractUrls loadedMessage.content = ["https://example.com/a.png"] ∧
      messageCreate jsonParse asciiLower noUrlParser strictTextClassifiers loadedMessage =
        [.moderateText loadedMessage.content,
          .applyModeration (strictTextClassifiers.moderateText loadedMessage.content)] :=
  ⟨rfl, rfl, rfl, rfl,
    (messageCreate_short_circuit jsonParse asciiLower noUrlParser strictTextClassifiers
      loadedMessage rfl rfl rfl).1⟩

/-! ## The kind of an attachment -/

/-- C22, as stated, fails: an attachment declared `video/mp4` whose file name
is `clip.png` is classified as an image, because the handler tests the three
image signals before the three video signals; by the precedence the
specification describes it would be a video. -/
theorem mediaKind_image_before_declared_video :
    (mediaTests asciiLower noUrlParser mixedAttachment).byMimeVideo = true ∧
      (mediaTests asciiLower noUrlParser mixedAttachment).byMimeImage = false ∧
      mediaKind asciiLower noUrlParser mixedAttachment = .image ∧
      specMediaKind (mediaTests asciiLower noUrlParser mixedAttachment) = .video ∧
      mediaKind asciiLower noUrlParser mixedAttachment ≠
        specMediaKind (mediaTests asciiLower noUrlParser mixedAttachment) := by
  refine ⟨rfl, rfl, rfl, rfl, by decide⟩

/-- C22, amended: an attachment is classified as an image if its declared
media type is `image/*` or its file name or its URL path has an image
extension; otherwise as a video if its declared media type is `video/*` or its
file name or its URL path has a video extension; otherwise it is skipped and no
classifier is called for it.  So an attachment declared `video/*` is a video
when neither its file name nor its URL path has an image extension, and the
decision agrees with the precedence media type, file name, URL path whenever no
image signal stands against a video signal of an earlier source. -/
theorem mediaKind_image_then_video (toLowerCase : String → String)
    (urlPathname : String → Option String) (cl : Classifiers) (att : Attachment) :
    (mediaKind toLowerCase urlPathname att = .image ↔
        ((mediaTests toLowerCase urlPathname att).byMimeImage = true ∨
          (mediaTests toLowerCase urlPathname att).byNameImage = true ∨
          (mediaTests toLowerCase urlPathname att).byUrlImage = true)) ∧
      (mediaKind toLowerCase urlPathname att = .video ↔
        ((mediaTests toLowerCase urlPathname att).byMimeImage = false ∧
          (mediaTests toLowerCase urlPathname att).byNameImage = false ∧
          (mediaTests toLowerCase urlPathname att).byUrlImage = false ∧
          ((mediaTests toLowerCase urlPathname att).byMimeVideo = true ∨
            (mediaTests toLowerCase urlPathname att).byNameVideo = true ∨
            (mediaTests toLowerCase urlPathname att).byUrlVideo = true))) ∧
      (mediaKind toLowerCase urlPathname att = .skip →
        classifyAttachment toLowerCase urlPathname cl att = none) ∧
      ((mediaTests toLowerCase urlPathname att).byMimeVideo = true →
        (mediaTests toLowerCase urlPathname att).byMimeImage = false →
        (mediaTests toLowerCase urlPathname att).byNameImage = false →
        (mediaTests toLowerCase urlPathname att).byUrlImage = false →
        mediaKind toLowerCase urlPathname att = .video) ∧
      (((mediaTests toLowerCase urlPathname att).byMimeVideo = true →
          (mediaTests toLowerCase urlPathname att).byNameImage = false ∧
            (mediaTests toLowerCase urlPathname att).byUrlImage = false) →
        ((mediaTests toLowerCase urlPathname att).byNameVideo = true →
          (mediaTests toLowerCase urlPathname att).byMimeImage = true ∨
            (mediaTests toLowerCase urlPathname att).byUrlImage = false) →
        mediaKind toLowerCase urlPathname att =
          specMediaKind (mediaTests toLowerCase urlPathname att)) := by
  generalize ht : mediaTests toLowerCase urlPathname att = t
  have hk : mediaKind toLowerCase urlPathname att =
      if (t.byMimeImage || t.byNameImage || t.byUrlImage) = true then .image
      else if (t.byMimeVideo || t.byNameVideo || t.byUrlVideo) = true then .video
      else .skip := by
    simp only [mediaKind, ht]
  refine ⟨?_, ?_, ?_, ?_, ?_⟩
  · rw [hk]
    rcases t with ⟨a, b, c, d, e, f⟩
    cases a <;> cases c <;> cases e <;> cases b <;> cases d <;> cases f <;> simp
  · rw [hk]
    rcases t with ⟨a, b, c, d, e, f⟩
    cases a <;> cases c <;> cases e <;> cases b <;> cases d <;> cases f <;> simp
  · intro hskip
    simp only [classifyAttachment, hskip]
  · rw [hk]
    rcases t with ⟨a, b, c, d, e, f⟩
    intro h1 h2 h3 h4
    simp only at h1 h2 h3 h4
    subst h1 h2 h3 h4
    simp
  · rw [hk]
    rcases t with ⟨a, b, c, d, e, f⟩
    cases a <;> cases c <;> cases e <;> cases b <;> cases d <;> cases f <;>
      simp [specMediaKind]

theorem mediaKind_image_then_video_witness :
    (mediaTests asciiLower noUrlParser
        { url := "https://cdn.example/v", attachment := "", name := "v.bin",
          contentType := "Video/MP4" }).byMimeVideo = true ∧
      mediaKind asciiLower noUrlParser
        { url := "https://cdn.example/v", attachment := "", name := "v.bin",
          contentType := "Video/MP4" } = .video ∧
      (mediaKind asciiLower noUrlParser
          { url := "https://cdn.example/notes.txt?x=1", attachment := "", name := "notes.txt",
            contentType := "text/plain" } = .skip →
        classifyAttachment asciiLower noUrlParser strictTextClassifiers
          { url := "https://cdn.example/notes.txt?x=1", attachment := "", name := "notes.txt",
            contentType := "text/plain" } = none) :=
  ⟨rfl,
    (mediaKind_image_then_video asciiLower noUrlParser strictTextClassifiers
      { url := "https://cdn.example/v", attachment := "", name := "v.bin",
        contentType := "Video/MP4" }).2.2.2.1 rfl rfl rfl rfl,
    (mediaKind_image_then_video asciiLower noUrlParser strictTextClassifiers
      { url := "https://cdn.example/notes.txt?x=1", attachment := "", name := "notes.txt",
        contentType := "text/plain" }).2.2.1⟩

/-! ## The outage of the text classifier -/

theorem isNonBlank_ne_empty (s : String) (h : isNonBlank s = true) : s ≠ "" := by
  intro e
  subst e
  simp [isNonBlank, trimChars] at h

/-- C23: for every non-blank text, when the classification call fails,
`moderateText` returns an unsafe verdict: if the lower-cased text contains a
keyword of `riskyPIIHeuristic`, the verdict has the category
`personal_info_solicitation`, the severity `high` and the suggested action
`ban`, and `decideAction` yields `{high, ban}`; otherwise it is `safe: false`,
`category: other`, `severity: medium`, `suggested_action: delete`, `rationale:
"analysis_unavailable"`, and `decideAction` yields `{medium, delete}`. -/
theorem moderateText_outage (JSON_parse : String → Option JSVal)
    (toLowerCase : String → String) (classify : String → String → Option JSVal)
    (content context : String)
    (hnb : isNonBlank content = true) (hfail : classify content context = none) :
    ((∃ k ∈ keywords, includes (toLowerCase content) k = true) →
        moderateText JSON_parse toLowerCase classify content context =
            .ok (.obj [("safe", .bool false), ("category", .str "personal_info_solicitation"),
              ("severity", .str "high"), ("suggested_action", .str "ban"),
              ("rationale", .str "fallback_pii_heuristic"), ("version", .str "1.0"),
              ("confidence", .num (.fin 0.85))])) ∧
      ((∀ k ∈ keywords, includes (toLowerCase content) k = false) →
        moderateText JSON_parse toLowerCase classify content context =
            .ok (.obj [("safe", .bool false), ("category", .str "other"),
              ("severity", .str "medium"), ("suggested_action", .str "delete"),
              ("rationale", .str "analysis_unavailable"), ("version", .str "1.0"),
              ("confidence", .num (.fin 0.85))])) ∧
      (JSVal.obj [("safe", .bool false), ("category", .str "personal_info_solicitation"),
          ("severity", .str "high"), ("suggested_action", .str "ban"),
          ("rationale", .str "fallback_pii_heuristic"), ("version", .str "1.0"),
          ("confidence", .num (.fin 0.85))]).toVerdict? = some piiFallbackTyped ∧
      decideAction piiFallbackTyped =
        .ok (.obj [("severity", .str "high"), ("action", .str "ban")]) ∧
      (JSVal.obj [("safe", .bool false), ("category", .str "other"),
          ("severity", .str "medium"), ("suggested_action", .str "delete"),
          ("rationale", .str "analysis_unavailable"), ("version", .str "1.0"),
          ("confidence", .num (.fin 0.85))]).toVerdict? = some unavailableTyped ∧
      decideAction unavailableTyped =
        .ok (.obj [("severity", .str "medium"), ("action", .str "delete")]) := by
  have hne : content ≠ "" := isNonBlank_ne_empty content hnb
  have hmt : moderateText JSON_parse toLowerCase classify content context =
      moderateTextFallback JSON_parse toLowerCase content := by
    simp [moderateText, hne, hnb, hfail]
  refine ⟨?_, ?_, rfl, rfl, rfl, rfl⟩
  · rintro ⟨k, hk, hin⟩
    have hr : riskyPIIHeuristic toLowerCase content = true := by
      simp only [riskyPIIHeuristic, hne, if_false, List.any_eq_true]
      exact ⟨k, hk, hin⟩
    rw [hmt, moderateTextFallback, hr]
    rfl
  · intro hnone
    have hr : riskyPIIHeuristic toLowerCase content = false := by
      simp only [riskyPIIHeuristic, hne, if_false, List.any_eq_false]
      intro k hk
      simp [hnone k hk]
    rw [hmt, moderateTextFallback, hr]
    rfl

theorem moderateText_outage_witness :
    isNonBlank "what's your address? send pics" = true ∧
      classifierDown "what's your address? send pics" "guild=DM channel=N/A" = none ∧
      (∃ k ∈ keywords, includes (asciiLower "what's your address? send pics") k = true) ∧
      moderateText jsonParse asciiLower classifierDown "what's your address? send pics"
          "guild=DM channel=N/A" =
        .ok (.obj [("safe", .bool false), ("category", .str "personal_info_solicitation"),
          ("severity", .str "high"), ("suggested_action", .str "ban"),
          ("rationale", .str "fallback_pii_heuristic"), ("version", .str "1.0"),
          ("confidence", .num (.fin 0.85))]) :=
  have hk : ∃ k ∈ keywords, includes (asciiLower "what's your address? send pics") k = true :=
    ⟨"address", by decide, rfl⟩
  ⟨rfl, rfl, hk,
    (moderateText_outage jsonParse asciiLower classifierDown "what's your address? send pics"
      "guild=DM channel=N/A" rfl rfl).1 hk⟩

/-! ## The voice session -/

/-- C24, where the code departs from the claim: with the target channel `vc1`
configured and no session in the guild, the voice-state change of an automated
account that joins `vc1` opens a session: neither the handler nor
`ensureVoiceJoined` looks at the account, while `maybeLeaveIfEmpty` and the
speech-start handler do leave automated accounts out. -/
theorem voiceStateUpdate_opens_for_automated_account :
    botJoinsTarget.memberIsBot = true ∧ idleGuild.session = none ∧
      (resolveTargetVc targetById asciiLower botJoinsTarget.channels).map VoiceChannel.id =
        some "vc1" ∧
      voiceStateUpdate targetById asciiLower idleGuild botJoinsTarget =
        { session := some "vc1", connected := true } ∧
      (cacheGet botJoinsTarget.channels "vc1").map humans = some 0 := by
  refine ⟨rfl, rfl, rfl, rfl, rfl⟩

/-- The handler never reads whether the member is an automated account. -/
theorem voiceStateUpdate_ignores_account (cfg : VoiceConfig) (toLowerCase : String → String)
    (st : VoiceGuild) (ev : VoiceStateUpdate) (b : Bool) :
    voiceStateUpdate cfg toLowerCase st { ev with memberIsBot := b } =
      voiceStateUpdate cfg toLowerCase st ev := by
  rfl

theorem ensureVoiceJoined_session (cfg : VoiceConfig) (toLowerCase : String → String)
    (st : VoiceGuild) (ev : VoiceStateUpdate) :
    ensureVoiceJoined cfg toLowerCase st ev = st ∨
      ∃ target, resolveTargetVc cfg toLowerCase ev.channels = some target ∧
        ev.newChannelId = some target.id ∧ st.connected = false ∧
        ensureVoiceJoined cfg toLowerCase st ev =
          { session := some target.id, connected := true } := by
  unfold ensureVoiceJoined
  cases hr : resolveTargetVc cfg toLowerCase ev.channels with
  | none => left; rfl
  | some target =>
    by_cases h1 : ev.newChannelId = some target.id
    · cases h2 : st.connected
      · right
        exact ⟨target, rfl, h1, rfl, by simp [h1]⟩
      · left
        simp [h1]
    · left
      simp [h1]

theorem maybeLeaveIfEmpty_session (st : VoiceGuild) (ev : VoiceStateUpdate) :
    maybeLeaveIfEmpty st ev = st ∨
      maybeLeaveIfEmpty st ev = { session := none, connected := false } := by
  unfold maybeLeaveIfEmpty
  cases hs : st.session with
  | none => left; rfl
  | some ch =>
    cases hc : cacheGet ev.channels ch with
    | none => right; simp [hc]
    | some c =>
      by_cases h : humans c = 0
      · right; simp [hc, h]
      · left; simp [hc, h]

/-- The part of C24 the code satisfies: a session opens in a guild without
session only if a target channel is resolved, the new channel of the change is
that channel and the guild has no voice connection; and with no configured
target no session ever opens. -/
theorem voiceStateUpdate_opens_only_at_target (cfg : VoiceConfig)
    (toLowerCase : String → String) (st : VoiceGuild) (ev : VoiceStateUpdate) (ch : String)
    (hnone : st.session = none)
    (hopen : (voiceStateUpdate cfg toLowerCase st ev).session = some ch) :
    (∃ target, resolveTargetVc cfg toLowerCase ev.channels = some target ∧ target.id = ch) ∧
      ev.newChannelId = some ch ∧ st.connected = false ∧
      (cfg.TARGET_VC_ID ≠ none ∨ cfg.TARGET_VC_NAME ≠ none) := by
  have key : (ensureVoiceJoined cfg toLowerCase st ev).session = some ch →
      (∃ target, resolveTargetVc cfg toLowerCase ev.channels = some target ∧ target.id = ch) ∧
        ev.newChannelId = some ch ∧ st.connected = false ∧
        (cfg.TARGET_VC_ID ≠ none ∨ cfg.TARGET_VC_NAME ≠ none) := by
    intro h
    rcases ensureVoiceJoined_session cfg toLowerCase st ev with e | ⟨target, hr, hn, hc, e⟩
    · rw [e, hnone] at h
      cases h
    · rw [e] at h
      simp only [Option.some.injEq] at h
      refine ⟨⟨target, hr, h⟩, by rw [hn, h], hc, ?_⟩
      by_contra hcfg
      simp only [not_or, not_not] at hcfg
      simp [resolveTargetVc, hcfg.1, hcfg.2] at hr
  unfold voiceStateUpdate at hopen
  split_ifs at hopen with h1 h2
  · exact key hopen
  · rcases maybeLeaveIfEmpty_session (ensureVoiceJoined cfg toLowerCase st ev) ev with e | e
    · rw [e] at hopen
      exact key hopen
    · rw [e] at hopen
      cases hopen
  · rcases maybeLeaveIfEmpty_session st ev with e | e
    · rw [e, hnone] at hopen
      cases hopen
    · rw [e] at hopen
      cases hopen

/-- C25, as stated, fails: with a session that tracks `vc1`, in which no
person is left, a fresh join into another channel is handled without the leave
condition being evaluated, and the session and its connection remain. -/
theorem voiceStateUpdate_fresh_join_skips_leave :
    joinElsewhere.isFreshJoin = true ∧
      (cacheGet joinElsewhere.channels "vc1").map humans = some 0 ∧
      voiceStateUpdate targetById asciiLower { session := some "vc1", connected := true }
          joinElsewhere =
        { session := some "vc1", connected := true } := by
  refine ⟨rfl, rfl, rfl⟩

/-- C25, amended: on every voice-state change that is not a fresh join (a
switch between channels or a leave), in a guild with a session and its
connection, the handler evaluates the leave condition: the session is discarded
and the connection destroyed whenever the tracked channel no longer exists or
holds no person; after such a change every remaining session tracks an existing
channel that holds a person.  On a fresh join the handler only runs
`ensureVoiceJoined`. -/
theorem voiceStateUpdate_leave_condition (cfg : VoiceConfig) (toLowerCase : String → String)
    (st : VoiceGuild) (ev : VoiceStateUpdate) :
    (ev.isFreshJoin = false → ∀ ch, st.session = some ch → st.connected = true →
        (cacheGet ev.channels ch = none ∨
          ∃ c, cacheGet ev.channels ch = some c ∧ humans c = 0) →
        voiceStateUpdate cfg toLowerCase st ev = { session := none, connected := false }) ∧
      (ev.isFreshJoin = false → ∀ ch,
        (voiceStateUpdate cfg toLowerCase st ev).session = some ch →
        ∃ c, cacheGet ev.channels ch = some c ∧ 0 < humans c) ∧
      (ev.isFreshJoin = true →
        voiceStateUpdate cfg toLowerCase st ev = ensureVoiceJoined cfg toLowerCase st ev) := by
  have hfresh : ev.isFreshJoin = true ↔
      (isSet ev.oldChannelId = false ∧ isSet ev.newChannelId = true) := by
    simp [VoiceStateUpdate.isFreshJoin]
  have hleave : ∀ (s : VoiceGuild) ch, (maybeLeaveIfEmpty s ev).session = some ch →
      ∃ c, cacheGet ev.channels ch = some c ∧ 0 < humans c := by
    intro s ch h
    unfold maybeLeaveIfEmpty at h
    cases hs : s.session with
    | none => simp [hs] at h
    | some ch2 =>
      cases hc : cacheGet ev.channels ch2 with
      | none => simp [hs, hc] at h
      | some c =>
        by_cases hh : humans c = 0
        · simp [hs, hc, hh] at h
        · simp only [hs, hc, hh, if_false] at h
          cases h
          exact ⟨c, hc, Nat.pos_of_ne_zero hh⟩
  refine ⟨?_, ?_, ?_⟩
  · intro hnf ch hs hconn hgone
    have hnot : ¬ (isSet ev.oldChannelId = false ∧ isSet ev.newChannelId = true) := by
      rw [← hfresh, hnf]
      simp
    have hens : ensureVoiceJoined cfg toLowerCase st ev = st := by
      rcases ensureVoiceJoined_session cfg toLowerCase st ev with e | ⟨_, _, _, hc, _⟩
      · exact e
      · rw [hconn] at hc
        cases hc
    have hml : maybeLeaveIfEmpty st ev = { session := none, connected := false } := by
      unfold maybeLeaveIfEmpty
      rcases hgone with hg | ⟨c, hg, h0⟩
      · simp [hs, hg]
      · simp [hs, hg, h0]
    unfold voiceStateUpdate
    rw [if_neg hnot]
    split_ifs
    · rw [hens]; exact hml
    · exact hml
  · intro hnf ch hres
    have hnot : ¬ (isSet ev.oldChannelId = false ∧ isSet ev.newChannelId = true) := by
      rw [← hfresh, hnf]
      simp
    unfold voiceStateUpdate at hres
    rw [if_neg hnot] at hres
    exact hleave _ ch hres
  · intro hf
    unfold voiceStateUpdate
    rw [if_pos (hfresh.1 hf)]

theorem voiceStateUpdate_leave_condition_witness :
    lastPersonLeaves.isFreshJoin = false ∧
      (∃ c, cacheGet lastPersonLeaves.channels "vc1" = some c ∧ humans c = 0) ∧
      voiceStateUpdate targetById asciiLower { session := some "vc1", connected := true }
          lastPersonLeaves =
        { session := none, connected := false } :=
  have hgone : ∃ c, cacheGet lastPersonLeaves.channels "vc1" = some c ∧ humans c = 0 :=
    ⟨_, rfl, rfl⟩
  ⟨rfl, hgone,
    (voiceStateUpdate_leave_condition targetById asciiLower
      { session := some "vc1", connected := true } lastPersonLeaves).1 rfl "vc1" rfl rfl
      (Or.inr hgone)⟩

/-! ## Insults and profanity in the policy table -/

/-- C26, as stated, fails: `ACTION_POLICY` gives `hate_harassment` the severity
`high` and `profanity` the severity `low`, so changing the category of an
unsafe verdict from one to the other changes the severity of the Decision. -/
theorem hate_harassment_and_profanity_differ :
    assocGet ACTION_POLICY "hate_harassment" = some (policyEntry "high" "kick") ∧
      assocGet ACTION_POLICY "profanity" = some (policyEntry "low" "warn") ∧
      insultVerdict.safe = false ∧
      decideAction insultVerdict = .ok (policyEntry "high" "kick") ∧
      decideAction swearVerdict = .ok (policyEntry "low" "warn") ∧
      (policyEntry "high" "kick").get "severity" = .str "high" ∧
      (policyEntry "low" "warn").get "severity" = .str "low" ∧
      (policyEntry "high" "kick").get "severity" ≠ (policyEntry "low" "warn").get "severity" := by
  refine ⟨rfl, rfl, rfl, rfl, rfl, rfl, rfl, ?_⟩
  have h1 : (policyEntry "high" "kick").get "severity" = .str "high" := rfl
  have h2 : (policyEntry "low" "warn").get "severity" = .str "low" := rfl
  rw [h1, h2]
  simp

/-- C26, amended: for every unsafe verdict, the Decision is `{severity: high,
action: kick}` when the category is `hate_harassment` and `{severity: low,
action: warn}` when it is `profanity`, whatever the other fields are. -/
theorem decideAction_hate_harassment_and_profanity (ai : Verdict) (hsafe : ai.safe = false) :
    (ai.category = .str "hate_harassment" →
        decideAction ai = .ok (.obj [("severity", .str "high"), ("action", .str "kick")])) ∧
      (ai.category = .str "profanity" →
        decideAction ai = .ok (.obj [("severity", .str "low"), ("action", .str "warn")])) := by
  constructor
  · intro hcat
    exact decideAction_unsafe_listed ai "hate_harassment" _ hcat hsafe rfl
  · intro hcat
    exact decideAction_unsafe_listed ai "profanity" _ hcat hsafe rfl

theorem decideAction_hate_harassment_and_profanity_witness :
    insultVerdict.safe = false ∧ insultVerdict.category = .str "hate_harassment" ∧
      decideAction insultVerdict =
        .ok (.obj [("severity", .str "high"), ("action", .str "kick")]) :=
  ⟨rfl, rfl, (decideAction_hate_harassment_and_profanity insultVerdict rfl).1 rfl⟩

/-! ## Idempotence of normalisation -/

theorem typeOf_set (v : JSVal) (k : String) (x : JSVal) : typeOf (v.set k x) = typeOf v := by
  cases v <;> rfl

theorem isNull_set (v : JSVal) (k : String) (x : JSVal) : (v.set k x).isNull = v.isNull := by
  cases v <;> rfl

/-- An object in the sense of `typeof obj === "object" && obj !== null`. -/
theorem ensureObject_object (v : JSVal) :
    typeOf (ensureObject v) = .object ∧ (ensureObject v).isNull = false := by
  unfold ensureObject
  split_ifs with h
  · exact ⟨rfl, rfl⟩
  · simp only [not_or, not_not, Bool.not_eq_true] at h
    exact h

theorem jsOr_truthy (a b : JSVal) (hb : b.truthy = true) : (jsOr a b).truthy = true := by
  unfold jsOr
  split_ifs with h
  · exact h
  · exact hb

/-- A verdict with all seven fields in place is returned unchanged. -/
theorem normalizeModeration_fixed (JSON_parse : String → Option JSVal) (v : JSVal)
    (hobj : typeOf v = .object) (hnull : v.isNull = false)
    (hsafe : typeOf (v.get "safe") = .boolean)
    (hver : (v.get "version").truthy = true) (hcat : (v.get "category").truthy = true)
    (hact : (v.get "suggested_action").truthy = true)
    (hsev : (v.get "severity").truthy = true)
    (hconf : typeOf (v.get "confidence") = .number)
    (hrat : (v.get "rationale").truthy = true) :
    normalizeModeration JSON_parse v = .ok v := by
  have hp : parsedObject JSON_parse v = v := by
    have h1 : parseRaw JSON_parse v = v := by
      cases v <;> simp [typeOf] at hobj <;> rfl
    simp [parsedObject, h1, ensureObject, hobj, hnull]
  have h1 : defaultSafe v = v := by simp [defaultSafe, hsafe]
  have h2 : defaultVersion v = v := by simp [defaultVersion, hver]
  have h3 : defaultCategory v = v := by simp [defaultCategory, hcat]
  have h4 : defaultSuggestedAction v = v := by simp [defaultSuggestedAction, hact]
  have h5 : defaultSeverity v = .ok v := defaultSeverity_of_truthy v hsev
  have h6 : defaultConfidence v = v := by simp [defaultConfidence, hconf]
  have h7 : defaultRationale v = v := by simp [defaultRationale, hrat]
  rw [normalizeModeration_eq, hp]
  simp only [beforeSeverity, h1, h2, h3, h4, h5, h6, h7]

theorem normalizeModeration_object (JSON_parse : String → Option JSVal) (raw v : JSVal)
    (hv : normalizeModeration JSON_parse raw = .ok v) :
    typeOf v = .object ∧ v.isNull = false := by
  rw [normalizeModeration_eq] at hv
  have ho := ensureObject_object (parseRaw JSON_parse raw)
  have step : ∀ (f : JSVal → JSVal) (o : JSVal),
      (f o = o ∨ ∃ k x, f o = o.set k x) →
      (typeOf o = .object ∧ o.isNull = false) →
      (typeOf (f o) = .object ∧ (f o).isNull = false) := by
    intro f o hf ho
    rcases hf with e | ⟨k, x, e⟩
    · rw [e]; exact ho
    · rw [e, typeOf_set, isNull_set]; exact ho
  have s1 := step defaultSafe _ (by unfold defaultSafe; split_ifs <;> simp) ho
  have s2 := step defaultVersion _ (by unfold defaultVersion; split_ifs <;> simp) s1
  have s3 := step defaultCategory _ (by unfold defaultCategory; split_ifs <;> simp) s2
  have s4 := step defaultSuggestedAction _
    (by unfold defaultSuggestedAction; split_ifs <;> simp) s3
  cases hs : defaultSeverity (beforeSeverity (parsedObject JSON_parse raw)) with
  | error e => rw [hs] at hv; cases hv
  | ok w =>
    rw [hs] at hv
    cases hv
    have s5 : typeOf w = .object ∧ w.isNull = false := by
      by_cases ht : ((beforeSeverity (parsedObject JSON_parse raw)).get "severity").truthy = true
      · rw [defaultSeverity_of_truthy _ ht] at hs
        cases hs
        exact s4
      · have hf : ((beforeSeverity (parsedObject JSON_parse raw)).get "severity").truthy =
            false := by simpa using ht
        cases hk : toPropertyKey
            ((beforeSeverity (parsedObject JSON_parse raw)).get "suggested_action") with
        | error e =>
          rw [defaultSeverity_of_error _ e hf hk] at hs
          cases hs
        | ok key =>
          rw [defaultSeverity_of_key _ key hf hk] at hs
          cases hs
          rw [typeOf_set, isNull_set]
          exact s4
    have s6 := step defaultConfidence _ (by unfold defaultConfidence; split_ifs <;> simp) s5
    exact step defaultRationale _ (by unfold defaultRationale; split_ifs <;> simp) s6

/-- C27: `normalizeModeration` is idempotent: a verdict it returns is returned
unchanged when it is normalised again, and an input on which it throws throws
again, so normalising twice is the same as normalising once, for every parser
and every input. -/
theorem normalizeModeration_idempotent (JSON_parse : String → Option JSVal) (raw : JSVal) :
    (∀ v, normalizeModeration JSON_parse raw = .ok v →
        normalizeModeration JSON_parse v = .ok v) ∧
      ((normalizeModeration JSON_parse raw).bind (normalizeModeration JSON_parse) =
        normalizeModeration JSON_parse raw) := by
  have main : ∀ v, normalizeModeration JSON_parse raw = .ok v →
      normalizeModeration JSON_parse v = .ok v := by
    intro v hv
    obtain ⟨hobj, hnull⟩ := normalizeModeration_object JSON_parse raw v hv
    obtain ⟨-, hsafe, hver, hcat, hact, hsev, hconf, hrat⟩ :=
      normalizeModeration_ok JSON_parse raw v hv
    apply normalizeModeration_fixed JSON_parse v hobj hnull
    · rw [hsafe]
      obtain ⟨b, hb⟩ := safeOf_bool (parsedObject JSON_parse raw)
      rw [hb]; rfl
    · rw [hver]; exact jsOr_truthy _ _ rfl
    · rw [hcat]; exact jsOr_truthy _ _ rfl
    · rw [hact]
      unfold suggestedActionOf
      apply jsOr_truthy
      split_ifs <;> rfl
    · rcases hsev with ⟨ht, e⟩ | ⟨-, key, -, e⟩
      · rw [e]; exact ht
      · rw [e]
        unfold severityOf
        apply jsOr_truthy
        split_ifs <;> rfl
    · rw [hconf]
      obtain ⟨x, hx⟩ := confidenceOf_num (parsedObject JSON_parse raw)
      rw [hx]; rfl
    · rw [hrat]; exact jsOr_truthy _ _ rfl
  refine ⟨main, ?_⟩
  cases h : normalizeModeration JSON_parse raw with
  | error e => rfl
  | ok v =>
    show normalizeModeration JSON_parse v = .ok v
    exact main v h

theorem normalizeModeration_idempotent_witness :
    normalizeModeration jsonParse (.str kickReply) =
        .ok (.obj [("safe", .bool true), ("category", .str "none"),
          ("suggested_action", .str "kick"), ("version", .str "1.0"),
          ("severity", .str "high"), ("confidence", .num (.fin 0.6)),
          ("rationale", .str "normalized")]) ∧
      normalizeModeration jsonParse
          (.obj [("safe", .bool true), ("category", .str "none"),
            ("suggested_action", .str "kick"), ("version", .str "1.0"),
            ("severity", .str "high"), ("confidence", .num (.fin 0.6)),
            ("rationale", .str "normalized")]) =
        .ok (.obj [("safe", .bool true), ("category", .str "none"),
          ("suggested_action", .str "kick"), ("version", .str "1.0"),
          ("severity", .str "high"), ("confidence", .num (.fin 0.6)),
          ("rationale", .str "normalized")]) :=
  ⟨rfl, (normalizeModeration_idempotent jsonParse (.str kickReply)).1 _ rfl⟩

/-! ## The invariant of the debounce gate -/

theorem debounceGate_pass (m : DebounceMap) (u : String) (now : ℤ)
    (h : (debounceGate m u now).1 = true) :
    lastTrigger m u + 1500 ≤ now ∧ (debounceGate m u now).2 = recordTrigger m u now := by
  by_cases hlt : now - lastTrigger m u < MIN_GAP_MS
  · simp [debounceGate, hlt] at h
  · simp only [debounceGate, hlt, if_false, and_true]
    simp only [MIN_GAP_MS, not_lt] at hlt
    omega

theorem debounceGate_ignore (m : DebounceMap) (u : String) (now : ℤ)
    (h : (debounceGate m u now).1 = false) : (debounceGate m u now).2 = m := by
  by_cases hlt : now - lastTrigger m u < MIN_GAP_MS
  · simp [debounceGate, hlt]
  · simp [debounceGate, hlt] at h

/-- The recorded trigger of a user never decreases. -/
theorem lastTrigger_mono (m : DebounceMap) (u : String) (now : ℤ) (v : String) :
    lastTrigger m v ≤ lastTrigger (debounceGate m u now).2 v := by
  cases hp : (debounceGate m u now).1
  · rw [debounceGate_ignore m u now hp]
  · obtain ⟨hle, he⟩ := debounceGate_pass m u now hp
    rw [he]
    by_cases hv : v = u
    · subst hv
      simp only [lastTrigger, recordTrigger, if_true, Option.getD_some] at hle ⊢
      omega
    · simp [lastTrigger, recordTrigger, hv]

/-- An event that passes comes at least 1500 ms after the trigger recorded for
its user when the run starts. -/
theorem debouncePassed_bound (events : List (String × ℤ)) :
    ∀ (m : DebounceMap) (e : String × ℤ), e ∈ debouncePassed m events →
      lastTrigger m e.1 + 1500 ≤ e.2 := by
  induction events with
  | nil =>
    intro m e he
    simp [debouncePassed] at he
  | cons ev rest ih =>
    obtain ⟨u, now⟩ := ev
    intro m e he
    have hmono := lastTrigger_mono m u now e.1
    cases hp : (debounceGate m u now).1
    · simp only [debouncePassed, hp, Bool.false_eq_true, if_false] at he
      have := ih _ e he
      omega
    · simp only [debouncePassed, hp, if_true, List.mem_cons] at he
      rcases he with rfl | he
      · exact (debounceGate_pass m u now hp).1
      · have := ih _ e he
        omega

theorem debouncePassed_eq (events : List (String × ℤ)) :
    ∀ m : DebounceMap, debouncePassed m events =
      ((events.zip (debounceRun m events).1).filter (fun p => p.2)).map (fun p => p.1) := by
  induction events with
  | nil => intro m; rfl
  | cons ev rest ih =>
    obtain ⟨u, now⟩ := ev
    intro m
    cases hp : (debounceGate m u now).1 <;>
      simp [debouncePassed, debounceRun, hp, ih]

/-- C28: for every sequence of speech-start events run through the gate of one
session, from any map and in particular for non-decreasing timestamps, any two
events of the same user that both pass are at least 1500 ms apart; an event
that is ignored leaves the map unchanged, and an event that passes changes only
the entry of its own user. -/
theorem debounce_invariant (m : DebounceMap) (events : List (String × ℤ)) :
    List.Pairwise (fun a b : String × ℤ => a.1 = b.1 → 1500 ≤ b.2 - a.2)
        (debouncePassed m events) ∧
      debouncePassed m events =
        ((events.zip (debounceRun m events).1).filter (fun p => p.2)).map (fun p => p.1) ∧
      (∀ u now, (debounceGate m u now).1 = false → (debounceGate m u now).2 = m) ∧
      (∀ u now v, (debounceGate m u now).1 = true → v ≠ u →
        (debounceGate m u now).2 v = m v) ∧
      (∀ u now, (debounceGate m u now).1 = true → (debounceGate m u now).2 u = some now) := by
  refine ⟨?_, debouncePassed_eq events m, debounceGate_ignore m, ?_, ?_⟩
  · induction events generalizing m with
    | nil => simp [debouncePassed]
    | cons ev rest ih =>
      obtain ⟨u, now⟩ := ev
      cases hp : (debounceGate m u now).1
      · simp only [debouncePassed, hp, Bool.false_eq_true, if_false]
        exact ih _
      · simp only [debouncePassed, hp, if_true, List.pairwise_cons]
        refine ⟨?_, ih _⟩
        intro b hb hub
        have hbound := debouncePassed_bound rest _ b hb
        rw [(debounceGate_pass m u now hp).2] at hbound
        have hub2 : u = b.1 := hub
        rw [← hub2] at hbound
        simp only [lastTrigger, recordTrigger, if_true, Option.getD_some] at hbound
        show 1500 ≤ b.2 - now
        omega
  · intro u now v hp hv
    rw [(debounceGate_pass m u now hp).2]
    simp [recordTrigger, hv]
  · intro u now hp
    rw [(debounceGate_pass m u now hp).2]
    simp [recordTrigger]

theorem debounce_invariant_witness :
    debouncePassed emptyDebounce
        [("a", 5000), ("b", 5200), ("a", 5900), ("a", 6500), ("b", 6800), ("a", 8100)] =
        [("a", 5000), ("b", 5200), ("a", 6500), ("b", 6800), ("a", 8100)] ∧
      List.Pairwise (fun a b : String × ℤ => a.1 = b.1 → 1500 ≤ b.2 - a.2)
        (debouncePassed emptyDebounce
          [("a", 5000), ("b", 5200), ("a", 5900), ("a", 6500), ("b", 6800), ("a", 8100)]) ∧
      ((debounceGate emptyDebounce "a" 5000).1 = true → "b" ≠ "a" →
        (debounceGate emptyDebounce "a" 5000).2 "b" = emptyDebounce "b") :=
  ⟨by simp [debouncePassed, debounceGate, lastTrigger, recordTrigger, emptyDebounce, MIN_GAP_MS],
    (debounce_invariant emptyDebounce
      [("a", 5000), ("b", 5200), ("a", 5900), ("a", 6500), ("b", 6800), ("a", 8100)]).1,
    (debounce_invariant emptyDebounce
      [("a", 5000), ("b", 5200), ("a", 5900), ("a", 6500), ("b", 6800), ("a", 8100)]).2.2.2.1
      "a" 5000 "b"⟩

/-! ## The URL check of the demo server -/

/-- C29: in `analyzeURLAdvanced` the trusted domains are checked first: for
every URL whose lower-cased form contains an entry of `safeDomains`, the result
is `safe: true` with confidence 0.95, also when the URL contains a blocked
domain or a suspicious keyword; and a URL is reported `safe: false` only if it
contains no trusted domain and contains a blocked domain or a suspicious
keyword. -/
theorem analyzeURLAdvanced_trusted_first (toLowerCase : String → String) (url : String) :
    ((∃ d ∈ safeDomains, includes (toLowerCase url) d = true) →
        (analyzeURLAdvanced toLowerCase url).safe = true ∧
          (analyzeURLAdvanced toLowerCase url).confidence = 0.95) ∧
      ((analyzeURLAdvanced toLowerCase url).safe = false →
        (∀ d ∈ safeDomains, includes (toLowerCase url) d = false) ∧
          ((∃ d ∈ blockedDomains, includes (toLowerCase url) d = true) ∨
            ∃ k ∈ suspiciousKeywords, includes (toLowerCase url) k = true)) := by
  constructor
  · rintro ⟨d, hd, hin⟩
    cases hf : safeDomains.find? (fun safeDomain => includes (toLowerCase url) safeDomain) with
    | none =>
      have := List.find?_eq_none.1 hf d hd
      simp [hin] at this
    | some x => simp [analyzeURLAdvanced, hf]
  · intro hverdict
    cases hf : safeDomains.find? (fun safeDomain => includes (toLowerCase url) safeDomain) with
    | some x => simp [analyzeURLAdvanced, hf] at hverdict
    | none =>
      refine ⟨fun d hd => by simpa using List.find?_eq_none.1 hf d hd, ?_⟩
      cases hb : blockedDomains.find? (fun domain => includes (toLowerCase url) domain) with
      | some x =>
        left
        exact ⟨x, List.mem_of_find?_eq_some hb, by simpa using List.find?_some hb⟩
      | none =>
        cases hk : suspiciousKeywords.find?
            (fun keyword => includes (toLowerCase url) keyword) with
        | some x =>
          right
          exact ⟨x, List.mem_of_find?_eq_some hk, by simpa using List.find?_some hk⟩
        | none => simp [analyzeURLAdvanced, hf, hb, hk] at hverdict

theorem analyzeURLAdvanced_trusted_first_witness :
    (∃ d ∈ safeDomains,
        includes (asciiLower "https://pornhub.com/watch?ref=YouTube.com") d = true) ∧
      (∃ d ∈ blockedDomains,
        includes (asciiLower "https://pornhub.com/watch?ref=YouTube.com") d = true) ∧
      (analyzeURLAdvanced asciiLower "https://pornhub.com/watch?ref=YouTube.com").safe = true ∧
      (analyzeURLAdvanced asciiLower "https://pornhub.com/watch?ref=YouTube.com").confidence =
        0.95 :=
  have hs : ∃ d ∈ safeDomains,
      includes (asciiLower "https://pornhub.com/watch?ref=YouTube.com") d = true :=
    ⟨"youtube.com", by decide, rfl⟩
  ⟨hs, ⟨"pornhub.com", by decide, rfl⟩,
    (analyzeURLAdvanced_trusted_first asciiLower
      "https://pornhub.com/watch?ref=YouTube.com").1 hs⟩

/-! ## Further facts on the message handler -/

/-- A message whose author is a bot is ignored: the handler makes no call. -/
theorem messageCreate_of_bot_author (JSON_parse : String → Option JSVal)
    (toLowerCase : String → String) (urlPathname : String → Option String)
    (cl : Classifiers) (message : Message) (hauthor : message.authorBot = true) :
    messageCreate JSON_parse toLowerCase urlPathname cl message = [] := by
  simp [messageCreate, hauthor]

/-- A declared media type is not both `image/*` and `video/*`. -/
theorem mediaTests_mime_exclusive (toLowerCase : String → String)
    (urlPathname : String → Option String) (att : Attachment)
    (h : (mediaTests toLowerCase urlPathname att).byMimeVideo = true) :
    (mediaTests toLowerCase urlPathname att).byMimeImage = false := by
  have hv : "video/".toList = ['v', 'i', 'd', 'e', 'o', '/'] := rfl
  have hi : "image/".toList = ['i', 'm', 'a', 'g', 'e', '/'] := rfl
  simp only [mediaTests, hv, hi] at h ⊢
  generalize (toLowerCase att.contentType).toList = l at h ⊢
  rcases l with _ | ⟨c, cs⟩
  · simp [List.isPrefixOf] at h
  · simp only [List.isPrefixOf, Bool.and_eq_true, beq_iff_eq] at h
    have hc : c = 'v' := h.1.symm
    subst hc
    simp [List.isPrefixOf]

/-- An attachment declared `video/*` is classified as a video when neither its
file name nor its URL path has an image extension. -/
theorem mediaKind_of_declared_video (toLowerCase : String → String)
    (urlPathname : String → Option String) (att : Attachment)
    (hmime : (mediaTests toLowerCase urlPathname att).byMimeVideo = true)
    (hname : (mediaTests toLowerCase urlPathname att).byNameImage = false)
    (hurl : (mediaTests toLowerCase urlPathname att).byUrlImage = false) :
    mediaKind toLowerCase urlPathname att = .video := by
  have himg := mediaTests_mime_exclusive toLowerCase urlPathname att hmime
  simp [mediaKind, himg, hname, hurl, hmime]

end Kojo
